import Mathlib

/-!
# PolicyLens-Agent: verification of the response-normalization and
failure-classification pipeline

This development shallowly embeds the Python backend of PolicyLens-Agent
(src/backend/agent.py, src/backend/main.py, src/backend/tools.py) and proves
or refutes the frozen specification claims about it.

Modelling conventions:
* JSON-like Python values are the inductive type JVal; dicts are
  insertion-ordered association lists (as in CPython), sets/updates keep the
  position of an existing key and append new keys.
* Python exceptions are modelled by the Except monad with the PyErr type;
  exception messages are carried as strings (their exact wording only feeds
  the generic-error excerpt in the degraded result).
* Strings are treated at ASCII fidelity: str.lower/str.title/str.strip and
  the regex character class of whitespace are modelled over ASCII, which
  covers every string the claims mention.
* JSON numbers are modelled as integers; the claims under study never
  depend on fractional JSON payload numbers.
-/

namespace PolicyLens

/-- JSON-like Python values, the data that flows through the normalization
pipeline of src/backend/agent.py. -/
inductive JVal where
  | jnull
  | jbool (b : Bool)
  | jint (n : Int)
  | jstr (s : String)
  | jarr (elems : List JVal)
  | jobj (fields : List (String × JVal))
  deriving Repr, Inhabited

/-- Python exception classes raised by the modelled code paths. -/
inductive PyErr where
  | typeError (msg : String)
  | attributeError (msg : String)
  | valueError (msg : String)
  | keyError (msg : String)
  deriving Repr, DecidableEq, Inhabited

/-- str(e) of a Python exception: just its message. -/
def PyErr.msg : PyErr → String
  | .typeError m => m
  | .attributeError m => m
  | .valueError m => m
  | .keyError m => m

/-- repr(e) of a Python exception: ClassName('message'). -/
def PyErr.reprStr : PyErr → String
  | .typeError m => "TypeError('" ++ m ++ "')"
  | .attributeError m => "AttributeError('" ++ m ++ "')"
  | .valueError m => "ValueError('" ++ m ++ "')"
  | .keyError m => "KeyError('" ++ m ++ "')"

/-- The characters matched by the regex class of whitespace and stripped by
str.strip() (ASCII range). -/
def pyIsSpace (c : Char) : Bool :=
  c = ' ' || c = '\t' || c = '\n' || c = '\x0d' || c = '\x0b' || c = '\x0c'

/-- str.strip() at character level: drop leading and trailing whitespace. -/
def stripCh (l : List Char) : List Char :=
  ((l.dropWhile pyIsSpace).reverse.dropWhile pyIsSpace).reverse

/-- str.strip() with no arguments. -/
def pyStrip (s : String) : String := .mk (stripCh s.data)

/-- str.lower() (ASCII). -/
def pyLower (s : String) : String :=
  .mk (s.data.map Char.toLower)

/-- Does the list hay start with the list needle? -/
def listStarts : List Char → List Char → Bool
  | [], _ => true
  | _ :: _, [] => false
  | a :: as, b :: bs => (a == b) && listStarts as bs

/-- Does needle occur as a contiguous subsequence of hay? -/
def listContainsSeq (needle : List Char) : List Char → Bool
  | [] => needle.isEmpty
  | c :: rest => listStarts needle (c :: rest) || listContainsSeq needle rest

/-- Python substring/containment test needle in hay for strings. -/
def strIn (needle hay : String) : Bool :=
  listContainsSeq needle.data hay.data

/-- Association-list lookup for a Python dict (first binding of the key). -/
def lookupKey : List (String × JVal) → String → Option JVal
  | [], _ => none
  | (k, v) :: rest, key => if k = key then some v else lookupKey rest key

/-- Python dict item assignment d[key] = v: replace in place if the key is
present, append otherwise. -/
def setKey : List (String × JVal) → String → JVal → List (String × JVal)
  | [], key, v => [(key, v)]
  | (k, w) :: rest, key, v =>
      if k = key then (key, v) :: rest else (k, w) :: setKey rest key v

mutual

/-- Python repr() of a JSON-like value (string escaping inside repr is not
modelled; it only feeds log-style text, never a claim). -/
def pyRepr : JVal → String
  | .jnull => "None"
  | .jbool b => if b then "True" else "False"
  | .jint n => toString n
  | .jstr s => "'" ++ s ++ "'"
  | .jarr xs => "[" ++ String.intercalate ", " (pyReprList xs) ++ "]"
  | .jobj kvs => "\x7b" ++ String.intercalate ", " (pyReprFields kvs) ++ "\x7d"

/-- repr of each element of a Python list. -/
def pyReprList : List JVal → List String
  | [] => []
  | x :: xs => pyRepr x :: pyReprList xs

/-- repr of each binding of a Python dict. -/
def pyReprFields : List (String × JVal) → List String
  | [] => []
  | (k, v) :: rest => ("'" ++ k ++ "': " ++ pyRepr v) :: pyReprFields rest

end

/-- Python str() of a JSON-like value. -/
def pyStrOf : JVal → String
  | .jnull => "None"
  | .jbool b => if b then "True" else "False"
  | .jint n => toString n
  | .jstr s => s
  | v => pyRepr v

/-- Python truthiness of a JSON-like value. -/
def pyTruthy : JVal → Bool
  | .jnull => false
  | .jbool b => b
  | .jint n => n != 0
  | .jstr s => s != ""
  | .jarr xs => !xs.isEmpty
  | .jobj kvs => !kvs.isEmpty

/-- Python equality test x == needle between a value and a string literal
(a non-string value never equals a string). -/
def isStrVal (needle : String) : JVal → Bool
  | .jstr s => s == needle
  | _ => false

/-- Python membership test key in container for a string key. -/
def pyContainsStr (needle : String) (container : JVal) : Except PyErr Bool :=
  match container with
  | .jstr s => .ok (strIn needle s)
  | .jarr xs => .ok (xs.any (isStrVal needle))
  | .jobj kvs => .ok (lookupKey kvs needle).isSome
  | _ => .error (.typeError "argument of type is not iterable")

/-- Python subscript container[key] with a string key. -/
def pyGetItem (container : JVal) (k : String) : Except PyErr JVal :=
  match container with
  | .jobj kvs =>
      match lookupKey kvs k with
      | some v => .ok v
      | none => .error (.keyError k)
  | .jstr _ => .error (.typeError "string indices must be integers")
  | .jarr _ => .error (.typeError "list indices must be integers, not str")
  | _ => .error (.typeError "object is not subscriptable")

/-- Python subscript assignment container[key] = v with a string key. -/
def pySetItem (container : JVal) (k : String) (v : JVal) : Except PyErr JVal :=
  match container with
  | .jobj kvs => .ok (.jobj (setKey kvs k v))
  | .jstr _ => .error (.typeError "str object does not support item assignment")
  | .jarr _ => .error (.typeError "list indices must be integers, not str")
  | _ => .error (.typeError "object does not support item assignment")

/-- Python iteration over a value: lists yield elements, strings yield
one-character strings, dicts yield their keys. -/
def pyIterElems : JVal → Except PyErr (List JVal)
  | .jarr xs => .ok xs
  | .jstr s => .ok (s.data.map (fun c => .jstr (.mk [c])))
  | .jobj kvs => .ok (kvs.map (fun kv => JVal.jstr kv.1))
  | _ => .error (.typeError "object is not iterable")

/-- Python len() of a value. -/
def pyLen : JVal → Except PyErr Nat
  | .jstr s => .ok s.length
  | .jarr xs => .ok xs.length
  | .jobj kvs => .ok kvs.length
  | _ => .error (.typeError "object has no len")

/-- Python prefix slice container[:n]. -/
def pySliceTo (v : JVal) (n : Nat) : Except PyErr JVal :=
  match v with
  | .jarr xs => .ok (.jarr (xs.take n))
  | .jstr s => .ok (.jstr (.mk (s.data.take n)))
  | _ => .error (.typeError "unhashable type: slice")

/-! ## Configuration constants (src/backend/config.py) -/

/-- MAX_AFFECTED_GROUPS = 3 -/
def MAX_AFFECTED_GROUPS : Nat := 3

/-- MAX_MITIGATIONS = 5 -/
def MAX_MITIGATIONS : Nat := 5

/-- REASONING_SUMMARY_MAX_WORDS = 35 -/
def REASONING_SUMMARY_MAX_WORDS : Nat := 35

/-! ## String helpers used by the pipeline -/

/-- Helper for str.title(): the carried flag records whether the previous
character was cased (alphabetic). -/
def pyTitleAux : Bool → List Char → List Char
  | _, [] => []
  | prevCased, c :: rest =>
      if c.isAlpha then
        (if prevCased then c.toLower else c.toUpper) :: pyTitleAux true rest
      else
        c :: pyTitleAux false rest

/-- Python str.title() (ASCII): uppercase each letter that follows a
non-letter, lowercase each letter that follows a letter. -/
def pyTitle (s : String) : String := .mk (pyTitleAux false s.data)

/-- Replace each maximal nonempty run of characters satisfying p by a single
space: the effect of re.sub of a one-or-more character class with a space. -/
def collapseRunsAux (p : Char → Bool) : List Char → List Char
  | [] => []
  | c :: rest =>
      if p c then ' ' :: collapseRunsAux p (rest.dropWhile p)
      else c :: collapseRunsAux p rest
termination_by l => l.length
decreasing_by
  · exact Nat.lt_succ_of_le ((List.dropWhile_suffix p).length_le)
  · simp

/-- String version of collapseRunsAux. -/
def collapseRuns (p : Char → Bool) (s : String) : String :=
  .mk (collapseRunsAux p s.data)

/-- str.split() with no arguments, at character level: split on whitespace
runs, dropping empty pieces.  The accumulator holds the current word
reversed. -/
def wordsChAux : List Char → List Char → List (List Char)
  | acc, [] => if acc.isEmpty then [] else [acc.reverse]
  | acc, c :: rest =>
      if pyIsSpace c then
        if acc.isEmpty then wordsChAux [] rest
        else acc.reverse :: wordsChAux [] rest
      else wordsChAux (c :: acc) rest

/-- str.split() with no arguments. -/
def pyWords (s : String) : List String :=
  (wordsChAux [] s.data).map (fun w => String.mk w)

/-- ' '.join at character level: words separated by single spaces. -/
def joinCh : List (List Char) → List Char
  | [] => []
  | [w] => w
  | w :: ws => w ++ ' ' :: joinCh ws

/-- ' '.join(words). -/
def joinSpace (ws : List String) : String :=
  .mk (joinCh (ws.map String.data))

/-- str.endswith('.'): the last character is a period. -/
def endsWithDot (s : String) : Bool :=
  match s.data.getLast? with
  | some c => c == '.'
  | none => false

/-! ## The normalization pipeline (src/backend/agent.py lines 202-317) -/

/-- The risk-level mapping of lines 210-220, applied to the stripped risk
string: lower-case it, map the recognized forms, default to Medium. -/
def riskNormStr (risk : String) : String :=
  let riskLower := pyLower risk
  if riskLower = "low" || riskLower = "l" then "Low"
  else if riskLower = "medium" || riskLower = "med" || riskLower = "m" then
    "Medium"
  else if riskLower = "high" || riskLower = "h" then "High"
  else "Medium"

/-- Risk-level normalization of one affected group
(PolicyImpactAgent._apply_deterministic_rules, loop body, lines 206-220). -/
def adrGroup (g : JVal) : Except PyErr JVal := do
  if (← pyContainsStr "risk_level" g) then
    let rv ← pyGetItem g "risk_level"
    let risk ← match rv with
      | .jstr s => pure (pyStrip s)
      | _ => throw (.attributeError "object has no attribute strip")
    pySetItem g "risk_level" (.jstr (riskNormStr risk))
  else
    pure g

/-- The shared shape of the loops for group in result of the pipeline
steps: iterate the affected_groups container, applying the loop body f to
each element; for a list the (possibly mutated) elements are stored back,
for a string or dict the yielded elements are immutable strings, and any
other container raises TypeError. -/
def runGroupLoop (f : JVal → Except PyErr JVal) (result ag : JVal) :
    Except PyErr JVal :=
  match ag with
  | .jarr gs => do
      let gs2 ← gs.mapM f
      pySetItem result "affected_groups" (.jarr gs2)
  | .jstr s => do
      let _ ← (s.data.map (fun c => JVal.jstr (.mk [c]))).mapM f
      pure result
  | .jobj kvs => do
      let _ ← (kvs.map (fun kv => JVal.jstr kv.1)).mapM f
      pure result
  | _ => .error (.typeError "object is not iterable")

/-- The guarded loop if affected_groups in result: for group in ... shared
by _apply_deterministic_rules and _normalize_regions. -/
def forEachGroup (f : JVal → Except PyErr JVal) (result : JVal) :
    Except PyErr JVal := do
  if (← pyContainsStr "affected_groups" result) then
    let ag ← pyGetItem result "affected_groups"
    runGroupLoop f result ag
  else
    pure result

/-- PolicyImpactAgent._apply_deterministic_rules (lines 202-222). -/
def applyDeterministicRules (result : JVal) : Except PyErr JVal :=
  forEachGroup adrGroup result

/-- Reasoning-summary normalization: the else branch of lines 257-268 of
_apply_anchoring_logic (strip, collapse whitespace runs, collapse newline
runs, truncate to 35 words appending a period if needed). -/
def normalizeSummaryCode (s : String) : String :=
  let summary := pyStrip s
  let summary := collapseRuns pyIsSpace summary
  let summary := collapseRuns (fun c => c = '\n') summary
  let words := pyWords summary
  if words.length > REASONING_SUMMARY_MAX_WORDS then
    let summary := joinSpace (words.take REASONING_SUMMARY_MAX_WORDS)
    if endsWithDot summary then summary else summary ++ "."
  else summary

/-- Structural repair of one affected group
(_apply_anchoring_logic, loop body, lines 236-245). -/
def anchorGroup (g : JVal) : Except PyErr JVal := do
  let hasGroup ← pyContainsStr "group" g
  let needName ←
    if hasGroup then do
      let gv ← pyGetItem g "group"
      pure (!pyTruthy gv)
    else
      pure true
  let g ← if needName then pySetItem g "group" (.jstr "Unspecified group")
          else pure g
  let hasRisk ← pyContainsStr "risk_level" g
  let g ← if hasRisk then pure g else pySetItem g "risk_level" (.jstr "Medium")
  let hasRegions ← pyContainsStr "regions" g
  let g ← if hasRegions then pure g else pySetItem g "regions" (.jarr [])
  let rv ← pyGetItem g "regions"
  match rv with
  | .jarr _ => pure g
  | v => pySetItem g "regions" (if pyTruthy v then .jarr [v] else .jarr [])

/-- PolicyImpactAgent._apply_anchoring_logic (lines 224-270). -/
def applyAnchoringLogic (result : JVal) : Except PyErr JVal := do
  let hasAg ← pyContainsStr "affected_groups" result
  let result ← if hasAg then pure result
               else pySetItem result "affected_groups" (.jarr [])
  let ag ← pyGetItem result "affected_groups"
  let n ← pyLen ag
  let result ←
    if n > MAX_AFFECTED_GROUPS then do
      let sliced ← pySliceTo ag MAX_AFFECTED_GROUPS
      pySetItem result "affected_groups" sliced
    else
      pure result
  let ag ← pyGetItem result "affected_groups"
  let result ← runGroupLoop anchorGroup result ag
  let hasMit ← pyContainsStr "mitigations" result
  let result ← if hasMit then pure result
               else pySetItem result "mitigations" (.jarr [])
  let mit ← pyGetItem result "mitigations"
  let m ← pyLen mit
  let result ←
    if m > MAX_MITIGATIONS then do
      let sliced ← pySliceTo mit MAX_MITIGATIONS
      pySetItem result "mitigations" sliced
    else
      pure result
  let hasSum ← pyContainsStr "reasoning_summary" result
  if !hasSum then
    pySetItem result "reasoning_summary" (.jstr "Analysis completed.")
  else do
    let sv ← pyGetItem result "reasoning_summary"
    match sv with
    | .jstr s =>
        pySetItem result "reasoning_summary" (.jstr (normalizeSummaryCode s))
    | _ => throw (.attributeError "object has no attribute strip")

/-- The static city-to-state alias table
(PolicyImpactAgent.deterministic_rules, region_mapping.cities_to_states,
lines 62-74). -/
def citiesToStates : List (String × String) :=
  [("Mumbai", "Maharashtra"), ("Delhi", "Delhi"), ("Bangalore", "Karnataka"),
   ("Chennai", "Tamil Nadu"), ("Kolkata", "West Bengal"),
   ("Hyderabad", "Telangana"), ("Pune", "Maharashtra"),
   ("Ahmedabad", "Gujarat")]

/-- Lookup in the city-to-state table (exact match). -/
def lookupCity : List (String × String) → String → Option String
  | [], _ => none
  | (k, v) :: rest, key => if k = key then some v else lookupCity rest key

/-- Normalization of one region entry (lines 281-288): stringify, strip,
map through the city table on exact match, else title-case. -/
def normalizeRegionVal (region : JVal) : String :=
  let rs := pyStrip (pyStrOf region)
  match lookupCity citiesToStates rs with
  | some st => st
  | none => pyTitle rs

/-- Order-preserving de-duplication (lines 289-291): keep the first
occurrence of each string. -/
def dedupKeepOrderAux (seen : List String) : List String → List String
  | [] => []
  | r :: rest =>
      if seen.contains r then dedupKeepOrderAux seen rest
      else r :: dedupKeepOrderAux (r :: seen) rest

/-- Order-preserving de-duplication of a region list. -/
def dedupKeepOrder (l : List String) : List String := dedupKeepOrderAux [] l

/-- Region normalization of one affected group
(_normalize_regions, loop body, lines 278-291). -/
def nrGroup (g : JVal) : Except PyErr JVal := do
  let hasRegions ← pyContainsStr "regions" g
  if hasRegions then do
    let rv ← pyGetItem g "regions"
    match rv with
    | .jarr rs =>
        let normalized := rs.map normalizeRegionVal
        pySetItem g "regions" (.jarr ((dedupKeepOrder normalized).map JVal.jstr))
    | _ => pure g
  else
    pure g

/-- PolicyImpactAgent._normalize_regions (lines 272-293). -/
def normalizeRegions (result : JVal) : Except PyErr JVal :=
  forEachGroup nrGroup result

/-- The final required-key repair of _post_process_normalize (lines 307-315):
if key not in result, install the default. -/
def ensureKey (result : JVal) (k : String) (dflt : JVal) : Except PyErr JVal := do
  if (← pyContainsStr k result) then pure result else pySetItem result k dflt

/-- PolicyImpactAgent._post_process_normalize (lines 295-317): the full
normalization pipeline. -/
def postProcessNormalize (result : JVal) : Except PyErr JVal := do
  let result ← applyDeterministicRules result
  let result ← applyAnchoringLogic result
  let result ← normalizeRegions result
  match result with
  | .jobj _ =>
      let result ← ensureKey result "affected_groups" (.jarr [])
      let result ← ensureKey result "mitigations" (.jarr [])
      ensureKey result "reasoning_summary" (.jstr "Analysis completed.")
  | _ => throw (.valueError "Result must be a dictionary")

/-! ## Markdown-fence recovery (src/backend/agent.py lines 429-433) -/

/-- Greedy tail of the leading-fence regex after the optional json tag: a
whitespace run that must contain a newline; the match consumes through the
last newline of the run.  Returns the remainder on success. -/
def fenceTailChop (rest : List Char) : Option (List Char) :=
  let w := rest.takeWhile pyIsSpace
  match w.reverse.findIdx? (fun c => c = '\n') with
  | some j => some (rest.drop (w.length - j))
  | none => none

/-- The first re.sub of line 432: remove a leading fence, optionally tagged
json, through the newline that ends the fence line; no change if the pattern
does not match. -/
def stripLeadFence (text : String) : String :=
  let l := text.data
  if listStarts "```".data l then
    let rest := l.drop 3
    let attempt1 :=
      if listStarts "json".data rest then fenceTailChop (rest.drop 4) else none
    match attempt1 with
    | some r => .mk r
    | none =>
        match fenceTailChop rest with
        | some r => .mk r
        | none => text
  else text

/-- The second re.sub of line 433: remove a trailing fence, i.e. a newline
followed by three backticks followed only by whitespace up to the end of the
string (the end-anchor makes any other tail fail to match). -/
def stripTrailFenceAux : List Char → List Char
  | [] => []
  | c :: rest =>
      if c = '\n' && listStarts "```".data rest && (rest.drop 3).all pyIsSpace
      then []
      else c :: stripTrailFenceAux rest

/-- String version of stripTrailFenceAux. -/
def stripTrailFence (text : String) : String := .mk (stripTrailFenceAux text.data)

/-! ## Retry-delay extraction (src/backend/agent.py lines 399-404, 473-478)

The regex searched, over the lower-cased concatenation of str(e) and
repr(e), is: the literal "retry in ", one or more digits, an optional dot,
zero or more digits, optional whitespace, the letter s.  The digit runs are
greedy; backtracking never helps (shrinking a digit run leaves a digit where
the pattern next requires a dot, whitespace or the letter s), so maximal-run
matching below is exact. -/

/-- After the whitespace of the optional run, the next character must be the
literal s for the retry pattern to complete. -/
def retryTailOk (r : List Char) : Bool :=
  match r.dropWhile pyIsSpace with
  | c :: _ => c == 's'
  | [] => false

/-- Attempt the retry-delay pattern at the head of the list, returning the
captured number group on success. -/
def matchRetryAt (l : List Char) : Option String :=
  if listStarts "retry in ".data l then
    let rest := l.drop 9
    let ds := rest.takeWhile Char.isDigit
    if ds.isEmpty then none
    else
      let rest2 := rest.drop ds.length
      match rest2 with
      | '.' :: rest3 =>
          let ds2 := rest3.takeWhile Char.isDigit
          if retryTailOk (rest3.drop ds2.length) then
            some (.mk (ds ++ '.' :: ds2))
          else none
      | _ => if retryTailOk rest2 then some (.mk ds) else none
  else none

/-- re.search for the retry-delay pattern: try every position left to right
and return the first captured group. -/
def searchRetry : List Char → Option String
  | [] => none
  | c :: rest =>
      match matchRetryAt (c :: rest) with
      | some g => some g
      | none => searchRetry rest

/-- Value of a digit run as a natural number. -/
def digitsToNat (l : List Char) : Nat :=
  l.foldl (fun acc c => acc * 10 + (c.toNat - 48)) 0

/-- str(int(float(g))) of a captured nonnegative decimal group: the integer
part of the decimal literal (int() truncates toward zero). -/
def floorOfDecimal (g : String) : Nat :=
  digitsToNat (g.data.takeWhile Char.isDigit)

/-- Lines 400-404 and 474-478: start from "60", and overwrite with the
floored captured number when the guard tokens are present and the pattern
matches. -/
def extractRetryDelay (errorLower : String) : String :=
  if strIn "retry" errorLower && strIn "in" errorLower then
    match searchRetry errorLower.data with
    | some g => toString (floorOfDecimal g)
    | none => "60"
  else "60"

/-! ## Failure classification and degraded results
(src/backend/agent.py lines 385-421 and 455-522) -/

/-- The synthesized degraded result for quota exhaustion
(lines 407-418, identical at lines 481-491). -/
def quotaResult (retryDelay : String) : JVal :=
  .jobj
    [("affected_groups", .jarr
       [.jobj [("group", .jstr "API Quota Exceeded"),
               ("risk_level", .jstr "Unknown"),
               ("regions", .jarr [])]]),
     ("mitigations", .jarr
       [.jstr "API quota limit reached. Please wait before retrying.",
        .jstr ("Retry after " ++ retryDelay ++ " seconds."),
        .jstr "Check your Gemini API quota and billing details at https://ai.dev/usage",
        .jstr "Consider upgrading your API plan for higher limits"]),
     ("reasoning_summary", .jstr
       ("API quota exceeded. Free tier limit of 20 requests/day reached. Please retry after "
         ++ retryDelay ++ " seconds or upgrade your API plan.")),
     ("is_error", .jbool true),
     ("error_type", .jstr "quota_exceeded")]

/-- The synthesized degraded result for authentication failures
(lines 498-508). -/
def authResult : JVal :=
  .jobj
    [("affected_groups", .jarr
       [.jobj [("group", .jstr "API Authentication Error"),
               ("risk_level", .jstr "Unknown"),
               ("regions", .jarr [])]]),
     ("mitigations", .jarr
       [.jstr "Invalid or expired API key.",
        .jstr "Please check your Gemini API key configuration.",
        .jstr "Update the API key in environment variables or config."]),
     ("reasoning_summary", .jstr "API authentication failed. Please verify your API key."),
     ("is_error", .jbool true),
     ("error_type", .jstr "authentication_error")]

/-- The cleaned message of the generic degraded branch (lines 511-514). -/
def cleanGeneric (estr : String) : String :=
  let c := if estr.length > 150 then String.mk (estr.data.take 150) else estr
  if strIn "\x7b'error':" c || strIn "\x7b\"error\":" c then
    "An unexpected error occurred during analysis."
  else c

/-- The synthesized degraded result for any other failure (lines 516-522). -/
def genericResult (estr : String) : JVal :=
  .jobj
    [("affected_groups", .jarr
       [.jobj [("group", .jstr "Error analyzing data"),
               ("risk_level", .jstr "Unknown"),
               ("regions", .jarr [])]]),
     ("mitigations", .jarr
       [.jstr "Please try again. If the error persists, check your API configuration."]),
     ("reasoning_summary", .jstr (cleanGeneric estr)),
     ("is_error", .jbool true),
     ("error_type", .jstr "generic_error")]

/-- The quota test of lines 391-396 over str(e) and repr(e); the outer
handler (lines 470-472) applies the same tokens to the lower-cased
concatenation, which is the same test since ASCII lower-casing distributes
over concatenation. -/
def isQuotaError (estr erepr : String) : Bool :=
  let combined := pyLower estr ++ " " ++ pyLower erepr
  strIn "429" estr || strIn "429" erepr ||
    strIn "resource_exhausted" combined || strIn "quota" combined

/-- The authentication test of lines 495-497 (the numeric codes are looked
for in str(e) only). -/
def isAuthError (estr erepr : String) : Bool :=
  let combined := pyLower estr ++ " " ++ pyLower erepr
  strIn "401" estr || strIn "403" estr ||
    strIn "authentication" combined || strIn "invalid api key" combined

/-- Classification of a raised exception, given str(e) and repr(e): the
inner handler (lines 385-421) substitutes the quota result and re-raises
anything else; the outer handler (lines 463-522) re-applies the identical
quota test, then the authentication test, then the generic branch. -/
def classifyFailureStr (estr erepr : String) : JVal :=
  let combined := pyLower estr ++ " " ++ pyLower erepr
  if isQuotaError estr erepr then quotaResult (extractRetryDelay combined)
  else if isAuthError estr erepr then authResult
  else genericResult estr

/-- The result returned for an empty model response (lines 448-453). -/
def emptyResponseResult : JVal :=
  .jobj [("affected_groups", .jarr []),
         ("mitigations", .jarr []),
         ("reasoning_summary", .jstr "Model returned no text.")]

/-! ## analyze (src/backend/agent.py lines 319-522) -/

/-- The observable behaviour of the external model call: either raw response
text (empty models a falsy response.text) or a raised transport exception,
observed through str(e) and repr(e). -/
inductive ModelOutcome where
  | success (text : String)
  | apiError (estr erepr : String)
  deriving Repr, Inhabited

/-- The message carried by a json.JSONDecodeError; its wording only feeds
the excerpt of the generic degraded result. -/
def jsonDecodeErrMsg : String := "Expecting value: line 1 column 1 (char 0)"

/-- Lines 423-439: parse the response text, retrying once after stripping a
markdown fence from the stripped text, and raising ValueError when both
attempts fail.  json.loads is abstracted as the parse parameter so that the
theorems quantify over every parsing behaviour. -/
def parseWithFenceRecovery (parse : String → Option JVal) (t : String) :
    Except PyErr JVal :=
  match parse t with
  | some r => .ok r
  | none =>
      let text := pyStrip t
      let text :=
        if listStarts "```".data text.data then
          stripTrailFence (stripLeadFence text)
        else text
      match parse text with
      | some r => .ok r
      | none =>
          .error (.valueError ("Invalid JSON response from model: " ++ jsonDecodeErrMsg))

/-- PolicyImpactAgent.analyze (lines 319-522).  The prompt construction of
lines 319-363 (input truncation, demographic-placeholder test, template
choice) only shapes the prompt sent to the external model, which is
abstracted as the outcome argument, so the returned value does not depend on
it.  Every exception of the success path (parse failure raised as
ValueError, and any error of _post_process_normalize) lands in the outer
handler of lines 463-522; the except clause for json.JSONDecodeError at
line 455 is unreachable, because both json.loads calls sit inside inner
try blocks that already catch it. -/
def analyze (parse : String → Option JVal)
    (_policyText _demographicsText : String) (outcome : ModelOutcome) : JVal :=
  match outcome with
  | .apiError estr erepr => classifyFailureStr estr erepr
  | .success t =>
      if t = "" then emptyResponseResult
      else
        match parseWithFenceRecovery parse t with
        | .ok r =>
            match postProcessNormalize r with
            | .ok res => res
            | .error e => classifyFailureStr e.msg e.reprStr
        | .error e => classifyFailureStr e.msg e.reprStr

/-! ## The demographics_used flag (src/backend/main.py lines 272-278) -/

/-- Python values that can appear in the and-chain computing
used_demographics: None (no upload), an UploadFile object, a string, or a
genuine boolean. -/
inductive PyFlagVal where
  | pnone
  | pbool (b : Bool)
  | pstr (s : String)
  | pfile (filename : String)
  deriving Repr, DecidableEq, Inhabited

/-- Python truthiness of such a value (an UploadFile object is always
truthy). -/
def flagTruthy : PyFlagVal → Bool
  | .pnone => false
  | .pbool b => b
  | .pstr s => s != ""
  | .pfile _ => true

/-- Python and: the first falsy operand, else the last operand. -/
def pyAndFlag (a b : PyFlagVal) : PyFlagVal := if flagTruthy a then b else a

/-- main.py lines 272-278: used_demographics is the value of the five-term
and-chain over the upload object, its filename, the demographics text, and
the two marker tests.  It is None when no demographic file was uploaded and
it is a string, not a boolean, at two other exits of the chain. -/
def usedDemographics : Option String → String → PyFlagVal
  | none, _ => .pnone
  | some fname, text =>
      pyAndFlag
        (pyAndFlag
          (pyAndFlag (pyAndFlag (.pfile fname) (.pstr fname)) (.pstr text))
          (.pbool (!strIn "Error loading" text)))
        (.pbool (!strIn "No demographic" text))

/-! ## The demographic summarizer (src/backend/tools.py lines 27-122)

A pandas DataFrame is modelled as a record count plus a list of named,
dtyped columns whose cells are exact rationals or strings.  Python float
formatting is modelled by round-half-even on exact rationals; pandas
value_counts is modelled as distinct values in first-occurrence order,
stably sorted by descending count (pandas leaves the tie order
unspecified).  Column names are assumed unique, as pandas readers make
them. -/

/-- The pandas dtypes the summarizer distinguishes. -/
inductive DType where
  | int64
  | float64
  | object
  deriving Repr, DecidableEq, Inhabited

/-- A cell of a column: an exact numeric value or a string. -/
inductive CellV where
  | num (q : Rat)
  | str (s : String)
  deriving Repr, DecidableEq, Inhabited

/-- A named, dtyped column. -/
structure DFColumn where
  name : String
  dtype : DType
  cells : List CellV
  deriving Repr, Inhabited

/-- A tabular dataset: its record count and its columns. -/
structure DataFrame where
  numRows : Nat
  cols : List DFColumn
  deriving Repr, Inhabited

/-- Does the dtype test dtype in ['int64', 'float64'] succeed? -/
def isNumericDtype : DType → Bool
  | .int64 => true
  | .float64 => true
  | .object => false

/-- Numeric value of a cell (string cells of a numeric column do not occur
in well-formed frames). -/
def cellNum : CellV → Rat
  | .num q => q
  | .str _ => 0

/-- Column sum, as pandas Series.sum() on a numeric column. -/
def colSum (c : DFColumn) : Rat := (c.cells.map cellNum).sum

/-- Column mean, as pandas Series.mean() (the empty-column NaN case is out
of the modelled range). -/
def colMean (c : DFColumn) : Rat := colSum c / (c.cells.length : Rat)

/-- Stable ascending insertion into a sorted list of rationals. -/
def insertRatAsc (q : Rat) : List Rat → List Rat
  | [] => [q]
  | y :: ys => if q ≤ y then q :: y :: ys else y :: insertRatAsc q ys

/-- Stable ascending insertion sort of rationals. -/
def sortRatAsc : List Rat → List Rat
  | [] => []
  | x :: xs => insertRatAsc x (sortRatAsc xs)

/-- Column median, as pandas Series.median(): middle of the sorted values,
or the mean of the two middles. -/
def colMedian (c : DFColumn) : Rat :=
  let s := sortRatAsc (c.cells.map cellNum)
  let n := s.length
  if n % 2 = 1 then s.getD (n / 2) 0
  else (s.getD (n / 2 - 1) 0 + s.getD (n / 2) 0) / 2

/-- Distinct values in order of first occurrence. -/
def distinctInOrderAux (seen : List CellV) : List CellV → List CellV
  | [] => []
  | x :: xs =>
      if seen.contains x then distinctInOrderAux seen xs
      else x :: distinctInOrderAux (x :: seen) xs

/-- Number of occurrences of a value in a list of cells. -/
def countOcc (cells : List CellV) (v : CellV) : Nat :=
  cells.countP (fun c => c = v)

/-- Stable descending insertion by count: a new element goes before the
first element of equal or smaller count it meets. -/
def insertCountDesc (x : CellV × Nat) : List (CellV × Nat) → List (CellV × Nat)
  | [] => [x]
  | y :: ys => if x.2 ≥ y.2 then x :: y :: ys else y :: insertCountDesc x ys

/-- Stable descending insertion sort by count. -/
def sortCountDesc : List (CellV × Nat) → List (CellV × Nat)
  | [] => []
  | x :: xs => insertCountDesc x (sortCountDesc xs)

/-- pandas Series.value_counts().head(k): the k most frequent values with
their counts, most frequent first, ties in first-occurrence order. -/
def valueCountsHead (k : Nat) (cells : List CellV) : List (CellV × Nat) :=
  let vs := distinctInOrderAux [] cells
  (sortCountDesc (vs.map (fun v => (v, countOcc cells v)))).take k

/-- Truncation toward zero of a rational, as Python int() on a float. -/
def truncRat (q : Rat) : Int :=
  if 0 ≤ q then q.floor else -((-q).floor)

/-- Round half to even to the nearest integer, as Python float formatting
does (modelled on the exact rational). -/
def roundHalfEven (q : Rat) : Int :=
  let f := q.floor
  let frac := q - (f : Rat)
  if frac < 1 / 2 then f
  else if 1 / 2 < frac then f + 1
  else if f % 2 = 0 then f else f + 1

/-- Split a reversed digit list into groups of three. -/
def chunk3 : List Char → List (List Char)
  | [] => []
  | a :: rest => (a :: rest.take 2) :: chunk3 (rest.drop 2)
termination_by l => l.length
decreasing_by
  simp only [List.length_drop, List.length_cons]
  omega

/-- Thousands grouping of an integer, as the Python format spec comma. -/
def commaGroup (n : Int) : String :=
  let s := toString n.natAbs
  let grouped :=
    String.intercalate "," (((chunk3 s.data.reverse).map
      (fun c => String.mk c.reverse)).reverse)
  (if n < 0 then "-" else "") ++ grouped

/-- Python format .1f on an exact rational: round half to even at one
decimal place. -/
def fmtFix1 (q : Rat) : String :=
  let n := roundHalfEven (q * 10)
  let a := n.natAbs
  (if n < 0 then "-" else "") ++ toString (a / 10) ++ "." ++ toString (a % 10)

/-- Python format ,.0f on an exact rational: round half to even to an
integer, with thousands grouping. -/
def fmtComma0 (q : Rat) : String := commaGroup (roundHalfEven q)

/-- A terminating exact decimal rendering of a rational whose denominator
divides a power of ten, used for str() of a float cell; the fuel bounds the
digits (cells of real CSV files are terminating decimals). -/
def decimalDigits : Nat → Rat → String
  | 0, _ => ""
  | fuel + 1, q =>
      if q = 0 then ""
      else
        let d := (q * 10).floor
        toString d ++ decimalDigits fuel (q * 10 - (d : Rat))

/-- str() of a float value (modelled on the exact rational): integer part,
a dot, then the fractional digits (or 0). -/
def floatRender (q : Rat) : String :=
  let sign := if q < 0 then "-" else ""
  let a := if q < 0 then -q else q
  let ip := a.floor
  let frac := a - (ip : Rat)
  sign ++ toString ip ++ "." ++ (if frac = 0 then "0" else decimalDigits 30 frac)

/-- Index rendering of value_counts().index.astype(str): strings pass
through, numeric values render as int or float text according to the
column dtype. -/
def renderCellAs (dt : DType) : CellV → String
  | .str s => s
  | .num q =>
      match dt with
      | .int64 => toString (truncRat q)
      | _ => floatRender q

/-- Does the lowered column name contain the keyword? -/
def colMatches (kw : String) (c : DFColumn) : Bool := strIn kw (pyLower c.name)

/-- Does the lowered column name contain any of the keywords? -/
def colMatchesAny (kws : List String) (c : DFColumn) : Bool :=
  kws.any (fun kw => colMatches kw c)

/-- Population section (tools.py lines 39-44). -/
def popLines (df : DataFrame) : List String :=
  if df.cols.any (colMatchesAny ["population", "pop"]) then
    match df.cols.find? (colMatchesAny ["population", "pop"]) with
    | some c =>
        if c.name ≠ "" then
          match (if isNumericDtype c.dtype then some (colSum c) else none) with
          | some tp =>
              if tp ≠ 0 then ["Total population: " ++ commaGroup (truncRat tp)]
              else []
          | none => []
        else []
    | none => []
  else []

/-- Rural/urban section (tools.py lines 47-58). -/
def ruralUrbanLines (df : DataFrame) : List String :=
  if df.cols.any (colMatchesAny ["rural", "urban"]) then
    match df.cols.find? (colMatches "rural"), df.cols.find? (colMatches "urban") with
    | some rc, some uc =>
        if rc.name ≠ "" && uc.name ≠ "" then
          let rural := if isNumericDtype rc.dtype then colSum rc else 0
          let urban := if isNumericDtype uc.dtype then colSum uc else 0
          let total := rural + urban
          if 0 < total then
            ["Rural population: " ++ fmtFix1 (rural / total * 100) ++ "%",
             "Urban population: " ++ fmtFix1 (urban / total * 100) ++ "%"]
          else []
        else []
    | _, _ => []
  else []

/-- Income section (tools.py lines 61-67). -/
def incomeLines (df : DataFrame) : List String :=
  if df.cols.any (colMatchesAny ["income", "wage", "salary"]) then
    match df.cols.find? (colMatchesAny ["income", "wage", "salary"]) with
    | some c =>
        if c.name ≠ "" && isNumericDtype c.dtype then
          ["Average income: ₹" ++ fmtComma0 (colMean c),
           "Median income: ₹" ++ fmtComma0 (colMedian c)]
        else []
    | none => []
  else []

/-- Education section (tools.py lines 70-79). -/
def eduLines (df : DataFrame) : List String :=
  if df.cols.any (colMatchesAny ["education", "literacy", "literate"]) then
    match df.cols.find? (colMatchesAny ["education", "literacy", "literate"]) with
    | some c =>
        if c.name ≠ "" then
          if isNumericDtype c.dtype then
            ["Average literacy/education level: " ++ fmtFix1 (colMean c) ++ "%"]
          else
            ["Top education levels: " ++ String.intercalate ", "
              ((valueCountsHead 3 c.cells).map (fun p => renderCellAs c.dtype p.1))]
        else []
    | none => []
  else []

/-- Region section (tools.py lines 82-86); note there is no dtype or
name-truthiness test here. -/
def regionLines (df : DataFrame) : List String :=
  match df.cols.find?
      (colMatchesAny ["region", "state", "district", "area", "location"]) with
  | some c =>
      ["Top regions by data points: " ++ String.intercalate ", "
        ((valueCountsHead 5 c.cells).map (fun p => renderCellAs c.dtype p.1))]
  | none => []

/-- One vulnerability keyword (tools.py lines 90-99). -/
def vulnLinesFor (df : DataFrame) (kw : String) : List String :=
  match df.cols.find? (colMatches kw) with
  | some c =>
      if isNumericDtype c.dtype then
        ["Average " ++ kw ++ " rate: " ++ fmtFix1 (colMean c) ++ "%"]
      else
        ["Top " ++ kw ++ " categories: " ++ String.intercalate ", "
          ((valueCountsHead 3 c.cells).map (fun p => renderCellAs c.dtype p.1))]
  | none => []

/-- One connectivity keyword (tools.py lines 103-109); non-numeric matches
produce nothing. -/
def techLinesFor (df : DataFrame) (kw : String) : List String :=
  match df.cols.find? (colMatches kw) with
  | some c =>
      if isNumericDtype c.dtype then
        ["Average " ++ kw ++ " penetration: " ++ fmtFix1 (colMean c) ++ "%"]
      else []
  | none => []

/-- Employment section (tools.py lines 112-120). -/
def empLines (df : DataFrame) : List String :=
  if df.cols.any (colMatchesAny ["employment", "employed", "job"]) then
    match df.cols.find? (colMatchesAny ["employment", "employed", "job"]) with
    | some c =>
        if c.name ≠ "" then
          if isNumericDtype c.dtype then
            ["Average employment rate: " ++ fmtFix1 (colMean c) ++ "%"]
          else
            ["Employment distribution: " ++ String.intercalate ", "
              ((valueCountsHead 3 c.cells).map
                (fun p => renderCellAs c.dtype p.1 ++ ": " ++ toString p.2 ++ "%"))]
        else []
    | none => []
  else []

/-- generate_demographic_summary (tools.py lines 27-122): the record-count
line, the keyword sections in order, joined by newlines; the fallback text
is returned only when the parts list is empty. -/
def generateDemographicSummary (df : DataFrame) : String :=
  let parts : List String :=
    ["Total records: " ++ toString df.numRows]
      ++ popLines df
      ++ ruralUrbanLines df
      ++ incomeLines df
      ++ eduLines df
      ++ regionLines df
      ++ (["unemployment", "poverty", "vulnerable", "disability", "elderly",
           "children"].map (vulnLinesFor df)).flatten
      ++ (["internet", "digital", "technology", "mobile",
           "smartphone"].map (techLinesFor df)).flatten
      ++ empLines df
  if parts.isEmpty then
    "Demographic data loaded but no key indicators identified."
  else
    String.intercalate "\n" parts

/-! ## Accessors used to state the claims -/

/-- The binding of a key in a dict value, if any. -/
def getKey (v : JVal) (k : String) : Option JVal :=
  match v with
  | .jobj kvs => lookupKey kvs k
  | _ => none

/-- The affected-group list of a result (empty when the field is absent or
not a list). -/
def objGroups (v : JVal) : List JVal :=
  match getKey v "affected_groups" with
  | some (.jarr gs) => gs
  | _ => []

/-- The risk-level string of a group, if it is a string. -/
def groupRiskStr (g : JVal) : Option String :=
  match getKey g "risk_level" with
  | some (.jstr s) => some s
  | _ => none

/-- The region strings of a group (stringified elements of the list). -/
def groupRegionStrs (g : JVal) : List String :=
  match getKey g "regions" with
  | some (.jarr rs) => rs.map pyStrOf
  | _ => []

/-- The mitigation list of a result. -/
def mitigationsOf (v : JVal) : List JVal :=
  match getKey v "mitigations" with
  | some (.jarr ms) => ms
  | _ => []

/-- The reasoning-summary string of a result, if it is a string. -/
def summaryOf (v : JVal) : Option String :=
  match getKey v "reasoning_summary" with
  | some (.jstr s) => some s
  | _ => none

/-- The region strings of the first group of a normalization outcome, used
to separate the two pipeline passes on the idempotence counterexample. -/
def firstGroupRegions (r : Except PyErr JVal) : List String :=
  match r with
  | .ok v =>
      match objGroups v with
      | g :: _ => groupRegionStrs g
      | [] => []
  | .error _ => []

/-- The reasoning-summary normalization as the spec sentence states it:
collapse all whitespace runs (including embedded newlines) to single spaces,
trim, truncate to the first 35 words when there are more than 35, and append
a period when the truncated text does not end with one; this definition is
the spec-side comparator for the code-side normalizeSummaryCode. -/
def specSummary (s : String) : String :=
  let t := pyStrip (collapseRuns pyIsSpace s)
  let ws := pyWords t
  if ws.length > REASONING_SUMMARY_MAX_WORDS then
    let truncated := joinSpace (ws.take REASONING_SUMMARY_MAX_WORDS)
    if endsWithDot truncated then truncated else truncated ++ "."
  else t

/-- Proof-side canonical form of a normalized summary: the single-space join
of the first 35 words, with the period rule applied. -/
def canonicalSummary (l : List Char) : String :=
  let ws := wordsChAux [] l
  if ws.length > REASONING_SUMMARY_MAX_WORDS then
    let j := joinCh (ws.take REASONING_SUMMARY_MAX_WORDS)
    if endsWithDot (.mk j) then .mk j else .mk (j ++ ['.'])
  else .mk (joinCh ws)

/-- The no-two-adjacent-spaces relation used to state that collapsed text
has no whitespace runs. -/
def noTwoSp (a b : Char) : Prop := pyIsSpace a = false ∨ pyIsSpace b = false

/-- Shape of one affected group after a successful normalization run: an
object with a truthy group name, a risk level among the three enum strings,
and a duplicate-free list of region strings. -/
def GroupShape (g : JVal) : Prop :=
  ∃ gkvs, g = JVal.jobj gkvs ∧
    (∃ gv, lookupKey gkvs "group" = some gv ∧ pyTruthy gv = true) ∧
    (∃ lv, lookupKey gkvs "risk_level" = some (.jstr lv) ∧
      (lv = "Low" ∨ lv = "Medium" ∨ lv = "High")) ∧
    (∃ rl : List String, lookupKey gkvs "regions" = some (.jarr (rl.map JVal.jstr)) ∧
      rl.Nodup)

/-- Shape of the affected_groups value after a successful run: the empty
string and the empty dict survive the loops untouched; a list is truncated
and each member has GroupShape. -/
def AgShape (agv : JVal) : Prop :=
  agv = .jstr "" ∨ agv = .jobj [] ∨
    ∃ gs, agv = .jarr gs ∧ gs.length ≤ MAX_AFFECTED_GROUPS ∧ ∀ g ∈ gs, GroupShape g

/-- Shape of the mitigations value after a successful run: its Python
length is defined and at most the cap. -/
def MitShape (mv : JVal) : Prop := ∃ n, pyLen mv = .ok n ∧ n ≤ MAX_MITIGATIONS

/-- Shape of a successful normalization result. -/
def ResShape (res : JVal) : Prop :=
  ∃ kvs, res = JVal.jobj kvs ∧
    (∃ agv, lookupKey kvs "affected_groups" = some agv ∧ AgShape agv) ∧
    (∃ mv, lookupKey kvs "mitigations" = some mv ∧ MitShape mv) ∧
    (∃ sv, lookupKey kvs "reasoning_summary" = some (.jstr sv) ∧
      normalizeSummaryCode sv = sv)

/-- Every region string of the result is a fixed point of region
canonicalization.  This fails exactly for strings such as mumbai whose
title-cased form is a key of the city table. -/
def RegionsFixed (res : JVal) : Prop :=
  ∀ g ∈ objGroups res, ∀ x ∈ groupRegionStrs g,
    normalizeRegionVal (.jstr x) = x

/-- Proof-side pure form of the first anchorGroup phase: fill a missing or
falsy group name. -/
def anchorPhase1 (gkvs : List (String × JVal)) : List (String × JVal) :=
  match lookupKey gkvs "group" with
  | some gv => if pyTruthy gv then gkvs
               else setKey gkvs "group" (.jstr "Unspecified group")
  | none => setKey gkvs "group" (.jstr "Unspecified group")

/-- Second phase: fill a missing risk level with Medium. -/
def anchorPhase2 (g1 : List (String × JVal)) : List (String × JVal) :=
  match lookupKey g1 "risk_level" with
  | some _ => g1
  | none => setKey g1 "risk_level" (.jstr "Medium")

/-- Third phase: fill missing regions with the empty list. -/
def anchorPhase3 (g2 : List (String × JVal)) : List (String × JVal) :=
  match lookupKey g2 "regions" with
  | some _ => g2
  | none => setKey g2 "regions" (.jarr [])

/-- Fourth phase: coerce a non-list regions value into a list. -/
def anchorPhase4 (g3 : List (String × JVal)) : List (String × JVal) :=
  match lookupKey g3 "regions" with
  | some (.jarr _) => g3
  | some v => setKey g3 "regions" (if pyTruthy v then .jarr [v] else .jarr [])
  | none => g3

/-- Proof-side pure form of anchorGroup on a dict group. -/
def anchorFun (gkvs : List (String × JVal)) : List (String × JVal) :=
  anchorPhase4 (anchorPhase3 (anchorPhase2 (anchorPhase1 gkvs)))

/-- The pure form of the region step on a dict group. -/
def nrFun (g : JVal) : JVal :=
  match g with
  | .jobj gkvs =>
      match lookupKey gkvs "regions" with
      | some (.jarr rs) => .jobj (setKey gkvs "regions"
          (.jarr ((dedupKeepOrder (rs.map normalizeRegionVal)).map JVal.jstr)))
      | _ => .jobj gkvs
  | v => v

/-- Proof-side split of _apply_anchoring_logic: the affected_groups phase
(lines 226-247 of agent.py). -/
def anchorHead (result : JVal) : Except PyErr JVal := do
  let hasAg ← pyContainsStr "affected_groups" result
  let result ← if hasAg then pure result
               else pySetItem result "affected_groups" (.jarr [])
  let ag ← pyGetItem result "affected_groups"
  let n ← pyLen ag
  let result ←
    if n > MAX_AFFECTED_GROUPS then do
      let sliced ← pySliceTo ag MAX_AFFECTED_GROUPS
      pySetItem result "affected_groups" sliced
    else
      pure result
  let ag ← pyGetItem result "affected_groups"
  runGroupLoop anchorGroup result ag

/-- Proof-side split of _apply_anchoring_logic: the reasoning-summary
phase (lines 254-268 of agent.py). -/
def summaryPhase (result : JVal) : Except PyErr JVal := do
  let hasSum ← pyContainsStr "reasoning_summary" result
  if !hasSum then
    pySetItem result "reasoning_summary" (.jstr "Analysis completed.")
  else do
    let sv ← pyGetItem result "reasoning_summary"
    match sv with
    | .jstr s =>
        pySetItem result "reasoning_summary" (.jstr (normalizeSummaryCode s))
    | _ => throw (.attributeError "object has no attribute strip")

/-- Proof-side split of _apply_anchoring_logic: the mitigations and
summary phases (lines 249-268 of agent.py). -/
def anchorTail (result : JVal) : Except PyErr JVal := do
  let hasMit ← pyContainsStr "mitigations" result
  let result ← if hasMit then pure result
               else pySetItem result "mitigations" (.jarr [])
  let mit ← pyGetItem result "mitigations"
  let m ← pyLen mit
  let result ←
    if m > MAX_MITIGATIONS then do
      let sliced ← pySliceTo mit MAX_MITIGATIONS
      pySetItem result "mitigations" sliced
    else
      pure result
  summaryPhase result

/-- A group value that is schema-well-typed for the pipeline: a dict whose
risk_level, when present, is a string. -/
def WellTypedGroup (g : JVal) : Prop :=
  ∃ gkvs, g = .jobj gkvs ∧
    (lookupKey gkvs "risk_level" = none ∨
      ∃ lv, lookupKey gkvs "risk_level" = some (.jstr lv))

/-- A top-level parsed dict that is schema-well-typed for the pipeline:
affected_groups, when present, is a list of well-typed dict groups;
mitigations, when present, is a list; reasoning_summary, when present, is
a string. -/
def WellTypedResult (kvs : List (String × JVal)) : Prop :=
  (lookupKey kvs "affected_groups" = none ∨
    ∃ gs, lookupKey kvs "affected_groups" = some (.jarr gs) ∧
      ∀ g ∈ gs, WellTypedGroup g) ∧
  (lookupKey kvs "mitigations" = none ∨
    ∃ ms, lookupKey kvs "mitigations" = some (.jarr ms)) ∧
  (lookupKey kvs "reasoning_summary" = none ∨
    ∃ s, lookupKey kvs "reasoning_summary" = some (.jstr s))

/-- The risk mapping as the spec sentence states it: case-fold the raw
value, map the three synonym sets, send anything else to Medium; this is
the spec-side comparator for the code-side riskNormStr (which the pipeline
applies to the stripped value). -/
def specRiskMap (raw : String) : String :=
  let v := pyLower (pyStrip raw)
  if v = "low" ∨ v = "l" then "Low"
  else if v = "medium" ∨ v = "med" ∨ v = "m" then "Medium"
  else if v = "high" ∨ v = "h" then "High"
  else "Medium"

/-- No column name of the frame matches any keyword of the summarizer's
fixed taxonomy (the union of every keyword list of tools.py lines
39-120). -/
def noKeywordCols (df : DataFrame) : Bool :=
  !(df.cols.any (colMatchesAny
    ["population", "pop", "rural", "urban", "income", "wage", "salary",
     "education", "literacy", "literate", "region", "state", "district",
     "area", "location", "unemployment", "poverty", "vulnerable",
     "disability", "elderly", "children", "internet", "digital",
     "technology", "mobile", "smartphone", "employment", "employed", "job"]))

/-! ## Association-list lemmas -/

theorem lookupKey_setKey_self (kvs : List (String × JVal)) (k : String) (v : JVal) :
    lookupKey (setKey kvs k v) k = some v := by
  induction kvs with
  | nil => simp [setKey, lookupKey]
  | cons kv rest ih =>
      by_cases h : kv.1 = k
      · simp [setKey, h, lookupKey]
      · cases kv with
        | mk k' w => simp_all [setKey, lookupKey]

theorem lookupKey_setKey_ne (kvs : List (String × JVal)) (k k' : String) (v : JVal)
    (h : k' ≠ k) : lookupKey (setKey kvs k v) k' = lookupKey kvs k' := by
  induction kvs with
  | nil =>
      simp only [setKey, lookupKey]
      exact if_neg (fun hh => h hh.symm)
  | cons kv rest ih =>
      cases kv with
      | mk k0 w =>
          by_cases h0 : k0 = k
          · subst h0
            simp [setKey, lookupKey, Ne.symm h]
          · simp only [setKey, if_neg h0, lookupKey]
            by_cases h1 : k0 = k'
            · simp [h1]
            · simp [h1, ih]

theorem setKey_same (kvs : List (String × JVal)) (k : String) (v : JVal)
    (h : lookupKey kvs k = some v) : setKey kvs k v = kvs := by
  induction kvs with
  | nil => simp [lookupKey] at h
  | cons kv rest ih =>
      cases kv with
      | mk k0 w =>
          by_cases h0 : k0 = k
          · subst h0
            simp only [lookupKey, if_pos] at h
            injection h with h
            simp [setKey, h]
          · simp only [lookupKey, if_neg h0] at h
            simp [setKey, h0, ih h]

/-! ## De-duplication lemmas -/

theorem mem_dedupKeepOrderAux (seen l : List String) (x : String) :
    x ∈ dedupKeepOrderAux seen l ↔ x ∈ l ∧ x ∉ seen := by
  induction l generalizing seen with
  | nil => simp [dedupKeepOrderAux]
  | cons r rest ih =>
      by_cases h : seen.contains r
      · have hr : r ∈ seen := by simpa using h
        simp only [dedupKeepOrderAux, if_pos h, ih]
        constructor
        · rintro ⟨hx, hs⟩
          exact ⟨List.mem_cons_of_mem _ hx, hs⟩
        · rintro ⟨hx, hs⟩
          rcases List.mem_cons.mp hx with rfl | hx
          · exact absurd hr hs
          · exact ⟨hx, hs⟩
      · have hr : r ∉ seen := by simpa using h
        simp only [dedupKeepOrderAux, if_neg h]
        constructor
        · intro hx
          rcases List.mem_cons.mp hx with rfl | hx
          · exact ⟨List.mem_cons_self _ _, hr⟩
          · rcases (ih (r :: seen)).mp hx with ⟨h1, h2⟩
            exact ⟨List.mem_cons_of_mem _ h1, fun hs => h2 (List.mem_cons_of_mem _ hs)⟩
        · rintro ⟨hx, hs⟩
          rcases List.mem_cons.mp hx with rfl | hx
          · exact List.mem_cons_self _ _
          · by_cases hxr : x = r
            · subst hxr
              exact List.mem_cons_self _ _
            · exact List.mem_cons_of_mem _ ((ih (r :: seen)).mpr
                ⟨hx, by simp [hxr, hs]⟩)

theorem dedupKeepOrderAux_of_nodup (seen l : List String) (hl : l.Nodup)
    (hd : ∀ x ∈ l, x ∉ seen) : dedupKeepOrderAux seen l = l := by
  induction l generalizing seen with
  | nil => simp [dedupKeepOrderAux]
  | cons r rest ih =>
      have hr : ¬ seen.contains r := by
        simpa using hd r (List.mem_cons_self _ _)
      simp only [dedupKeepOrderAux, if_neg hr]
      have hrest : rest.Nodup := (List.nodup_cons.mp hl).2
      have hnotr : r ∉ rest := (List.nodup_cons.mp hl).1
      congr 1
      exact ih (r :: seen) hrest (fun x hx => by
        simp only [List.mem_cons]
        push_neg
        exact ⟨fun hxr => hnotr (hxr ▸ hx), hd x (List.mem_cons_of_mem _ hx)⟩)

theorem dedupKeepOrderAux_nodup (seen l : List String) :
    (dedupKeepOrderAux seen l).Nodup := by
  induction l generalizing seen with
  | nil => simp [dedupKeepOrderAux]
  | cons r rest ih =>
      by_cases h : seen.contains r
      · have hr : r ∈ seen := by simpa using h
        simpa [dedupKeepOrderAux, h, hr] using ih seen
      · simp only [dedupKeepOrderAux, if_neg h, List.nodup_cons]
        refine ⟨fun hmem => ?_, ih (r :: seen)⟩
        exact ((mem_dedupKeepOrderAux _ _ _).mp hmem).2 (List.mem_cons_self _ _)

theorem dedupKeepOrder_idem (l : List String) :
    dedupKeepOrder (dedupKeepOrder l) = dedupKeepOrder l :=
  dedupKeepOrderAux_of_nodup [] _ (dedupKeepOrderAux_nodup [] l) (by simp)

theorem dedupKeepOrder_of_nodup (l : List String) (h : l.Nodup) :
    dedupKeepOrder l = l :=
  dedupKeepOrderAux_of_nodup [] l h (by simp)

theorem dedupKeepOrder_nodup (l : List String) : (dedupKeepOrder l).Nodup :=
  dedupKeepOrderAux_nodup [] l

/-! ## Word-splitting lemmas -/

theorem wordsChAux_ne_nil (acc : List Char) (l : List Char) (h : acc ≠ []) :
    wordsChAux acc l ≠ [] := by
  induction l generalizing acc with
  | nil => simp [wordsChAux, h]
  | cons c rest ih =>
      by_cases hc : pyIsSpace c
      · simp [wordsChAux, hc, h]
      · simpa [wordsChAux, hc] using ih (c :: acc) (by simp)

theorem wordsChAux_push_word (w : List Char) (acc l : List Char)
    (hw : ∀ c ∈ w, pyIsSpace c = false) :
    wordsChAux acc (w ++ l) = wordsChAux (w.reverse ++ acc) l := by
  induction w generalizing acc with
  | nil => simp
  | cons c w' ih =>
      have hc : pyIsSpace c = false := hw c (List.mem_cons_self _ _)
      rw [List.cons_append, wordsChAux]
      simp only [hc, Bool.false_eq_true, if_false]
      rw [ih (c :: acc) (fun d hd => hw d (List.mem_cons_of_mem _ hd))]
      simp

theorem wordsChAux_wsfree (l : List Char) :
    ∀ acc, (∀ c ∈ acc, pyIsSpace c = false) →
      ∀ w ∈ wordsChAux acc l, w ≠ [] ∧ ∀ c ∈ w, pyIsSpace c = false := by
  induction l with
  | nil =>
      intro acc hacc w hw
      by_cases h : acc = []
      · simp [wordsChAux, h] at hw
      · simp only [wordsChAux, List.isEmpty_iff, if_neg h, List.mem_singleton] at hw
        subst hw
        exact ⟨by simpa using h, fun c hc => hacc c (List.mem_reverse.mp hc)⟩
  | cons c rest ih =>
      intro acc hacc w hw
      by_cases hc : pyIsSpace c
      · by_cases h : acc = []
        · rw [wordsChAux] at hw
          simp only [hc, if_pos, h, List.isEmpty_nil, if_true] at hw
          exact ih [] (by simp) w hw
        · rw [wordsChAux] at hw
          simp only [hc, if_pos, List.isEmpty_iff, if_neg h, List.mem_cons] at hw
          rcases hw with rfl | hw
          · exact ⟨by simpa using h, fun d hd => hacc d (List.mem_reverse.mp hd)⟩
          · exact ih [] (by simp) w hw
      · rw [wordsChAux] at hw
        simp only [hc, if_false] at hw
        refine ih (c :: acc) ?_ w hw
        intro d hd
        rcases List.mem_cons.mp hd with rfl | hd
        · simpa using hc
        · exact hacc d hd

theorem wordsChAux_dropWhile (l : List Char) :
    wordsChAux [] (l.dropWhile pyIsSpace) = wordsChAux [] l := by
  induction l with
  | nil => simp
  | cons c rest ih =>
      by_cases hc : pyIsSpace c
      · rw [List.dropWhile_cons_of_pos (by simpa using hc)]
        rw [ih]
        simp [wordsChAux, hc]
      · rw [List.dropWhile_cons_of_neg (by simpa using hc)]

theorem wordsChAux_allspace (l : List Char) (h : ∀ c ∈ l, pyIsSpace c = true) :
    wordsChAux [] l = [] := by
  induction l with
  | nil => simp [wordsChAux]
  | cons c rest ih =>
      have hc := h c (List.mem_cons_self _ _)
      simp only [wordsChAux, hc, if_pos, List.isEmpty_nil, if_true]
      exact ih (fun d hd => h d (List.mem_cons_of_mem _ hd))

theorem wordsChAux_spaces_only (sp : List Char)
    (hsp : ∀ c ∈ sp, pyIsSpace c = true) (acc : List Char) :
    wordsChAux acc sp = if acc.isEmpty then [] else [acc.reverse] := by
  cases sp with
  | nil => rfl
  | cons c rest =>
      have hc := hsp c (List.mem_cons_self _ _)
      have hrest := wordsChAux_allspace rest (fun d hd => hsp d (List.mem_cons_of_mem _ hd))
      rw [wordsChAux]
      simp [hc, hrest]

theorem wordsChAux_append_spaces (m sp : List Char)
    (hsp : ∀ c ∈ sp, pyIsSpace c = true) :
    ∀ acc, wordsChAux acc (m ++ sp) = wordsChAux acc m := by
  induction m with
  | nil =>
      intro acc
      simp only [List.nil_append]
      rw [wordsChAux_spaces_only sp hsp acc]
      rfl
  | cons c rest ih =>
      intro acc
      by_cases hc : pyIsSpace c
      · by_cases h : acc = []
        · simp [wordsChAux, hc, h, ih]
        · simp [wordsChAux, hc, h, List.isEmpty_iff, ih]
      · simp [wordsChAux, hc, ih]

theorem wordsChAux_strip (l : List Char) :
    wordsChAux [] (((l.dropWhile pyIsSpace).reverse.dropWhile pyIsSpace).reverse)
      = wordsChAux [] l := by
  set a := l.dropWhile pyIsSpace with ha0
  have hsplit : (a.reverse.takeWhile pyIsSpace) ++ (a.reverse.dropWhile pyIsSpace)
      = a.reverse := List.takeWhile_append_dropWhile pyIsSpace a.reverse
  have ha : (a.reverse.dropWhile pyIsSpace).reverse
      ++ (a.reverse.takeWhile pyIsSpace).reverse = a := by
    rw [← List.reverse_append, hsplit, List.reverse_reverse]
  have hsp : ∀ c ∈ (a.reverse.takeWhile pyIsSpace).reverse, pyIsSpace c = true := by
    intro c hc
    simpa using List.mem_takeWhile_imp (List.mem_reverse.mp hc)
  calc wordsChAux [] ((a.reverse.dropWhile pyIsSpace).reverse)
      = wordsChAux [] ((a.reverse.dropWhile pyIsSpace).reverse
          ++ (a.reverse.takeWhile pyIsSpace).reverse) :=
        (wordsChAux_append_spaces _ _ hsp []).symm
    _ = wordsChAux [] a := by rw [ha]
    _ = wordsChAux [] l := wordsChAux_dropWhile l

/-! ## Join lemmas -/

theorem wordsChAux_joinCh (ws : List (List Char))
    (h : ∀ w ∈ ws, w ≠ [] ∧ ∀ c ∈ w, pyIsSpace c = false) :
    wordsChAux [] (joinCh ws) = ws := by
  induction ws with
  | nil => rfl
  | cons w ws' ih =>
      obtain ⟨hwne, hwf⟩ := h w (List.mem_cons_self _ _)
      cases ws' with
      | nil =>
          have hpush := wordsChAux_push_word w [] [] hwf
          simp only [List.append_nil] at hpush
          rw [show joinCh [w] = w from rfl, hpush, wordsChAux]
          simp [hwne]
      | cons w2 ws'' =>
          have hpush := wordsChAux_push_word w [] (' ' :: joinCh (w2 :: ws'')) hwf
          rw [show joinCh (w :: w2 :: ws'') = w ++ ' ' :: joinCh (w2 :: ws'') from rfl,
            hpush, wordsChAux]
          have hsp : pyIsSpace ' ' = true := by decide
          simp only [hsp, if_pos, List.append_nil, List.isEmpty_iff,
            List.reverse_eq_nil_iff, if_neg hwne, List.reverse_reverse]
          rw [ih (fun v hv => h v (List.mem_cons_of_mem _ hv))]

theorem joinCh_append_char (ws : List (List Char)) (hne : ws ≠ []) (c : Char) :
    joinCh ws ++ [c] = joinCh (ws.dropLast ++ [ws.getLast hne ++ [c]]) := by
  induction ws with
  | nil => exact absurd rfl hne
  | cons w ws' ih =>
      cases ws' with
      | nil => rfl
      | cons w2 ws'' =>
          have hne' : w2 :: ws'' ≠ [] := by simp
          have := ih hne'
          rw [show joinCh (w :: w2 :: ws'') = w ++ ' ' :: joinCh (w2 :: ws'') from rfl]
          rw [List.append_assoc]
          rw [show (' ' :: joinCh (w2 :: ws'')) ++ [c]
              = ' ' :: (joinCh (w2 :: ws'') ++ [c]) from rfl, this]
          have hdl : (w :: w2 :: ws'').dropLast = w :: (w2 :: ws'').dropLast := by
            simp [List.dropLast]
          have hgl : (w :: w2 :: ws'').getLast hne = (w2 :: ws'').getLast hne' := by
            simp [List.getLast]
          rw [hdl, hgl]
          cases hdl2 : (w2 :: ws'').dropLast with
          | nil => rfl
          | cons d ds => rfl

/-! ## Collapse-run lemmas -/

theorem collapse_space_mem (p : Char → Bool) (l : List Char) :
    ∀ c ∈ collapseRunsAux p l, p c = true → c = ' ' := by
  induction l using collapseRunsAux.induct p with
  | case1 => simp [collapseRunsAux]
  | case2 c rest h ih =>
      rw [collapseRunsAux]
      simp only [h, if_pos]
      intro d hd hp
      rcases List.mem_cons.mp hd with rfl | hd
      · rfl
      · exact ih d hd hp
  | case3 c rest h ih =>
      have h' : p c = false := by simpa using h
      rw [collapseRunsAux]
      simp only [h', Bool.false_eq_true, if_false]
      intro d hd hp
      rcases List.mem_cons.mp hd with rfl | hd
      · rw [h'] at hp
        exact absurd hp (by simp)
      · exact ih d hd hp

theorem collapse_eq_self (p : Char → Bool) (l : List Char)
    (h : ∀ c ∈ l, p c = false) : collapseRunsAux p l = l := by
  induction l with
  | nil => rw [collapseRunsAux]
  | cons c rest ih =>
      have hc := h c (List.mem_cons_self _ _)
      rw [collapseRunsAux]
      simp only [hc, Bool.false_eq_true, if_false]
      rw [ih (fun d hd => h d (List.mem_cons_of_mem _ hd))]

/-- Helper: the head of a collapse of a list whose head is not a space. -/
theorem collapse_head (m : List Char)
    (hm : ∀ c, m.head? = some c → pyIsSpace c = false) :
    ∀ c, (collapseRunsAux pyIsSpace m).head? = some c → pyIsSpace c = false := by
  cases m with
  | nil => intro c hc; simp [collapseRunsAux] at hc
  | cons d t =>
      have hd := hm d (by simp)
      rw [collapseRunsAux]
      simp only [hd, Bool.false_eq_true, if_false]
      intro c hc
      simp only [List.head?_cons, Option.some.injEq] at hc
      subst hc
      exact hd

/-- Helper: the head of dropWhile does not satisfy the predicate. -/
theorem head_dropWhile_false (p : Char → Bool) (l : List Char) :
    ∀ d, (l.dropWhile p).head? = some d → p d = false := by
  induction l with
  | nil => intro d hd; simp at hd
  | cons c rest ih =>
      intro d hd
      by_cases hc : p c
      · rw [List.dropWhile_cons_of_pos (by simpa using hc)] at hd
        exact ih d hd
      · rw [List.dropWhile_cons_of_neg (by simpa using hc)] at hd
        simp only [List.head?_cons, Option.some.injEq] at hd
        subst hd
        simpa using hc

theorem collapse_chain (l : List Char) :
    List.Chain' noTwoSp (collapseRunsAux pyIsSpace l) := by
  induction l using collapseRunsAux.induct pyIsSpace with
  | case1 => rw [collapseRunsAux]; simp
  | case2 c rest h ih =>
      rw [collapseRunsAux]
      simp only [h, if_pos]
      rw [List.chain'_cons']
      refine ⟨fun y hy => Or.inr ?_, ih⟩
      exact collapse_head _ (head_dropWhile_false pyIsSpace rest) y hy
  | case3 c rest h ih =>
      have h' : pyIsSpace c = false := by simpa using h
      rw [collapseRunsAux]
      simp only [h', Bool.false_eq_true, if_false]
      rw [List.chain'_cons']
      exact ⟨fun y _ => Or.inl h', ih⟩

theorem collapse_fixed (l : List Char)
    (h1 : ∀ c ∈ l, pyIsSpace c = true → c = ' ')
    (h2 : List.Chain' noTwoSp l) : collapseRunsAux pyIsSpace l = l := by
  induction l with
  | nil => rw [collapseRunsAux]
  | cons c rest ih =>
      by_cases hc : pyIsSpace c
      · have hcsp : c = ' ' := h1 c (List.mem_cons_self _ _) (by simpa using hc)
        have hdw : rest.dropWhile pyIsSpace = rest := by
          cases rest with
          | nil => rfl
          | cons d t =>
              rcases (List.chain'_cons'.mp h2).1 d (by simp) with hd | hd
              · rw [hd] at hc; exact absurd hc (by simp)
              · exact List.dropWhile_cons_of_neg (by simp [hd])
        rw [collapseRunsAux]
        simp only [hc, if_pos, hdw]
        rw [ih (fun d hd => h1 d (List.mem_cons_of_mem _ hd))
          (List.chain'_cons'.mp h2).2, hcsp]
      · rw [collapseRunsAux]
        simp only [hc, Bool.false_eq_true, if_false]
        rw [ih (fun d hd => h1 d (List.mem_cons_of_mem _ hd))
          (List.chain'_cons'.mp h2).2]

theorem wordsChAux_collapse (l : List Char) :
    ∀ acc, wordsChAux acc (collapseRunsAux pyIsSpace l) = wordsChAux acc l := by
  induction l using collapseRunsAux.induct pyIsSpace with
  | case1 => intro acc; rw [collapseRunsAux]
  | case2 c rest h ih =>
      intro acc
      rw [collapseRunsAux]
      simp only [h, if_pos]
      rw [wordsChAux, wordsChAux]
      have hsp : pyIsSpace ' ' = true := by decide
      simp only [hsp, h, if_pos]
      by_cases hacc : acc.isEmpty
      · simp only [hacc, if_true]
        rw [ih [], wordsChAux_dropWhile]
      · simp only [hacc, Bool.false_eq_true, if_false]
        rw [ih [], wordsChAux_dropWhile]
  | case3 c rest h ih =>
      intro acc
      have h' : pyIsSpace c = false := by simpa using h
      rw [collapseRunsAux]
      simp only [h', Bool.false_eq_true, if_false]
      rw [wordsChAux, wordsChAux]
      simp only [h', Bool.false_eq_true, if_false]
      exact ih (c :: acc)

/-! ## The master lemma: collapse of a trailing-space-free list is the
single-space join of its words -/

/-- joinCh on a cons with nonempty tail. -/
theorem joinCh_cons_ne (w : List Char) (ws : List (List Char)) (h : ws ≠ []) :
    joinCh (w :: ws) = w ++ ' ' :: joinCh ws := by
  cases ws with
  | nil => exact absurd rfl h
  | cons a t => rfl

/-- A nonempty suffix has the same last element. -/
theorem suffix_getLast? (l₁ l₂ : List Char) (h : l₁ <:+ l₂) (hne : l₁ ≠ []) :
    l₁.getLast? = l₂.getLast? := by
  obtain ⟨t, rfl⟩ := h
  exact (List.getLast?_append_of_ne_nil t hne).symm

theorem collapse_eq_joinCh_master :
    ∀ (n : Nat) (m acc : List Char), m.length ≤ n → acc ≠ [] →
      (∀ c, m.getLast? = some c → pyIsSpace c = false) →
      acc.reverse ++ collapseRunsAux pyIsSpace m = joinCh (wordsChAux acc m) := by
  intro n
  induction n with
  | zero =>
      intro m acc hlen hacc _
      have hm : m = [] := List.length_eq_zero.mp (Nat.le_zero.mp hlen)
      subst hm
      rw [collapseRunsAux, wordsChAux]
      simp [hacc, joinCh]
  | succ n ih =>
      intro m acc hlen hacc hlast
      cases m with
      | nil =>
          rw [collapseRunsAux, wordsChAux]
          simp [hacc, joinCh]
      | cons c rest =>
          have hlast' : ∀ d, rest.getLast? = some d → pyIsSpace d = false := by
            intro d hd
            cases hrest : rest with
            | nil => rw [hrest] at hd; simp at hd
            | cons e t =>
                apply hlast
                rw [hrest] at hd ⊢
                rw [List.getLast?_cons_cons, hd]
          by_cases hc : pyIsSpace c
          · -- a space: rest is nonempty and contains a trailing non-space
            have hrne : rest ≠ [] := by
              intro hr
              subst hr
              have := hlast c (by simp)
              rw [hc] at this
              exact absurd this (by simp)
            have hdne : rest.dropWhile pyIsSpace ≠ [] := by
              intro hall
              have hall' := List.dropWhile_eq_nil_iff.mp hall
              have hmem := List.getLast_mem hrne
              have := hlast' (rest.getLast hrne)
                (List.getLast?_eq_getLast_of_ne_nil hrne)
              have := hall' _ hmem
              simp_all
            obtain ⟨d, t', hdw⟩ := List.exists_cons_of_ne_nil hdne
            have hd : pyIsSpace d = false := by
              apply head_dropWhile_false pyIsSpace rest
              rw [hdw]; rfl
            have hlastd : ∀ e, (d :: t').getLast? = some e → pyIsSpace e = false := by
              intro e he
              apply hlast'
              rw [← suffix_getLast? _ rest (hdw ▸ List.dropWhile_suffix pyIsSpace)
                (by simp), he]
            have hlastt' : ∀ e, t'.getLast? = some e → pyIsSpace e = false := by
              intro e he
              cases ht' : t' with
              | nil => rw [ht'] at he; simp at he
              | cons f u =>
                  apply hlastd
                  rw [ht'] at he ⊢
                  rw [List.getLast?_cons_cons, he]
            have ht'len : t'.length ≤ n := by
              have h1 : (d :: t').length ≤ rest.length :=
                (hdw ▸ List.dropWhile_suffix pyIsSpace).length_le
              have h2 : rest.length + 1 ≤ n + 1 := by simpa using hlen
              simp only [List.length_cons] at h1
              omega
            -- words of the tail
            have htw : wordsChAux [] rest = wordsChAux [d] t' := by
              rw [← wordsChAux_dropWhile, hdw, wordsChAux]
              simp [hd]
            have hiht : [d].reverse ++ collapseRunsAux pyIsSpace t'
                = joinCh (wordsChAux [d] t') :=
              ih t' [d] ht'len (by simp) hlastt'
            have htwne : wordsChAux [d] t' ≠ [] := wordsChAux_ne_nil _ _ (by simp)
            rw [collapseRunsAux, wordsChAux]
            simp only [hc, if_pos, List.isEmpty_iff, if_neg hacc]
            rw [joinCh_cons_ne _ _ (htw ▸ htwne), htw, ← hiht, hdw, collapseRunsAux]
            simp [hd]
          · -- not a space: push the character
            have hc' : pyIsSpace c = false := by simpa using hc
            rw [collapseRunsAux, wordsChAux]
            simp only [hc', Bool.false_eq_true, if_false]
            rw [← ih rest (c :: acc) (by simpa using hlen) (by simp) hlast']
            simp

/-- Collapse of a list with space-free head and last equals the join of its
words. -/
theorem collapse_stripped_eq_join (m : List Char)
    (hhead : ∀ c, m.head? = some c → pyIsSpace c = false)
    (hlast : ∀ c, m.getLast? = some c → pyIsSpace c = false) :
    collapseRunsAux pyIsSpace m = joinCh (wordsChAux [] m) := by
  cases m with
  | nil => rw [collapseRunsAux]; rfl
  | cons d t =>
      have hd : pyIsSpace d = false := hhead d rfl
      have hlastt : ∀ c, t.getLast? = some c → pyIsSpace c = false := by
        intro c hc
        cases ht : t with
        | nil => rw [ht] at hc; simp at hc
        | cons e u =>
            apply hlast
            rw [ht] at hc ⊢
            rw [List.getLast?_cons_cons, hc]
      have := collapse_eq_joinCh_master t.length t [d] le_rfl (by simp) hlastt
      rw [wordsChAux]
      simp only [hd, Bool.false_eq_true, if_false]
      rw [← this, collapseRunsAux]
      simp [hd]

/-! ## Strip lemmas and the two canonical-form equations -/

theorem wordsChAux_stripCh (l : List Char) :
    wordsChAux [] (stripCh l) = wordsChAux [] l := wordsChAux_strip l

theorem strip_head_false (l : List Char) :
    ∀ c, (stripCh l).head? = some c → pyIsSpace c = false := by
  intro c hc
  unfold stripCh at hc
  rw [List.head?_reverse] at hc
  set a := l.dropWhile pyIsSpace with ha
  set b := a.reverse.dropWhile pyIsSpace with hb
  have hbne : b ≠ [] := by
    intro h
    rw [h] at hc
    simp at hc
  have h1 : b.getLast? = a.reverse.getLast? :=
    suffix_getLast? b a.reverse (List.dropWhile_suffix pyIsSpace) hbne
  rw [h1, List.getLast?_reverse] at hc
  exact head_dropWhile_false pyIsSpace l c hc

theorem strip_last_false (l : List Char) :
    ∀ c, (stripCh l).getLast? = some c → pyIsSpace c = false := by
  intro c hc
  unfold stripCh at hc
  rw [List.getLast?_reverse] at hc
  exact head_dropWhile_false pyIsSpace (l.dropWhile pyIsSpace).reverse c hc

theorem strip_subset (l : List Char) : ∀ c ∈ stripCh l, c ∈ l := by
  intro c hc
  unfold stripCh at hc
  rw [List.mem_reverse] at hc
  have h1 := (List.dropWhile_suffix pyIsSpace).subset hc
  rw [List.mem_reverse] at h1
  exact (List.dropWhile_suffix pyIsSpace).subset h1

/-- The code path: collapsing the stripped text yields the canonical join of
the words. -/
theorem collapse_strip_eq_join (l : List Char) :
    collapseRunsAux pyIsSpace (stripCh l) = joinCh (wordsChAux [] l) := by
  rw [collapse_stripped_eq_join (stripCh l) (strip_head_false l) (strip_last_false l)]
  rw [wordsChAux_stripCh]

/-- A chain is preserved by reversal (the relation is symmetric). -/
theorem chain_noTwoSp_reverse (z : List Char) (h : List.Chain' noTwoSp z) :
    List.Chain' noTwoSp z.reverse := by
  rw [List.chain'_reverse]
  exact h.imp (fun a b hab => Or.symm hab)

/-- The spec path: stripping the collapsed text yields the same canonical
join of the words. -/
theorem strip_collapse_eq_join (l : List Char) :
    stripCh (collapseRunsAux pyIsSpace l) = joinCh (wordsChAux [] l) := by
  set x := collapseRunsAux pyIsSpace l with hx
  have h1 : ∀ c ∈ stripCh x, pyIsSpace c = true → c = ' ' :=
    fun c hc => collapse_space_mem pyIsSpace l c (strip_subset x c hc)
  have h2 : List.Chain' noTwoSp (stripCh x) := by
    have hcx : List.Chain' noTwoSp x := collapse_chain l
    have ha : List.Chain' noTwoSp (x.dropWhile pyIsSpace) :=
      hcx.suffix (List.dropWhile_suffix pyIsSpace)
    have har : List.Chain' noTwoSp (x.dropWhile pyIsSpace).reverse :=
      chain_noTwoSp_reverse _ ha
    have hb : List.Chain' noTwoSp
        ((x.dropWhile pyIsSpace).reverse.dropWhile pyIsSpace) :=
      har.suffix (List.dropWhile_suffix pyIsSpace)
    exact chain_noTwoSp_reverse _ hb
  have h3 : collapseRunsAux pyIsSpace (stripCh x) = stripCh x :=
    collapse_fixed _ h1 h2
  have h4 : collapseRunsAux pyIsSpace (stripCh x) = joinCh (wordsChAux [] x) :=
    collapse_strip_eq_join x
  rw [← h3, h4, hx]
  congr 1
  exact wordsChAux_collapse l []

/-- Characters of a join are the space or characters of the words. -/
theorem mem_joinCh (ws : List (List Char)) (c : Char) (hc : c ∈ joinCh ws) :
    c = ' ' ∨ ∃ w ∈ ws, c ∈ w := by
  induction ws with
  | nil => simp [joinCh] at hc
  | cons w ws' ih =>
      cases ws' with
      | nil =>
          right
          exact ⟨w, List.mem_cons_self _ _, hc⟩
      | cons w2 ws'' =>
          rw [joinCh_cons_ne _ _ (by simp)] at hc
          rcases List.mem_append.mp hc with hw | htail
          · exact Or.inr ⟨w, List.mem_cons_self _ _, hw⟩
          · rcases List.mem_cons.mp htail with rfl | hj
            · exact Or.inl rfl
            · rcases ih hj with h | ⟨v, hv, hcv⟩
              · exact Or.inl h
              · exact Or.inr ⟨v, List.mem_cons_of_mem _ hv, hcv⟩

/-- Newline-collapse is the identity on a canonical join. -/
theorem collapse_nl_join (l : List Char) :
    collapseRunsAux (fun c => c = '\n') (joinCh (wordsChAux [] l))
      = joinCh (wordsChAux [] l) := by
  apply collapse_eq_self
  intro c hc
  rcases mem_joinCh _ c hc with rfl | ⟨w, hw, hcw⟩
  · decide
  · have := (wordsChAux_wsfree l [] (by simp) w hw).2 c hcw
    simp only [decide_eq_false_iff_not]
    intro h
    subst h
    exact absurd this (by simp [pyIsSpace])

/-! ## The summary normalizer: refinement and idempotence -/

theorem data_mk (l : List Char) : (String.mk l).data = l := rfl

theorem normalizeSummaryCode_eq_canonical (s : String) :
    normalizeSummaryCode s = canonicalSummary s.data := by
  have hws := wordsChAux_wsfree s.data [] (by simp)
  have hcan : collapseRuns (fun c => decide (c = '\n'))
      (collapseRuns pyIsSpace (pyStrip s))
      = String.mk (joinCh (wordsChAux [] s.data)) := by
    show String.mk (collapseRunsAux (fun c => decide (c = '\n'))
        (collapseRunsAux pyIsSpace (stripCh s.data))) = _
    rw [collapse_strip_eq_join, collapse_nl_join]
  have hpw : pyWords (String.mk (joinCh (wordsChAux [] s.data)))
      = (wordsChAux [] s.data).map String.mk := by
    unfold pyWords
    rw [data_mk, wordsChAux_joinCh _ hws]
  have hjs : forall ws : List (List Char),
      joinSpace (ws.map String.mk) = String.mk (joinCh ws) := by
    intro ws
    unfold joinSpace
    congr 1
    rw [List.map_map]
    simp [Function.comp_def]
  simp only [normalizeSummaryCode, canonicalSummary]
  rw [hcan, hpw]
  rw [← List.map_take, hjs]
  simp only [List.length_map]
  rfl

theorem specSummary_eq_canonical (s : String) :
    specSummary s = canonicalSummary s.data := by
  have hws := wordsChAux_wsfree s.data [] (by simp)
  have hcan : pyStrip (collapseRuns pyIsSpace s)
      = String.mk (joinCh (wordsChAux [] s.data)) := by
    show String.mk (stripCh (collapseRunsAux pyIsSpace s.data)) = _
    rw [strip_collapse_eq_join]
  have hpw : pyWords (String.mk (joinCh (wordsChAux [] s.data)))
      = (wordsChAux [] s.data).map String.mk := by
    unfold pyWords
    rw [data_mk, wordsChAux_joinCh _ hws]
  have hjs : forall ws : List (List Char),
      joinSpace (ws.map String.mk) = String.mk (joinCh ws) := by
    intro ws
    unfold joinSpace
    congr 1
    rw [List.map_map]
    simp [Function.comp_def]
  simp only [specSummary, canonicalSummary]
  rw [hcan, hpw]
  rw [← List.map_take, hjs]
  simp only [List.length_map]
  rfl

/-- normalizeSummaryCode agrees with the spec-worded specSummary on every
input. -/
theorem normalizeSummaryCode_eq_spec (s : String) :
    normalizeSummaryCode s = specSummary s := by
  rw [normalizeSummaryCode_eq_canonical, specSummary_eq_canonical]

theorem canonicalSummary_idem (l : List Char)
    (h : forall w, w ∈ wordsChAux [] l → w ≠ [] ∧ ∀ c ∈ w, pyIsSpace c = false) :
    canonicalSummary (canonicalSummary l).data = canonicalSummary l := by
  by_cases hlen : (wordsChAux [] l).length > REASONING_SUMMARY_MAX_WORDS
  · have hws'len :
        (List.take REASONING_SUMMARY_MAX_WORDS (wordsChAux [] l)).length
          = REASONING_SUMMARY_MAX_WORDS := by
      rw [List.length_take]
      omega
    have hws'ne : List.take REASONING_SUMMARY_MAX_WORDS (wordsChAux [] l) ≠ [] := by
      intro hempty
      rw [hempty] at hws'len
      simp [REASONING_SUMMARY_MAX_WORDS] at hws'len
    have hws'f : forall w,
        w ∈ List.take REASONING_SUMMARY_MAX_WORDS (wordsChAux [] l) →
          w ≠ [] ∧ ∀ c ∈ w, pyIsSpace c = false :=
      fun w hw => h w (List.mem_of_mem_take hw)
    by_cases hdot : endsWithDot (String.mk
        (joinCh (List.take REASONING_SUMMARY_MAX_WORDS (wordsChAux [] l))))
    · have h1 : canonicalSummary l = String.mk
          (joinCh (List.take REASONING_SUMMARY_MAX_WORDS (wordsChAux [] l))) := by
        simp only [canonicalSummary, if_pos hlen, hdot, if_true]
      rw [h1]
      simp only [canonicalSummary, data_mk]
      rw [wordsChAux_joinCh _ hws'f, hws'len]
      simp [REASONING_SUMMARY_MAX_WORDS]
    · have hj := joinCh_append_char
        (List.take REASONING_SUMMARY_MAX_WORDS (wordsChAux [] l)) hws'ne '.'
      have hws''len :
          ((List.take REASONING_SUMMARY_MAX_WORDS (wordsChAux [] l)).dropLast
            ++ [(List.take REASONING_SUMMARY_MAX_WORDS (wordsChAux [] l)).getLast
                  hws'ne ++ ['.']]).length = REASONING_SUMMARY_MAX_WORDS := by
        rw [List.length_append, List.length_dropLast, hws'len]
        simp [REASONING_SUMMARY_MAX_WORDS]
      have hws''f : forall w,
          w ∈ (List.take REASONING_SUMMARY_MAX_WORDS (wordsChAux [] l)).dropLast
            ++ [(List.take REASONING_SUMMARY_MAX_WORDS (wordsChAux [] l)).getLast
                  hws'ne ++ ['.']] →
            w ≠ [] ∧ ∀ c ∈ w, pyIsSpace c = false := by
        intro w hw
        rcases List.mem_append.mp hw with hw | hw
        · exact hws'f w (List.dropLast_subset _ hw)
        · rcases List.mem_singleton.mp hw with rfl
          constructor
          · simp
          · intro c hc
            rcases List.mem_append.mp hc with hc | hc
            · exact (hws'f _ (List.getLast_mem hws'ne)).2 c hc
            · rcases List.mem_singleton.mp hc with rfl
              decide
      have h1 : canonicalSummary l = String.mk
          (joinCh (List.take REASONING_SUMMARY_MAX_WORDS (wordsChAux [] l)) ++ ['.']) := by
        simp only [canonicalSummary, if_pos hlen, hdot, Bool.false_eq_true, if_false]
      rw [h1]
      simp only [canonicalSummary, data_mk]
      rw [hj, wordsChAux_joinCh _ hws''f, hws''len]
      simp
  · have h1 : canonicalSummary l = String.mk (joinCh (wordsChAux [] l)) := by
      simp only [canonicalSummary, if_neg hlen]
    rw [h1]
    simp only [canonicalSummary, data_mk]
    rw [wordsChAux_joinCh _ h]
    simp only [if_neg hlen]

/-- The summary normalizer is idempotent. -/
theorem normalizeSummaryCode_idem (s : String) :
    normalizeSummaryCode (normalizeSummaryCode s) = normalizeSummaryCode s := by
  rw [normalizeSummaryCode_eq_canonical s, normalizeSummaryCode_eq_canonical,
    canonicalSummary_idem _ (wordsChAux_wsfree s.data [] (by simp))]

/-! ## Monadic inversion helpers -/

theorem exceptBind_ok {α β : Type} (x : Except PyErr α) (f : α → Except PyErr β)
    (b : β) (h : (x >>= f) = .ok b) : ∃ a, x = .ok a ∧ f a = .ok b := by
  cases x with
  | ok a => exact ⟨a, rfl, h⟩
  | error e => simp [Bind.bind, Except.bind] at h

theorem bind_ok_left {α β : Type} (a : α) (f : α → Except PyErr β) :
    ((Except.ok a : Except PyErr α) >>= f) = f a := rfl

theorem mapM_ok_of_all {α : Type} (gs : List α) (f : α → Except PyErr α)
    (h : ∀ g ∈ gs, f g = .ok g) : gs.mapM f = .ok gs := by
  induction gs with
  | nil => rfl
  | cons g rest ih =>
      rw [List.mapM_cons, h g (List.mem_cons_self _ _),
        ih (fun x hx => h x (List.mem_cons_of_mem _ hx))]
      rfl

theorem mapM_ok_forall2 {α : Type} (gs gs' : List α) (f : α → Except PyErr α)
    (h : gs.mapM f = .ok gs') :
    List.Forall₂ (fun g g' => f g = .ok g') gs gs' := by
  induction gs generalizing gs' with
  | nil =>
      simp only [List.mapM_nil] at h
      cases h
      exact List.Forall₂.nil
  | cons g rest ih =>
      rw [List.mapM_cons] at h
      obtain ⟨a, ha, h2⟩ := exceptBind_ok _ _ _ h
      obtain ⟨as, has, h3⟩ := exceptBind_ok _ _ _ h2
      cases h3
      exact List.Forall₂.cons ha (ih as has)

theorem pyGetItem_ok (v : JVal) (k : String) (x : JVal)
    (h : pyGetItem v k = .ok x) :
    ∃ kvs, v = .jobj kvs ∧ lookupKey kvs k = some x := by
  cases v with
  | jobj kvs =>
      refine ⟨kvs, rfl, ?_⟩
      have h' : (match lookupKey kvs k with
          | some v => (Except.ok v : Except PyErr JVal)
          | none => .error (.keyError k)) = .ok x := h
      cases hl : lookupKey kvs k with
      | some w => rw [hl] at h'; cases h'; rfl
      | none => rw [hl] at h'; cases h' 
  | jnull => simp [pyGetItem] at h
  | jbool b => simp [pyGetItem] at h
  | jint n => simp [pyGetItem] at h
  | jstr s => simp [pyGetItem] at h
  | jarr xs => simp [pyGetItem] at h

theorem pySetItem_ok (v : JVal) (k : String) (w y : JVal)
    (h : pySetItem v k w = .ok y) :
    ∃ kvs, v = .jobj kvs ∧ y = .jobj (setKey kvs k w) := by
  cases v with
  | jobj kvs =>
      refine ⟨kvs, rfl, ?_⟩
      unfold pySetItem at h
      cases h
      rfl
  | jnull => simp [pySetItem] at h
  | jbool b => simp [pySetItem] at h
  | jint n => simp [pySetItem] at h
  | jstr s => simp [pySetItem] at h
  | jarr xs => simp [pySetItem] at h

theorem pyContainsStr_obj (k : String) (kvs : List (String × JVal)) :
    pyContainsStr k (.jobj kvs) = .ok (lookupKey kvs k).isSome := rfl

/-! ## Fixpoint direction: a shaped result is unchanged by a second run -/

theorem pyStrip_enum (lv : String) (h : lv = "Low" ∨ lv = "Medium" ∨ lv = "High") :
    pyStrip lv = lv := by
  rcases h with rfl | rfl | rfl <;> decide

theorem riskNormStr_enum (lv : String)
    (h : lv = "Low" ∨ lv = "Medium" ∨ lv = "High") :
    riskNormStr (pyStrip lv) = lv := by
  rcases h with rfl | rfl | rfl <;> decide

theorem adrGroup_obj_some (gkvs : List (String × JVal)) (lv : String)
    (hlv : lookupKey gkvs "risk_level" = some (.jstr lv)) :
    adrGroup (.jobj gkvs)
      = .ok (.jobj (setKey gkvs "risk_level" (.jstr (riskNormStr (pyStrip lv))))) := by
  simp only [adrGroup, pyContainsStr_obj, hlv, bind_ok_left, Option.isSome_some,
    if_true, pyGetItem, pySetItem, Pure.pure, Except.pure]

theorem adrGroup_fixpoint (g : JVal) (h : GroupShape g) : adrGroup g = .ok g := by
  obtain ⟨gkvs, rfl, _, ⟨lv, hlv, henum⟩, _⟩ := h
  rw [adrGroup_obj_some gkvs lv hlv, riskNormStr_enum lv henum,
    setKey_same _ _ _ hlv]

theorem anchorGroup_fixpoint (g : JVal) (h : GroupShape g) : anchorGroup g = .ok g := by
  obtain ⟨gkvs, rfl, ⟨gv, hgv, htruthy⟩, ⟨lv, hlv, _⟩, ⟨rl, hrl, _⟩⟩ := h
  simp only [anchorGroup, pyContainsStr_obj, hgv, hlv, hrl, bind_ok_left,
    Option.isSome_some, if_true, pyGetItem, htruthy, Bool.not_true,
    Bool.false_eq_true, if_false, Pure.pure, Except.pure]

theorem nrGroup_fixpoint (g : JVal) (h : GroupShape g)
    (hfix : ∀ x ∈ groupRegionStrs g, normalizeRegionVal (.jstr x) = x) :
    nrGroup g = .ok g := by
  obtain ⟨gkvs, rfl, _, _, ⟨rl, hrl, hnodup⟩⟩ := h
  have hstrs : groupRegionStrs (.jobj gkvs) = rl := by
    simp only [groupRegionStrs, getKey, hrl, List.map_map]
    simp [Function.comp_def, pyStrOf]
  rw [hstrs] at hfix
  have hmap : (rl.map JVal.jstr).map normalizeRegionVal = rl := by
    rw [List.map_map]
    calc rl.map (normalizeRegionVal ∘ JVal.jstr)
        = rl.map id := List.map_congr_left (fun x hx => hfix x hx)
      _ = rl := List.map_id rl
  simp only [nrGroup, pyContainsStr_obj, hrl, bind_ok_left, Option.isSome_some,
    if_true, pyGetItem, hmap, dedupKeepOrder_of_nodup rl hnodup, pySetItem,
    setKey_same _ _ _ hrl, Pure.pure, Except.pure]

theorem agShape_group (agv : JVal) (gs : List JVal) (g : JVal)
    (hsh : AgShape agv) (he : agv = .jarr gs) (hg : g ∈ gs) : GroupShape g := by
  rcases hsh with rfl | rfl | ⟨gs', he', _, hgs⟩
  · cases he
  · cases he
  · subst he'
    injection he with h
    subst h
    exact hgs g hg

theorem runGroupLoop_fixpoint (f : JVal → Except PyErr JVal)
    (kvs : List (String × JVal)) (agv : JVal)
    (hag : lookupKey kvs "affected_groups" = some agv)
    (hsh : AgShape agv)
    (hfx : ∀ gs, agv = .jarr gs → ∀ g ∈ gs, f g = .ok g) :
    runGroupLoop f (.jobj kvs) agv = .ok (.jobj kvs) := by
  rcases hsh with rfl | rfl | ⟨gs, rfl, _, hgs⟩
  · rfl
  · rfl
  · simp only [runGroupLoop, mapM_ok_of_all gs f (hfx gs rfl),
      bind_ok_left, pySetItem, setKey_same _ _ _ hag, Pure.pure, Except.pure]

theorem forEachGroup_fixpoint (f : JVal → Except PyErr JVal)
    (kvs : List (String × JVal)) (agv : JVal)
    (hag : lookupKey kvs "affected_groups" = some agv)
    (hsh : AgShape agv)
    (hfx : ∀ gs, agv = .jarr gs → ∀ g ∈ gs, f g = .ok g) :
    forEachGroup f (.jobj kvs) = .ok (.jobj kvs) := by
  simp only [forEachGroup, pyContainsStr_obj, hag, bind_ok_left,
    Option.isSome_some, if_true, pyGetItem, Pure.pure, Except.pure]
  exact runGroupLoop_fixpoint f kvs agv hag hsh hfx

theorem agShape_len (agv : JVal) (hsh : AgShape agv) :
    ∃ n, pyLen agv = .ok n ∧ n ≤ MAX_AFFECTED_GROUPS := by
  rcases hsh with rfl | rfl | ⟨gs, rfl, hlen, _⟩
  · exact ⟨0, rfl, by simp⟩
  · exact ⟨0, rfl, by simp⟩
  · exact ⟨gs.length, rfl, hlen⟩

theorem anchoring_fixpoint (res : JVal) (h : ResShape res) :
    applyAnchoringLogic res = .ok res := by
  obtain ⟨kvs, rfl, ⟨agv, hag, hsh⟩, ⟨mv, hmv, ⟨m, hm, hmle⟩⟩, ⟨sv, hsv, hsfix⟩⟩ := h
  obtain ⟨n, hn, hnle⟩ := agShape_len agv hsh
  have h1 : ¬ (n > MAX_AFFECTED_GROUPS) := by omega
  have h2 : ¬ (m > MAX_MITIGATIONS) := by omega
  simp only [applyAnchoringLogic, pyContainsStr_obj, hag, hmv, hsv, bind_ok_left,
    Option.isSome_some, if_true, pyGetItem, hn, hm, if_neg h1, if_neg h2,
    runGroupLoop_fixpoint anchorGroup kvs agv hag hsh
      (fun gs hgs g hg =>
        anchorGroup_fixpoint g (agShape_group agv gs g hsh hgs hg)),
    Bool.not_true, Bool.false_eq_true, if_false, hsfix, pySetItem,
    setKey_same _ _ _ hsv, Pure.pure, Except.pure]

theorem ensureKey_present (kvs : List (String × JVal)) (k : String) (v dflt : JVal)
    (h : lookupKey kvs k = some v) :
    ensureKey (.jobj kvs) k dflt = .ok (.jobj kvs) := by
  simp only [ensureKey, pyContainsStr_obj, h, bind_ok_left, Option.isSome_some,
    if_true, Pure.pure, Except.pure]

/-- A shaped result with fixed region strings is a fixed point of the whole
normalization pipeline. -/
theorem ppn_fixpoint (res : JVal) (h : ResShape res) (hfix : RegionsFixed res) :
    postProcessNormalize res = .ok res := by
  obtain ⟨kvs, hres, ⟨agv, hag, hsh⟩, ⟨mv, hmv, hmsh⟩, ⟨sv, hsv, hsfix⟩⟩ := h
  subst hres
  have hobj : ∀ gs, agv = .jarr gs → objGroups (.jobj kvs) = gs := by
    intro gs hgs
    simp only [objGroups, getKey, hag, hgs]
  simp only [postProcessNormalize,
    show applyDeterministicRules (.jobj kvs) = .ok (.jobj kvs) from
      forEachGroup_fixpoint adrGroup kvs agv hag hsh
        (fun gs hgs g hg =>
          adrGroup_fixpoint g (agShape_group agv gs g hsh hgs hg)),
    anchoring_fixpoint (.jobj kvs)
      ⟨kvs, rfl, ⟨agv, hag, hsh⟩, ⟨mv, hmv, hmsh⟩, ⟨sv, hsv, hsfix⟩⟩,
    show normalizeRegions (.jobj kvs) = .ok (.jobj kvs) from
      forEachGroup_fixpoint nrGroup kvs agv hag hsh
        (fun gs hgs g hg => nrGroup_fixpoint g
          (agShape_group agv gs g hsh hgs hg)
          (fun x hx => hfix g ((hobj gs hgs).symm ▸ hg) x hx)),
    bind_ok_left,
    ensureKey_present kvs _ agv _ hag,
    ensureKey_present kvs _ mv _ hmv,
    ensureKey_present kvs _ (.jstr sv) _ hsv, Pure.pure, Except.pure]

/-! ## Error behaviour on non-dict and malformed values -/

theorem bind_error_left {α β : Type} (e : PyErr) (f : α → Except PyErr β) :
    ((Except.error e : Except PyErr α) >>= f) = .error e := rfl

/-- anchorGroup raises on any string group (yielded when the group
container is a string or a dict). -/
theorem anchorGroup_str (t : String) : ∃ e, anchorGroup (.jstr t) = .error e := by
  by_cases hb : strIn "group" t
  · refine ⟨.typeError "string indices must be integers", ?_⟩
    simp only [anchorGroup, pyContainsStr, hb, bind_ok_left, if_true, pyGetItem,
      bind_error_left]
  · have hb' : strIn "group" t = false := by simpa using hb
    refine ⟨.typeError "str object does not support item assignment", ?_⟩
    simp [anchorGroup, pyContainsStr, hb', pySetItem, bind_error_left, bind_ok_left]

/-- anchorGroup raises on any list group. -/
theorem anchorGroup_arr (xs : List JVal) :
    ∃ e, anchorGroup (.jarr xs) = .error e := by
  by_cases hb : xs.any (isStrVal "group")
  · refine ⟨.typeError "list indices must be integers, not str", ?_⟩
    simp only [anchorGroup, pyContainsStr, hb, bind_ok_left, if_true, pyGetItem,
      bind_error_left]
  · have hb' : xs.any (isStrVal "group") = false := by simpa using hb
    refine ⟨.typeError "list indices must be integers, not str", ?_⟩
    simp [anchorGroup, pyContainsStr, hb', pySetItem, bind_error_left, bind_ok_left]

/-- anchorGroup raises on null, booleans and numbers. -/
theorem anchorGroup_scalar (g : JVal)
    (h : g = .jnull ∨ (∃ b, g = .jbool b) ∨ (∃ n, g = .jint n)) :
    ∃ e, anchorGroup g = .error e := by
  rcases h with rfl | ⟨b, rfl⟩ | ⟨n, rfl⟩ <;>
    exact ⟨.typeError "argument of type is not iterable",
      by simp only [anchorGroup, pyContainsStr, bind_error_left]⟩

/-- anchorGroup succeeds only on dict groups. -/
theorem anchorGroup_ok_obj (g g' : JVal) (h : anchorGroup g = .ok g') :
    ∃ gkvs, g = .jobj gkvs := by
  cases g with
  | jobj gkvs => exact ⟨gkvs, rfl⟩
  | jstr t => obtain ⟨e, he⟩ := anchorGroup_str t; rw [he] at h; cases h
  | jarr xs => obtain ⟨e, he⟩ := anchorGroup_arr xs; rw [he] at h; cases h
  | jnull => obtain ⟨e, he⟩ := anchorGroup_scalar _ (Or.inl rfl); rw [he] at h; cases h
  | jbool b =>
      obtain ⟨e, he⟩ := anchorGroup_scalar _ (Or.inr (Or.inl ⟨b, rfl⟩))
      rw [he] at h; cases h
  | jint n =>
      obtain ⟨e, he⟩ := anchorGroup_scalar _ (Or.inr (Or.inr ⟨n, rfl⟩))
      rw [he] at h; cases h

/-- anchorGroup on a dict group always succeeds and computes anchorFun. -/
theorem anchorGroup_obj (gkvs : List (String × JVal)) :
    anchorGroup (.jobj gkvs) = .ok (.jobj (anchorFun gkvs)) := by
  unfold anchorGroup anchorFun
  cases hga : lookupKey gkvs "group" with
  | some gv =>
      by_cases ht : pyTruthy gv
      · simp [anchorFun, anchorPhase1, anchorPhase2, anchorPhase3, anchorPhase4, hga, pyContainsStr_obj, hga, Option.isSome_some, bind_ok_left,
          if_true, pyGetItem, ht, Bool.not_true, Bool.false_eq_true, if_false,
          Pure.pure, Except.pure]
        cases hrl : lookupKey gkvs "risk_level" with
        | some rv =>
            simp [anchorFun, anchorPhase1, anchorPhase2, anchorPhase3, anchorPhase4, hga, Option.isSome_some, if_true, Pure.pure, Except.pure,
              bind_ok_left, pyContainsStr_obj, hrl]
            cases hrg : lookupKey gkvs "regions" with
            | some gr =>
                simp [anchorFun, anchorPhase1, anchorPhase2, anchorPhase3, anchorPhase4, hga, Option.isSome_some, if_true, Pure.pure, Except.pure,
                  bind_ok_left, pyContainsStr_obj, hrg, pyGetItem]
                cases gr <;> simp [anchorFun, anchorPhase1, anchorPhase2, anchorPhase3, anchorPhase4, hga, pySetItem, Pure.pure, Except.pure, pyTruthy, hrl, hrg]
            | none =>
                simp [anchorFun, anchorPhase1, anchorPhase2, anchorPhase3, anchorPhase4, hga, Option.isSome_none, Bool.false_eq_true, if_false,
                  Pure.pure, Except.pure, bind_ok_left, pyContainsStr_obj, hrg,
                  pySetItem, pyGetItem, lookupKey_setKey_self, hrl, hrg]
        | none =>
            simp [anchorFun, anchorPhase1, anchorPhase2, anchorPhase3, anchorPhase4, hga, Option.isSome_none, Bool.false_eq_true, if_false,
              Pure.pure, Except.pure, bind_ok_left, pyContainsStr_obj, hrl,
              pySetItem]
            cases hrg : lookupKey (setKey gkvs "risk_level" (.jstr "Medium"))
                "regions" with
            | some gr =>
                simp [anchorFun, anchorPhase1, anchorPhase2, anchorPhase3, anchorPhase4, hga, pyContainsStr_obj, hrg, Option.isSome_some, if_true,
                  Pure.pure, Except.pure, bind_ok_left, pyGetItem]
                cases gr <;> simp [anchorFun, anchorPhase1, anchorPhase2, anchorPhase3, anchorPhase4, hga, pySetItem, Pure.pure, Except.pure, pyTruthy, hrl, hrg]
            | none =>
                simp [anchorFun, anchorPhase1, anchorPhase2, anchorPhase3, anchorPhase4, hga, pyContainsStr_obj, hrg, Option.isSome_none,
                  Bool.false_eq_true, if_false, Pure.pure, Except.pure,
                  bind_ok_left, pySetItem, pyGetItem, lookupKey_setKey_self, hrl, hrg]
      · have ht' : pyTruthy gv = false := by simpa using ht
        simp [anchorFun, anchorPhase1, anchorPhase2, anchorPhase3, anchorPhase4, hga, pyContainsStr_obj, hga, Option.isSome_some, bind_ok_left,
          if_true, pyGetItem, ht', Bool.not_false, if_true, Pure.pure,
          Except.pure, pySetItem]
        cases hrl : lookupKey (setKey gkvs "group" (.jstr "Unspecified group"))
            "risk_level" with
        | some rv =>
            simp [anchorFun, anchorPhase1, anchorPhase2, anchorPhase3, anchorPhase4, hga, pyContainsStr_obj, hrl, Option.isSome_some, if_true,
              Pure.pure, Except.pure, bind_ok_left]
            cases hrg : lookupKey (setKey gkvs "group" (.jstr "Unspecified group"))
                "regions" with
            | some gr =>
                simp [anchorFun, anchorPhase1, anchorPhase2, anchorPhase3, anchorPhase4, hga, pyContainsStr_obj, hrg, Option.isSome_some, if_true,
                  Pure.pure, Except.pure, bind_ok_left, pyGetItem]
                cases gr <;> simp [anchorFun, anchorPhase1, anchorPhase2, anchorPhase3, anchorPhase4, hga, pySetItem, Pure.pure, Except.pure, pyTruthy, hrl, hrg]
            | none =>
                simp [anchorFun, anchorPhase1, anchorPhase2, anchorPhase3, anchorPhase4, hga, pyContainsStr_obj, hrg, Option.isSome_none,
                  Bool.false_eq_true, if_false, Pure.pure, Except.pure,
                  bind_ok_left, pySetItem, pyGetItem, lookupKey_setKey_self, hrl, hrg]
        | none =>
            simp [anchorFun, anchorPhase1, anchorPhase2, anchorPhase3, anchorPhase4, hga, pyContainsStr_obj, hrl, Option.isSome_none,
              Bool.false_eq_true, if_false, Pure.pure, Except.pure, bind_ok_left,
              pySetItem]
            cases hrg : lookupKey (setKey
                (setKey gkvs "group" (.jstr "Unspecified group"))
                "risk_level" (.jstr "Medium")) "regions" with
            | some gr =>
                simp [anchorFun, anchorPhase1, anchorPhase2, anchorPhase3, anchorPhase4, hga, pyContainsStr_obj, hrg, Option.isSome_some, if_true,
                  Pure.pure, Except.pure, bind_ok_left, pyGetItem]
                cases gr <;> simp [anchorFun, anchorPhase1, anchorPhase2, anchorPhase3, anchorPhase4, hga, pySetItem, Pure.pure, Except.pure, pyTruthy, hrl, hrg]
            | none =>
                simp [anchorFun, anchorPhase1, anchorPhase2, anchorPhase3, anchorPhase4, hga, pyContainsStr_obj, hrg, Option.isSome_none,
                  Bool.false_eq_true, if_false, Pure.pure, Except.pure,
                  bind_ok_left, pySetItem, pyGetItem, lookupKey_setKey_self, hrl, hrg]
  | none =>
      simp [anchorFun, anchorPhase1, anchorPhase2, anchorPhase3, anchorPhase4, hga, pyContainsStr_obj, hga, Option.isSome_none, bind_ok_left,
        Bool.false_eq_true, if_false, Pure.pure, Except.pure, pySetItem]
      cases hrl : lookupKey (setKey gkvs "group" (.jstr "Unspecified group"))
          "risk_level" with
      | some rv =>
          simp [anchorFun, anchorPhase1, anchorPhase2, anchorPhase3, anchorPhase4, hga, pyContainsStr_obj, hrl, Option.isSome_some, if_true,
            Pure.pure, Except.pure, bind_ok_left]
          cases hrg : lookupKey (setKey gkvs "group" (.jstr "Unspecified group"))
              "regions" with
          | some gr =>
              simp [anchorFun, anchorPhase1, anchorPhase2, anchorPhase3, anchorPhase4, hga, pyContainsStr_obj, hrg, Option.isSome_some, if_true,
                Pure.pure, Except.pure, bind_ok_left, pyGetItem]
              cases gr <;> simp [anchorFun, anchorPhase1, anchorPhase2, anchorPhase3, anchorPhase4, hga, pySetItem, Pure.pure, Except.pure, pyTruthy, hrl, hrg]
          | none =>
              simp [anchorFun, anchorPhase1, anchorPhase2, anchorPhase3, anchorPhase4, hga, pyContainsStr_obj, hrg, Option.isSome_none,
                Bool.false_eq_true, if_false, Pure.pure, Except.pure,
                bind_ok_left, pySetItem, pyGetItem, lookupKey_setKey_self, hrl, hrg]
      | none =>
          simp [anchorFun, anchorPhase1, anchorPhase2, anchorPhase3, anchorPhase4, hga, pyContainsStr_obj, hrl, Option.isSome_none,
            Bool.false_eq_true, if_false, Pure.pure, Except.pure, bind_ok_left,
            pySetItem]
          cases hrg : lookupKey (setKey
              (setKey gkvs "group" (.jstr "Unspecified group"))
              "risk_level" (.jstr "Medium")) "regions" with
          | some gr =>
              simp [anchorFun, anchorPhase1, anchorPhase2, anchorPhase3, anchorPhase4, hga, pyContainsStr_obj, hrg, Option.isSome_some, if_true,
                Pure.pure, Except.pure, bind_ok_left, pyGetItem]
              cases gr <;> simp [anchorFun, anchorPhase1, anchorPhase2, anchorPhase3, anchorPhase4, hga, pySetItem, Pure.pure, Except.pure, pyTruthy, hrl, hrg]
          | none =>
              simp [anchorFun, anchorPhase1, anchorPhase2, anchorPhase3, anchorPhase4, hga, pyContainsStr_obj, hrg, Option.isSome_none,
                Bool.false_eq_true, if_false, Pure.pure, Except.pure,
                bind_ok_left, pySetItem, pyGetItem, lookupKey_setKey_self, hrl, hrg]

/-- Phase 1 yields a truthy group name and preserves the other two keys. -/
theorem anchorPhase1_shape (gkvs : List (String × JVal)) :
    (∃ gv, lookupKey (anchorPhase1 gkvs) "group" = some gv ∧ pyTruthy gv = true) ∧
    lookupKey (anchorPhase1 gkvs) "risk_level" = lookupKey gkvs "risk_level" ∧
    lookupKey (anchorPhase1 gkvs) "regions" = lookupKey gkvs "regions" := by
  cases hga : lookupKey gkvs "group" with
  | some gv =>
      by_cases ht : pyTruthy gv
      · have hred : anchorPhase1 gkvs = gkvs := by simp [anchorPhase1, hga, ht]
        rw [hred]
        exact ⟨⟨gv, hga, ht⟩, rfl, rfl⟩
      · have hred : anchorPhase1 gkvs
            = setKey gkvs "group" (.jstr "Unspecified group") := by
          simp [anchorPhase1, hga, ht]
        rw [hred]
        refine ⟨⟨.jstr "Unspecified group", lookupKey_setKey_self _ _ _, by decide⟩,
          lookupKey_setKey_ne _ _ _ _ (by decide),
          lookupKey_setKey_ne _ _ _ _ (by decide)⟩
  | none =>
      have hred : anchorPhase1 gkvs
          = setKey gkvs "group" (.jstr "Unspecified group") := by
        simp [anchorPhase1, hga]
      rw [hred]
      refine ⟨⟨.jstr "Unspecified group", lookupKey_setKey_self _ _ _, by decide⟩,
        lookupKey_setKey_ne _ _ _ _ (by decide),
        lookupKey_setKey_ne _ _ _ _ (by decide)⟩

/-- Phase 2 installs the defaulted risk level and preserves the other keys. -/
theorem anchorPhase2_shape (g1 : List (String × JVal)) :
    lookupKey (anchorPhase2 g1) "risk_level"
      = some ((lookupKey g1 "risk_level").getD (.jstr "Medium")) ∧
    lookupKey (anchorPhase2 g1) "group" = lookupKey g1 "group" ∧
    lookupKey (anchorPhase2 g1) "regions" = lookupKey g1 "regions" := by
  cases hrl : lookupKey g1 "risk_level" with
  | some rv =>
      have hred : anchorPhase2 g1 = g1 := by simp [anchorPhase2, hrl]
      rw [hred, hrl]
      exact ⟨rfl, rfl, rfl⟩
  | none =>
      have hred : anchorPhase2 g1 = setKey g1 "risk_level" (.jstr "Medium") := by
        simp [anchorPhase2, hrl]
      rw [hred]
      refine ⟨by rw [lookupKey_setKey_self]; rfl,
        lookupKey_setKey_ne _ _ _ _ (by decide),
        lookupKey_setKey_ne _ _ _ _ (by decide)⟩

/-- Phase 3 guarantees a regions binding and preserves the other keys. -/
theorem anchorPhase3_shape (g2 : List (String × JVal)) :
    (∃ rv, lookupKey (anchorPhase3 g2) "regions" = some rv) ∧
    lookupKey (anchorPhase3 g2) "group" = lookupKey g2 "group" ∧
    lookupKey (anchorPhase3 g2) "risk_level" = lookupKey g2 "risk_level" := by
  cases hrg : lookupKey g2 "regions" with
  | some rv =>
      have hred : anchorPhase3 g2 = g2 := by simp [anchorPhase3, hrg]
      rw [hred]
      exact ⟨⟨rv, hrg⟩, rfl, rfl⟩
  | none =>
      have hred : anchorPhase3 g2 = setKey g2 "regions" (.jarr []) := by
        simp [anchorPhase3, hrg]
      rw [hred]
      refine ⟨⟨.jarr [], lookupKey_setKey_self _ _ _⟩,
        lookupKey_setKey_ne _ _ _ _ (by decide),
        lookupKey_setKey_ne _ _ _ _ (by decide)⟩

/-- Phase 4 turns the regions binding into a list and preserves the other
keys. -/
theorem anchorPhase4_shape (g3 : List (String × JVal))
    (h : ∃ rv, lookupKey g3 "regions" = some rv) :
    (∃ xs, lookupKey (anchorPhase4 g3) "regions" = some (.jarr xs)) ∧
    lookupKey (anchorPhase4 g3) "group" = lookupKey g3 "group" ∧
    lookupKey (anchorPhase4 g3) "risk_level" = lookupKey g3 "risk_level" := by
  obtain ⟨rv, hrv⟩ := h
  have leaf : ∀ v : JVal,
      (∃ xs, lookupKey
          (setKey g3 "regions" (if pyTruthy v then JVal.jarr [v] else .jarr []))
          "regions" = some (.jarr xs)) ∧
      lookupKey (setKey g3 "regions"
          (if pyTruthy v then JVal.jarr [v] else .jarr [])) "group"
        = lookupKey g3 "group" ∧
      lookupKey (setKey g3 "regions"
          (if pyTruthy v then JVal.jarr [v] else .jarr [])) "risk_level"
        = lookupKey g3 "risk_level" := by
    intro v
    refine ⟨⟨if pyTruthy v then [v] else [], ?_⟩,
      lookupKey_setKey_ne _ _ _ _ (by decide),
      lookupKey_setKey_ne _ _ _ _ (by decide)⟩
    rw [lookupKey_setKey_self]
    by_cases h : pyTruthy v <;> simp [h]
  cases rv with
  | jarr xs =>
      have hred : anchorPhase4 g3 = g3 := by simp [anchorPhase4, hrv]
      rw [hred]
      exact ⟨⟨xs, hrv⟩, rfl, rfl⟩
  | jnull =>
      have hred : anchorPhase4 g3 = setKey g3 "regions"
          (if pyTruthy JVal.jnull then JVal.jarr [JVal.jnull] else .jarr []) := by
        simp [anchorPhase4, hrv]
      rw [hred]
      exact leaf _
  | jbool b =>
      have hred : anchorPhase4 g3 = setKey g3 "regions"
          (if pyTruthy (.jbool b) then JVal.jarr [.jbool b] else .jarr []) := by
        simp [anchorPhase4, hrv]
      rw [hred]
      exact leaf _
  | jint n =>
      have hred : anchorPhase4 g3 = setKey g3 "regions"
          (if pyTruthy (.jint n) then JVal.jarr [.jint n] else .jarr []) := by
        simp [anchorPhase4, hrv]
      rw [hred]
      exact leaf _
  | jstr t =>
      have hred : anchorPhase4 g3 = setKey g3 "regions"
          (if pyTruthy (.jstr t) then JVal.jarr [.jstr t] else .jarr []) := by
        simp [anchorPhase4, hrv]
      rw [hred]
      exact leaf _
  | jobj kv =>
      have hred : anchorPhase4 g3 = setKey g3 "regions"
          (if pyTruthy (.jobj kv) then JVal.jarr [.jobj kv] else .jarr []) := by
        simp [anchorPhase4, hrv]
      rw [hred]
      exact leaf _

/-- Shape of the pure anchor step: truthy group name, risk level preserved
or defaulted to Medium, regions present as a list. -/
theorem anchorFun_shape (gkvs : List (String × JVal)) :
    (∃ gv, lookupKey (anchorFun gkvs) "group" = some gv ∧ pyTruthy gv = true) ∧
    lookupKey (anchorFun gkvs) "risk_level"
      = some ((lookupKey gkvs "risk_level").getD (.jstr "Medium")) ∧
    (∃ xs, lookupKey (anchorFun gkvs) "regions" = some (.jarr xs)) := by
  obtain ⟨h1gv, h1rl, h1rg⟩ := anchorPhase1_shape gkvs
  obtain ⟨h2rl, h2gv, h2rg⟩ := anchorPhase2_shape (anchorPhase1 gkvs)
  obtain ⟨h3rg, h3gv, h3rl⟩ := anchorPhase3_shape (anchorPhase2 (anchorPhase1 gkvs))
  obtain ⟨h4rg, h4gv, h4rl⟩ := anchorPhase4_shape
    (anchorPhase3 (anchorPhase2 (anchorPhase1 gkvs))) h3rg
  refine ⟨?_, ?_, ?_⟩
  · obtain ⟨gv, hgv, htr⟩ := h1gv
    refine ⟨gv, ?_, htr⟩
    rw [show anchorFun gkvs = anchorPhase4 (anchorPhase3 (anchorPhase2
      (anchorPhase1 gkvs))) from rfl, h4gv, h3gv, h2gv, hgv]
  · rw [show anchorFun gkvs = anchorPhase4 (anchorPhase3 (anchorPhase2
      (anchorPhase1 gkvs))) from rfl, h4rl, h3rl, h2rl, h1rl]
  · exact h4rg

/-! ## Inversion of the pipeline steps -/

/-- The risk mapping only produces the three enum strings. -/
theorem riskNormStr_enum_mem (s : String) :
    riskNormStr s = "Low" ∨ riskNormStr s = "Medium" ∨ riskNormStr s = "High" := by
  simp only [riskNormStr]
  split_ifs <;> simp

/-- A one-character string cannot contain a longer needle. -/
theorem strIn_singleton_long (needle : String) (c : Char)
    (h : 2 ≤ needle.length) : strIn needle (.mk [c]) = false := by
  have hlen : 2 ≤ needle.data.length := h
  show listContainsSeq needle.data [c] = false
  cases hn : needle.data with
  | nil => rw [hn] at hlen; simp at hlen
  | cons a rest =>
      rw [hn] at hlen
      cases rest with
      | nil => simp at hlen
      | cons b rest2 => simp [listContainsSeq, listStarts]

/-- Inversion of the per-group risk normalization. -/
theorem adrGroup_inv (g g' : JVal) (h : adrGroup g = .ok g') :
    (g' = g ∧ ∀ gkvs, g = .jobj gkvs → lookupKey gkvs "risk_level" = none) ∨
    (∃ gkvs lv, g = .jobj gkvs ∧
      lookupKey gkvs "risk_level" = some (.jstr lv) ∧
      g' = .jobj (setKey gkvs "risk_level" (.jstr (riskNormStr (pyStrip lv))))) := by
  cases g with
  | jobj gkvs =>
      cases hlk : lookupKey gkvs "risk_level" with
      | none =>
          have hred : adrGroup (.jobj gkvs) = .ok (.jobj gkvs) := by
            simp [adrGroup, pyContainsStr_obj, hlk, bind_ok_left, Pure.pure,
              Except.pure]
          rw [hred] at h
          cases h
          exact Or.inl ⟨rfl, fun gkvs' h' => by cases h'; exact hlk⟩
      | some v =>
          cases v with
          | jstr lv =>
              rw [adrGroup_obj_some gkvs lv hlk] at h
              cases h
              exact Or.inr ⟨gkvs, lv, rfl, hlk, rfl⟩
          | jnull =>
              have hred : adrGroup (.jobj gkvs)
                  = .error (.attributeError "object has no attribute strip") := by
                simp [adrGroup, pyContainsStr_obj, hlk, bind_ok_left, pyGetItem,
                  bind_error_left, Bind.bind, Except.bind]
              rw [hred] at h; cases h
          | jbool b =>
              have hred : adrGroup (.jobj gkvs)
                  = .error (.attributeError "object has no attribute strip") := by
                simp [adrGroup, pyContainsStr_obj, hlk, bind_ok_left, pyGetItem,
                  bind_error_left, Bind.bind, Except.bind]
              rw [hred] at h; cases h
          | jint n =>
              have hred : adrGroup (.jobj gkvs)
                  = .error (.attributeError "object has no attribute strip") := by
                simp [adrGroup, pyContainsStr_obj, hlk, bind_ok_left, pyGetItem,
                  bind_error_left, Bind.bind, Except.bind]
              rw [hred] at h; cases h
          | jarr xs =>
              have hred : adrGroup (.jobj gkvs)
                  = .error (.attributeError "object has no attribute strip") := by
                simp [adrGroup, pyContainsStr_obj, hlk, bind_ok_left, pyGetItem,
                  bind_error_left, Bind.bind, Except.bind]
              rw [hred] at h; cases h
          | jobj kv =>
              have hred : adrGroup (.jobj gkvs)
                  = .error (.attributeError "object has no attribute strip") := by
                simp [adrGroup, pyContainsStr_obj, hlk, bind_ok_left, pyGetItem,
                  bind_error_left, Bind.bind, Except.bind]
              rw [hred] at h; cases h
  | jstr t =>
      by_cases hb : strIn "risk_level" t
      · have hred : adrGroup (.jstr t)
            = .error (.typeError "string indices must be integers") := by
          simp [adrGroup, pyContainsStr, hb, bind_ok_left, pyGetItem,
            bind_error_left]
        rw [hred] at h; cases h
      · have hb' : strIn "risk_level" t = false := by simpa using hb
        have hred : adrGroup (.jstr t) = .ok (.jstr t) := by
          simp [adrGroup, pyContainsStr, hb', bind_ok_left, Pure.pure, Except.pure]
        rw [hred] at h
        cases h
        exact Or.inl ⟨rfl, fun gkvs h' => by cases h'⟩
  | jarr xs =>
      by_cases hb : xs.any (isStrVal "risk_level")
      · have hred : adrGroup (.jarr xs)
            = .error (.typeError "list indices must be integers, not str") := by
          simp [adrGroup, pyContainsStr, hb, bind_ok_left, pyGetItem,
            bind_error_left]
        rw [hred] at h; cases h
      · have hb' : xs.any (isStrVal "risk_level") = false := by simpa using hb
        have hred : adrGroup (.jarr xs) = .ok (.jarr xs) := by
          simp [adrGroup, pyContainsStr, hb', bind_ok_left, Pure.pure, Except.pure]
        rw [hred] at h
        cases h
        exact Or.inl ⟨rfl, fun gkvs h' => by cases h'⟩
  | jnull => simp [adrGroup, pyContainsStr, bind_error_left] at h
  | jbool b => simp [adrGroup, pyContainsStr, bind_error_left] at h
  | jint n => simp [adrGroup, pyContainsStr, bind_error_left] at h

/-- Inversion of the shared group loop driver. -/
theorem forEachGroup_cases (f : JVal → Except PyErr JVal) (r r' : JVal)
    (h : forEachGroup f r = .ok r') :
    (r' = r ∧ ∀ kvs gs, r = .jobj kvs →
      lookupKey kvs "affected_groups" ≠ some (.jarr gs)) ∨
    (∃ kvs gs gs', r = .jobj kvs ∧
      lookupKey kvs "affected_groups" = some (.jarr gs) ∧
      gs.mapM f = .ok gs' ∧
      r' = .jobj (setKey kvs "affected_groups" (.jarr gs'))) := by
  unfold forEachGroup at h
  obtain ⟨b, hb, h2⟩ := exceptBind_ok _ _ _ h
  cases b with
  | false =>
      simp only [Bool.false_eq_true, if_false, Pure.pure, Except.pure] at h2
      cases h2
      left
      refine ⟨rfl, fun kvs gs hkvs hlk => ?_⟩
      subst hkvs
      rw [pyContainsStr_obj] at hb
      injection hb with hb
      rw [hlk] at hb
      simp at hb
  | true =>
      simp only [if_true] at h2
      obtain ⟨ag, hag, h3⟩ := exceptBind_ok _ _ _ h2
      obtain ⟨kvs, rfl, hlk⟩ := pyGetItem_ok _ _ _ hag
      unfold runGroupLoop at h3
      cases ag with
      | jarr gs =>
          obtain ⟨gs', hgs', h4⟩ := exceptBind_ok _ _ _ h3
          obtain ⟨kvs2, hkvs2, h5⟩ := pySetItem_ok _ _ _ _ h4
          injection hkvs2 with hkvs2
          subst hkvs2
          exact Or.inr ⟨kvs, gs, gs', rfl, hlk, hgs', h5⟩
      | jstr s =>
          obtain ⟨u, hu, h4⟩ := exceptBind_ok _ _ _ h3
          simp only [Pure.pure, Except.pure] at h4
          cases h4
          left
          refine ⟨rfl, fun kvs' gs hkvs' hlk' => ?_⟩
          injection hkvs' with hkvs'
          subst hkvs'
          rw [hlk] at hlk'
          cases hlk'
      | jobj kv =>
          obtain ⟨u, hu, h4⟩ := exceptBind_ok _ _ _ h3
          simp only [Pure.pure, Except.pure] at h4
          cases h4
          left
          refine ⟨rfl, fun kvs' gs hkvs' hlk' => ?_⟩
          injection hkvs' with hkvs'
          subst hkvs'
          rw [hlk] at hlk'
          cases hlk'
      | jnull => cases h3
      | jbool b2 => cases h3
      | jint n => cases h3

/-- Keys other than affected_groups are untouched by the group-loop steps. -/
theorem forEachGroup_preserves (f : JVal → Except PyErr JVal) (r r' : JVal)
    (h : forEachGroup f r = .ok r') (k : String) (hk : k ≠ "affected_groups") :
    getKey r' k = getKey r k := by
  rcases forEachGroup_cases f r r' h with ⟨rfl, _⟩ | ⟨kvs, gs, gs', rfl, _, _, rfl⟩
  · rfl
  · unfold getKey
    exact lookupKey_setKey_ne _ _ _ _ hk

/-- nrGroup computes nrFun on dict groups. -/
theorem nrGroup_obj (gkvs : List (String × JVal)) :
    nrGroup (.jobj gkvs) = .ok (nrFun (.jobj gkvs)) := by
  cases hrg : lookupKey gkvs "regions" with
  | none =>
      simp [nrGroup, nrFun, pyContainsStr_obj, hrg, bind_ok_left, Pure.pure,
        Except.pure]
  | some rv =>
      cases rv <;>
        simp [nrGroup, nrFun, pyContainsStr_obj, hrg, bind_ok_left, pyGetItem,
          pySetItem, Pure.pure, Except.pure]

theorem exceptBind_assoc {α β γ : Type} (x : Except PyErr α)
    (f : α → Except PyErr β) (g : β → Except PyErr γ) :
    (x >>= f) >>= g = x >>= fun a => f a >>= g := by
  cases x <;> rfl

theorem exceptIte_bind {α β : Type} (c : Prop) [Decidable c]
    (a b : Except PyErr α) (g : α → Except PyErr β) :
    ((if c then a else b) >>= g) = if c then a >>= g else b >>= g := by
  split <;> rfl

/-- applyAnchoringLogic factors through the proof-side head and tail. -/
theorem applyAnchoringLogic_split (r : JVal) :
    applyAnchoringLogic r = anchorHead r >>= fun t => anchorTail t := by
  unfold applyAnchoringLogic anchorHead anchorTail summaryPhase
  simp only [exceptBind_assoc, exceptIte_bind]

theorem forall2_mem_right {α β : Type} {R : α → β → Prop} {as : List α}
    {bs : List β} (h : List.Forall₂ R as bs) (b : β) (hb : b ∈ bs) :
    ∃ a ∈ as, R a b := by
  induction h with
  | nil => cases hb
  | cons hR hrest ih =>
      rcases List.mem_cons.mp hb with rfl | hb'
      · exact ⟨_, List.mem_cons_self _ _, hR⟩
      · obtain ⟨a, ha, hr⟩ := ih hb'
        exact ⟨a, List.mem_cons_of_mem _ ha, hr⟩

/-- Inversion of the summary phase on a dict. -/
theorem summaryPhase_inv (kvsB : List (String × JVal)) (r₂ : JVal)
    (h : summaryPhase (.jobj kvsB) = .ok r₂) :
    ∃ out, r₂ = .jobj (setKey kvsB "reasoning_summary" (.jstr out)) ∧
      ((lookupKey kvsB "reasoning_summary" = none ∧ out = "Analysis completed.") ∨
        (∃ s₀, lookupKey kvsB "reasoning_summary" = some (.jstr s₀) ∧
          out = normalizeSummaryCode s₀)) := by
  unfold summaryPhase at h
  obtain ⟨hasSum, hHS, h⟩ := exceptBind_ok _ _ _ h
  rw [pyContainsStr_obj] at hHS
  injection hHS with hHS
  cases hS : lookupKey kvsB "reasoning_summary" with
  | none =>
      have hf : hasSum = false := by rw [hS] at hHS; simpa using hHS.symm
      subst hf
      simp only [Bool.not_false, if_true] at h
      unfold pySetItem at h
      cases h
      exact ⟨_, rfl, Or.inl ⟨rfl, rfl⟩⟩
  | some sv =>
      have ht : hasSum = true := by rw [hS] at hHS; simpa using hHS.symm
      subst ht
      simp only [Bool.not_true, Bool.false_eq_true, if_false] at h
      obtain ⟨sv', hGet, h⟩ := exceptBind_ok _ _ _ h
      simp only [pyGetItem, hS] at hGet
      cases hGet
      cases sv with
      | jstr s =>
          unfold pySetItem at h
          cases h
          exact ⟨_, rfl, Or.inr ⟨s, rfl, rfl⟩⟩
      | jnull => cases h
      | jbool b => cases h
      | jint n => cases h
      | jarr xs => cases h
      | jobj kv => cases h

/-- Assembly step shared by the mitigation branches of the tail
inversion. -/
theorem anchorTail_assemble (kvs₃ kvsB : List (String × JVal)) (r₂ mv : JVal)
    (hB : lookupKey kvsB "mitigations" = some mv)
    (hMS : MitShape mv)
    (hpres : ∀ k, k ≠ "mitigations" → lookupKey kvsB k = lookupKey kvs₃ k)
    (h : summaryPhase (.jobj kvsB) = .ok r₂) :
    ∃ kvs₂, r₂ = .jobj kvs₂ ∧
      (∀ k, k ≠ "mitigations" → k ≠ "reasoning_summary" →
        lookupKey kvs₂ k = lookupKey kvs₃ k) ∧
      (∃ mv', lookupKey kvs₂ "mitigations" = some mv' ∧ MitShape mv') ∧
      ((lookupKey kvs₃ "reasoning_summary" = none ∧
          lookupKey kvs₂ "reasoning_summary" = some (.jstr "Analysis completed.")) ∨
        (∃ s₀, lookupKey kvs₃ "reasoning_summary" = some (.jstr s₀) ∧
          lookupKey kvs₂ "reasoning_summary"
            = some (.jstr (normalizeSummaryCode s₀)))) := by
  obtain ⟨out, rfl, hsum⟩ := summaryPhase_inv _ _ h
  refine ⟨setKey kvsB "reasoning_summary" (.jstr out), rfl, ?_, ⟨mv, ?_, hMS⟩, ?_⟩
  · intro k hk1 hk2
    rw [lookupKey_setKey_ne _ _ _ _ hk2, hpres k hk1]
  · rw [lookupKey_setKey_ne _ _ _ _
      (by decide : ("mitigations" : String) ≠ "reasoning_summary"), hB]
  · have hrs : lookupKey kvsB "reasoning_summary"
        = lookupKey kvs₃ "reasoning_summary" :=
      hpres _ (by decide)
    rcases hsum with ⟨hnone, rfl⟩ | ⟨s₀, hs₀, rfl⟩
    · exact Or.inl ⟨hrs ▸ hnone, lookupKey_setKey_self _ _ _⟩
    · exact Or.inr ⟨s₀, hrs ▸ hs₀, lookupKey_setKey_self _ _ _⟩

/-- Inversion of the mitigation and summary phases on a dict. -/
theorem anchorTail_inv (kvs₃ : List (String × JVal)) (r₂ : JVal)
    (h : anchorTail (.jobj kvs₃) = .ok r₂) :
    ∃ kvs₂, r₂ = .jobj kvs₂ ∧
      (∀ k, k ≠ "mitigations" → k ≠ "reasoning_summary" →
        lookupKey kvs₂ k = lookupKey kvs₃ k) ∧
      (∃ mv', lookupKey kvs₂ "mitigations" = some mv' ∧ MitShape mv') ∧
      ((lookupKey kvs₃ "reasoning_summary" = none ∧
          lookupKey kvs₂ "reasoning_summary" = some (.jstr "Analysis completed.")) ∨
        (∃ s₀, lookupKey kvs₃ "reasoning_summary" = some (.jstr s₀) ∧
          lookupKey kvs₂ "reasoning_summary"
            = some (.jstr (normalizeSummaryCode s₀)))) := by
  unfold anchorTail at h
  obtain ⟨hasMit, hHM, h⟩ := exceptBind_ok _ _ _ h
  rw [pyContainsStr_obj] at hHM
  injection hHM with hHM
  cases hMit : lookupKey kvs₃ "mitigations" with
  | none =>
      have hf : hasMit = false := by rw [hMit] at hHM; simpa using hHM.symm
      subst hf
      simp only [Bool.false_eq_true, if_false] at h
      obtain ⟨rA, hEns, h⟩ := exceptBind_ok _ _ _ h
      unfold pySetItem at hEns
      cases hEns
      obtain ⟨mit, hGetM, h⟩ := exceptBind_ok _ _ _ h
      simp only [pyGetItem, lookupKey_setKey_self] at hGetM
      cases hGetM
      obtain ⟨m, hLenM, h⟩ := exceptBind_ok _ _ _ h
      injection hLenM with hLenM
      subst hLenM
      rw [if_neg (by decide)] at h
      simp only [bind_ok_left, Pure.pure, Except.pure] at h
      exact anchorTail_assemble kvs₃ _ r₂ (.jarr [])
        (lookupKey_setKey_self _ _ _) ⟨0, rfl, by decide⟩
        (fun k hk => lookupKey_setKey_ne _ _ _ _ hk) h
  | some mv₀ =>
      have ht : hasMit = true := by rw [hMit] at hHM; simpa using hHM.symm
      subst ht
      simp only [if_true, bind_ok_left, Pure.pure, Except.pure] at h
      obtain ⟨mit, hGetM, h⟩ := exceptBind_ok _ _ _ h
      simp only [pyGetItem, hMit] at hGetM
      cases hGetM
      obtain ⟨m, hLenM, h⟩ := exceptBind_ok _ _ _ h
      by_cases hm : m > MAX_MITIGATIONS
      · rw [if_pos hm] at h
        obtain ⟨sliced, hSlc, h⟩ := exceptBind_ok _ _ _ h
        obtain ⟨rB, hSet, h⟩ := exceptBind_ok _ _ _ h
        cases mv₀ with
        | jarr ms =>
            simp only [pySliceTo] at hSlc
            cases hSlc
            unfold pySetItem at hSet
            cases hSet
            exact anchorTail_assemble kvs₃ _ r₂ (.jarr (ms.take MAX_MITIGATIONS))
              (lookupKey_setKey_self _ _ _)
              ⟨(ms.take MAX_MITIGATIONS).length, rfl,
                by rw [List.length_take]; exact Nat.min_le_left _ _⟩
              (fun k hk => lookupKey_setKey_ne _ _ _ _ hk) h
        | jstr s =>
            simp only [pySliceTo] at hSlc
            cases hSlc
            unfold pySetItem at hSet
            cases hSet
            exact anchorTail_assemble kvs₃ _ r₂
              (.jstr (.mk (s.data.take MAX_MITIGATIONS)))
              (lookupKey_setKey_self _ _ _)
              ⟨(s.data.take MAX_MITIGATIONS).length, rfl,
                by rw [List.length_take]; exact Nat.min_le_left _ _⟩
              (fun k hk => lookupKey_setKey_ne _ _ _ _ hk) h
        | jobj kv => cases hSlc
        | jnull => cases hLenM
        | jbool b => cases hLenM
        | jint n => cases hLenM
      · rw [if_neg hm] at h
        exact anchorTail_assemble kvs₃ kvs₃ r₂ mv₀ hMit
          ⟨m, hLenM, Nat.le_of_not_lt hm⟩ (fun _ _ => rfl) h

/-- Inversion of the affected_groups phase of the anchoring step. -/
theorem anchorHead_inv (r₁ r₃ : JVal) (h : anchorHead r₁ = .ok r₃) :
    ∃ kvs₁ kvs₃, r₁ = .jobj kvs₁ ∧ r₃ = .jobj kvs₃ ∧
      (∀ k, k ≠ "affected_groups" → lookupKey kvs₃ k = lookupKey kvs₁ k) ∧
      ∃ agv, lookupKey kvs₃ "affected_groups" = some agv ∧
        (agv = .jstr "" ∨ agv = .jobj [] ∨
          ∃ gs₂, agv = .jarr gs₂ ∧ gs₂.length ≤ MAX_AFFECTED_GROUPS ∧
            ∀ g' ∈ gs₂, ∃ gkvs₀, g' = .jobj (anchorFun gkvs₀) ∧
              ∃ gs₀, lookupKey kvs₁ "affected_groups" = some (.jarr gs₀) ∧
                JVal.jobj gkvs₀ ∈ gs₀) := by
  cases r₁ with
  | jnull => simp [anchorHead, pyContainsStr, bind_error_left] at h
  | jbool b => simp [anchorHead, pyContainsStr, bind_error_left] at h
  | jint n => simp [anchorHead, pyContainsStr, bind_error_left] at h
  | jstr t =>
      by_cases hb : strIn "affected_groups" t
      · simp [anchorHead, pyContainsStr, hb, pyGetItem, bind_error_left,
          bind_ok_left, Pure.pure, Except.pure] at h
      · have hb' : strIn "affected_groups" t = false := by simpa using hb
        simp [anchorHead, pyContainsStr, hb', pySetItem, bind_error_left,
          bind_ok_left, Pure.pure, Except.pure] at h
  | jarr xs =>
      by_cases hb : xs.any (isStrVal "affected_groups")
      · simp [anchorHead, pyContainsStr, hb, pyGetItem, bind_error_left,
          bind_ok_left, Pure.pure, Except.pure] at h
      · have hb' : xs.any (isStrVal "affected_groups") = false := by simpa using hb
        simp [anchorHead, pyContainsStr, hb', pySetItem, bind_error_left,
          bind_ok_left, Pure.pure, Except.pure] at h
  | jobj kvs₁ =>
      unfold anchorHead at h
      obtain ⟨hasAg, hHA, h⟩ := exceptBind_ok _ _ _ h
      rw [pyContainsStr_obj] at hHA
      injection hHA with hHA
      cases hAG : lookupKey kvs₁ "affected_groups" with
      | none =>
          have hf : hasAg = false := by rw [hAG] at hHA; simpa using hHA.symm
          subst hf
          simp only [Bool.false_eq_true, if_false] at h
          obtain ⟨rE, hEns, h⟩ := exceptBind_ok _ _ _ h
          unfold pySetItem at hEns
          cases hEns
          obtain ⟨ag, hGet, h⟩ := exceptBind_ok _ _ _ h
          simp only [pyGetItem, lookupKey_setKey_self] at hGet
          cases hGet
          obtain ⟨n, hLen, h⟩ := exceptBind_ok _ _ _ h
          injection hLen with hLen
          subst hLen
          rw [if_neg (by decide)] at h
          simp only [bind_ok_left, Pure.pure, Except.pure] at h
          obtain ⟨ag₂, hGet₂, h⟩ := exceptBind_ok _ _ _ h
          simp only [pyGetItem, lookupKey_setKey_self] at hGet₂
          cases hGet₂
          unfold runGroupLoop at h
          simp only [List.mapM_nil, bind_ok_left, Pure.pure, Except.pure] at h
          unfold pySetItem at h
          cases h
          refine ⟨kvs₁, _, rfl, rfl, ?_, .jarr [], lookupKey_setKey_self _ _ _,
            Or.inr (Or.inr ⟨[], rfl, by decide, by simp⟩)⟩
          intro k hk
          rw [lookupKey_setKey_ne _ _ _ _ hk, lookupKey_setKey_ne _ _ _ _ hk]
      | some v₀ =>
          have ht : hasAg = true := by rw [hAG] at hHA; simpa using hHA.symm
          subst ht
          simp only [if_true, bind_ok_left, Pure.pure, Except.pure] at h
          obtain ⟨ag, hGet, h⟩ := exceptBind_ok _ _ _ h
          simp only [pyGetItem, hAG] at hGet
          cases hGet
          obtain ⟨n, hLen, h⟩ := exceptBind_ok _ _ _ h
          cases v₀ with
          | jnull => cases hLen
          | jbool b => cases hLen
          | jint m => cases hLen
          | jarr gs₀ =>
              injection hLen with hLen
              subst hLen
              by_cases hn : gs₀.length > MAX_AFFECTED_GROUPS
              · rw [if_pos hn] at h
                obtain ⟨sliced, hSlc, h⟩ := exceptBind_ok _ _ _ h
                simp only [pySliceTo] at hSlc
                cases hSlc
                obtain ⟨rS, hSet, h⟩ := exceptBind_ok _ _ _ h
                unfold pySetItem at hSet
                cases hSet
                obtain ⟨ag₂, hGet₂, h⟩ := exceptBind_ok _ _ _ h
                simp only [pyGetItem, lookupKey_setKey_self] at hGet₂
                cases hGet₂
                unfold runGroupLoop at h
                obtain ⟨gs₂, hMap, hSet₂⟩ := exceptBind_ok _ _ _ h
                unfold pySetItem at hSet₂
                cases hSet₂
                refine ⟨kvs₁, _, rfl, rfl, ?_, .jarr gs₂,
                  lookupKey_setKey_self _ _ _, Or.inr (Or.inr ⟨gs₂, rfl, ?_, ?_⟩)⟩
                · intro k hk
                  rw [lookupKey_setKey_ne _ _ _ _ hk, lookupKey_setKey_ne _ _ _ _ hk]
                · have hlen2 := (mapM_ok_forall2 _ _ _ hMap).length_eq
                  rw [← hlen2, List.length_take]
                  exact Nat.min_le_left _ _
                · intro g' hg'
                  obtain ⟨g, hgmem, hfg⟩ :=
                    forall2_mem_right (mapM_ok_forall2 _ _ _ hMap) g' hg'
                  obtain ⟨gkvs₀, rfl⟩ := anchorGroup_ok_obj g g' hfg
                  rw [anchorGroup_obj] at hfg
                  injection hfg with hfg
                  exact ⟨gkvs₀, hfg.symm, gs₀, hAG, List.take_subset _ _ hgmem⟩
              · rw [if_neg hn] at h
                obtain ⟨ag₂, hGet₂, h⟩ := exceptBind_ok _ _ _ h
                simp only [pyGetItem, hAG] at hGet₂
                cases hGet₂
                unfold runGroupLoop at h
                obtain ⟨gs₂, hMap, hSet₂⟩ := exceptBind_ok _ _ _ h
                unfold pySetItem at hSet₂
                cases hSet₂
                refine ⟨kvs₁, _, rfl, rfl, ?_, .jarr gs₂,
                  lookupKey_setKey_self _ _ _, Or.inr (Or.inr ⟨gs₂, rfl, ?_, ?_⟩)⟩
                · intro k hk
                  rw [lookupKey_setKey_ne _ _ _ _ hk]
                · have hlen2 := (mapM_ok_forall2 _ _ _ hMap).length_eq
                  rw [← hlen2]
                  exact Nat.le_of_not_lt hn
                · intro g' hg'
                  obtain ⟨g, hgmem, hfg⟩ :=
                    forall2_mem_right (mapM_ok_forall2 _ _ _ hMap) g' hg'
                  obtain ⟨gkvs₀, rfl⟩ := anchorGroup_ok_obj g g' hfg
                  rw [anchorGroup_obj] at hfg
                  injection hfg with hfg
                  exact ⟨gkvs₀, hfg.symm, gs₀, hAG, hgmem⟩
          | jstr s =>
              obtain ⟨l⟩ := s
              injection hLen with hLen
              subst hLen
              by_cases hn : (String.mk l).length > MAX_AFFECTED_GROUPS
              · rw [if_pos hn] at h
                obtain ⟨sliced, hSlc, h⟩ := exceptBind_ok _ _ _ h
                simp only [pySliceTo] at hSlc
                cases hSlc
                obtain ⟨rS, hSet, h⟩ := exceptBind_ok _ _ _ h
                unfold pySetItem at hSet
                cases hSet
                obtain ⟨ag₂, hGet₂, h⟩ := exceptBind_ok _ _ _ h
                simp only [pyGetItem, lookupKey_setKey_self] at hGet₂
                cases hGet₂
                cases ht2 : l.take MAX_AFFECTED_GROUPS with
                | nil =>
                    have h0 : (l.take MAX_AFFECTED_GROUPS).length = 0 := by
                      rw [ht2]; rfl
                    rw [List.length_take] at h0
                    have hn' : l.length > MAX_AFFECTED_GROUPS := hn
                    simp only [MAX_AFFECTED_GROUPS] at h0 hn'
                    omega
                | cons c cs =>
                    rw [ht2] at h
                    unfold runGroupLoop at h
                    simp only [List.map_cons, List.mapM_cons] at h
                    obtain ⟨e, he⟩ := anchorGroup_str (.mk [c])
                    rw [he] at h
                    simp only [bind_error_left] at h
                    cases h
              · rw [if_neg hn] at h
                obtain ⟨ag₂, hGet₂, h⟩ := exceptBind_ok _ _ _ h
                simp only [pyGetItem, hAG] at hGet₂
                cases hGet₂
                cases l with
                | nil =>
                    unfold runGroupLoop at h
                    simp only [List.map_nil, List.mapM_nil, bind_ok_left,
                      Pure.pure, Except.pure] at h
                    cases h
                    exact ⟨kvs₁, kvs₁, rfl, rfl, fun k hk => rfl,
                      .jstr (.mk []), hAG, Or.inl rfl⟩
                | cons c cs =>
                    unfold runGroupLoop at h
                    simp only [List.map_cons, List.mapM_cons] at h
                    obtain ⟨e, he⟩ := anchorGroup_str (.mk [c])
                    rw [he] at h
                    simp only [bind_error_left] at h
                    cases h
          | jobj kv =>
              injection hLen with hLen
              subst hLen
              by_cases hn : kv.length > MAX_AFFECTED_GROUPS
              · rw [if_pos hn] at h
                obtain ⟨sliced, hSlc, h⟩ := exceptBind_ok _ _ _ h
                cases hSlc
              · rw [if_neg hn] at h
                obtain ⟨ag₂, hGet₂, h⟩ := exceptBind_ok _ _ _ h
                simp only [pyGetItem, hAG] at hGet₂
                cases hGet₂
                cases kv with
                | nil =>
                    unfold runGroupLoop at h
                    simp only [List.map_nil, List.mapM_nil, bind_ok_left,
                      Pure.pure, Except.pure] at h
                    cases h
                    exact ⟨kvs₁, kvs₁, rfl, rfl, fun k hk => rfl,
                      .jobj [], hAG, Or.inr (Or.inl rfl)⟩
                | cons p ps =>
                    unfold runGroupLoop at h
                    simp only [List.map_cons, List.mapM_cons] at h
                    obtain ⟨e, he⟩ := anchorGroup_str p.1
                    rw [he] at h
                    simp only [bind_error_left] at h
                    cases h

/-- Full inversion of the anchoring step: a success implies a dict input,
a dict output with shaped affected_groups and mitigations, and the summary
relation between input and output. -/
theorem anch_inv (r₁ r₂ : JVal) (h : applyAnchoringLogic r₁ = .ok r₂) :
    ∃ kvs₁ kvs₂, r₁ = .jobj kvs₁ ∧ r₂ = .jobj kvs₂ ∧
      (∃ agv, lookupKey kvs₂ "affected_groups" = some agv ∧
        (agv = .jstr "" ∨ agv = .jobj [] ∨
          ∃ gs₂, agv = .jarr gs₂ ∧ gs₂.length ≤ MAX_AFFECTED_GROUPS ∧
            ∀ g' ∈ gs₂, ∃ gkvs₀, g' = .jobj (anchorFun gkvs₀) ∧
              ∃ gs₀, lookupKey kvs₁ "affected_groups" = some (.jarr gs₀) ∧
                JVal.jobj gkvs₀ ∈ gs₀)) ∧
      (∃ mv, lookupKey kvs₂ "mitigations" = some mv ∧ MitShape mv) ∧
      ((lookupKey kvs₁ "reasoning_summary" = none ∧
          lookupKey kvs₂ "reasoning_summary" = some (.jstr "Analysis completed.")) ∨
        (∃ s₀, lookupKey kvs₁ "reasoning_summary" = some (.jstr s₀) ∧
          lookupKey kvs₂ "reasoning_summary"
            = some (.jstr (normalizeSummaryCode s₀)))) := by
  rw [applyAnchoringLogic_split] at h
  obtain ⟨r₃, hHead, hTail⟩ := exceptBind_ok _ _ _ h
  obtain ⟨kvs₁, kvs₃, rfl, rfl, hpres, agv, hagv, hsh⟩ := anchorHead_inv _ _ hHead
  obtain ⟨kvs₂, rfl, hpres₂, hmit, hsum⟩ := anchorTail_inv _ _ hTail
  refine ⟨kvs₁, kvs₂, rfl, rfl, ⟨agv, ?_, hsh⟩, hmit, ?_⟩
  · rw [hpres₂ _ (by decide) (by decide), hagv]
  · have hrs : lookupKey kvs₃ "reasoning_summary"
        = lookupKey kvs₁ "reasoning_summary" :=
      hpres _ (by decide)
    rcases hsum with ⟨hn, hout⟩ | ⟨s₀, hs₀, hout⟩
    · exact Or.inl ⟨hrs ▸ hn, hout⟩
    · exact Or.inr ⟨s₀, hrs ▸ hs₀, hout⟩

/-- The risk-level values present after the deterministic-rules step:
each dict group of the affected_groups list either lacks risk_level or
carries one of the three enum strings. -/
theorem adr_riskfacts (r r₁ : JVal) (h : applyDeterministicRules r = .ok r₁)
    (kvs₁ : List (String × JVal)) (h₁ : r₁ = .jobj kvs₁) :
    ∀ gs₀, lookupKey kvs₁ "affected_groups" = some (.jarr gs₀) →
    ∀ gkvs₀, JVal.jobj gkvs₀ ∈ gs₀ →
      lookupKey gkvs₀ "risk_level" = none ∨
      ∃ lv, lookupKey gkvs₀ "risk_level" = some (.jstr lv) ∧
        (lv = "Low" ∨ lv = "Medium" ∨ lv = "High") := by
  subst h₁
  rcases forEachGroup_cases _ _ _ h with ⟨heq, hno⟩ |
    ⟨kvs, gs, gs', hr, hlk, hmap, heq⟩
  · intro gs₀ hlk gkvs₀ hmem
    exact absurd hlk (hno kvs₁ gs₀ heq.symm)
  · injection heq with heq
    subst heq
    intro gs₀ hlk gkvs₀ hmem
    rw [lookupKey_setKey_self] at hlk
    injection hlk with hlk
    injection hlk with hlk
    subst hlk
    obtain ⟨g, hgmem, hfg⟩ := forall2_mem_right (mapM_ok_forall2 _ _ _ hmap) _ hmem
    rcases adrGroup_inv g _ hfg with ⟨heq2, hnone⟩ | ⟨gkvs, lv, rfl, hrl, heq2⟩
    · exact Or.inl (hnone gkvs₀ heq2.symm)
    · injection heq2 with heq2
      subst heq2
      exact Or.inr ⟨_, lookupKey_setKey_self _ _ _, riskNormStr_enum_mem _⟩

/-- A group repaired by the anchoring loop and then region-normalized has
the full group shape, given the risk facts established by the
deterministic-rules step. -/
theorem groupShape_nrFun_anchorFun (gkvs₀ : List (String × JVal))
    (hrisk : lookupKey gkvs₀ "risk_level" = none ∨
      ∃ lv, lookupKey gkvs₀ "risk_level" = some (.jstr lv) ∧
        (lv = "Low" ∨ lv = "Medium" ∨ lv = "High")) :
    GroupShape (nrFun (.jobj (anchorFun gkvs₀))) := by
  obtain ⟨⟨gv, hgv, htruthy⟩, hrl, ⟨xs, hrg⟩⟩ := anchorFun_shape gkvs₀
  have hred : nrFun (.jobj (anchorFun gkvs₀))
      = .jobj (setKey (anchorFun gkvs₀) "regions"
          (.jarr ((dedupKeepOrder (xs.map normalizeRegionVal)).map JVal.jstr))) := by
    simp [nrFun, hrg]
  rw [hred]
  refine ⟨_, rfl, ⟨gv, ?_, htruthy⟩, ?_,
    ⟨dedupKeepOrder (xs.map normalizeRegionVal), lookupKey_setKey_self _ _ _,
      dedupKeepOrder_nodup _⟩⟩
  · rw [lookupKey_setKey_ne _ _ _ _ (by decide : ("group" : String) ≠ "regions")]
    exact hgv
  · rcases hrisk with hnone | ⟨lv, hsome, henum⟩
    · refine ⟨"Medium", ?_, Or.inr (Or.inl rfl)⟩
      rw [lookupKey_setKey_ne _ _ _ _
        (by decide : ("risk_level" : String) ≠ "regions"), hrl, hnone]
      rfl
    · refine ⟨lv, ?_, henum⟩
      rw [lookupKey_setKey_ne _ _ _ _
        (by decide : ("risk_level" : String) ≠ "regions"), hrl, hsome]
      rfl

/-- The default summary is a fixed point of summary normalization. -/
theorem nsc_fix_default :
    normalizeSummaryCode "Analysis completed." = "Analysis completed." := by
  rw [normalizeSummaryCode_eq_canonical]
  rfl

/-- Master inversion of the normalization pipeline: a success implies a
dict input, yields a fully shaped result, and the output summary is the
normalization of the input summary (or the default). -/
theorem ppn_ok_inv (r res : JVal) (h : postProcessNormalize r = .ok res) :
    ∃ kvs₀ kvs, r = .jobj kvs₀ ∧ res = .jobj kvs ∧
      ResShape res ∧
      ((lookupKey kvs₀ "reasoning_summary" = none ∧
          lookupKey kvs "reasoning_summary" = some (.jstr "Analysis completed.")) ∨
        (∃ s₀, lookupKey kvs₀ "reasoning_summary" = some (.jstr s₀) ∧
          lookupKey kvs "reasoning_summary"
            = some (.jstr (normalizeSummaryCode s₀)))) := by
  unfold postProcessNormalize at h
  obtain ⟨r₁, hadr, h⟩ := exceptBind_ok _ _ _ h
  obtain ⟨r₂, hanch, h⟩ := exceptBind_ok _ _ _ h
  obtain ⟨r₃, hnr, h⟩ := exceptBind_ok _ _ _ h
  obtain ⟨kvs₁, kvs₂, rfl, rfl, ⟨agv, hag₂, hagsh⟩, ⟨mv, hmv₂, hmsh⟩, hsum₂⟩ :=
    anch_inv _ _ hanch
  obtain ⟨kvs₀, rfl⟩ : ∃ kvs₀, r = .jobj kvs₀ := by
    rcases forEachGroup_cases _ _ _ hadr with ⟨heq, _⟩ | ⟨kvs₀', _, _, hr, _, _, _⟩
    · exact ⟨kvs₁, heq.symm⟩
    · exact ⟨kvs₀', hr⟩
  have hpre := forEachGroup_preserves _ _ _ hadr "reasoning_summary" (by decide)
  simp only [getKey] at hpre
  have hrisk := adr_riskfacts _ _ hadr kvs₁ rfl
  have hsv₂ : ∃ sv, lookupKey kvs₂ "reasoning_summary" = some (.jstr sv) ∧
      normalizeSummaryCode sv = sv := by
    rcases hsum₂ with ⟨h1, h2⟩ | ⟨s₀, h1, h2⟩
    · exact ⟨_, h2, nsc_fix_default⟩
    · exact ⟨_, h2, normalizeSummaryCode_idem s₀⟩
  obtain ⟨sv, hsv, hsvfix⟩ := hsv₂
  have hsumrel : (lookupKey kvs₀ "reasoning_summary" = none ∧
      lookupKey kvs₂ "reasoning_summary" = some (.jstr "Analysis completed.")) ∨
      (∃ s₀, lookupKey kvs₀ "reasoning_summary" = some (.jstr s₀) ∧
        lookupKey kvs₂ "reasoning_summary"
          = some (.jstr (normalizeSummaryCode s₀))) := by
    rcases hsum₂ with ⟨h1, h2⟩ | ⟨s₀, h1, h2⟩
    · exact Or.inl ⟨hpre ▸ h1, h2⟩
    · exact Or.inr ⟨s₀, hpre ▸ h1, h2⟩
  rcases forEachGroup_cases _ _ _ hnr with ⟨heq3, hno3⟩ |
    ⟨kvs₂', gsn, gs₃, heq2, hlk3, hmap3, heq3⟩
  · subst heq3
    rw [ensureKey_present _ _ _ _ hag₂, bind_ok_left,
      ensureKey_present _ _ _ _ hmv₂, bind_ok_left,
      ensureKey_present _ _ _ _ hsv] at h
    cases h
    have hagsh' : AgShape agv := by
      rcases hagsh with rfl | rfl | ⟨gs₂, rfl, hlen, hgs⟩
      · exact Or.inl rfl
      · exact Or.inr (Or.inl rfl)
      · exact absurd hag₂ (hno3 kvs₂ gs₂ rfl)
    exact ⟨kvs₀, kvs₂, rfl, rfl,
      ⟨kvs₂, rfl, ⟨agv, hag₂, hagsh'⟩, ⟨mv, hmv₂, hmsh⟩, ⟨sv, hsv, hsvfix⟩⟩,
      hsumrel⟩
  · injection heq2 with heq2
    subst heq2
    subst heq3
    have hagn : agv = .jarr gsn := Option.some.inj (hag₂.symm.trans hlk3)
    subst hagn
    rcases hagsh with h' | h' | ⟨gs₂, he, hlen, hgs⟩
    · cases h'
    · cases h'
    · injection he with he
      subst he
      rw [ensureKey_present _ _ _ _ (lookupKey_setKey_self _ _ _), bind_ok_left,
        ensureKey_present _ _ _ _ (by
          rw [lookupKey_setKey_ne _ _ _ _
            (by decide : ("mitigations" : String) ≠ "affected_groups")]
          exact hmv₂), bind_ok_left,
        ensureKey_present _ _ _ _ (by
          rw [lookupKey_setKey_ne _ _ _ _
            (by decide : ("reasoning_summary" : String) ≠ "affected_groups")]
          exact hsv)] at h
      cases h
      have hgs₃ : ∀ g₃ ∈ gs₃, GroupShape g₃ := by
        intro g₃ hg₃
        obtain ⟨g, hgmem, hfg⟩ :=
          forall2_mem_right (mapM_ok_forall2 _ _ _ hmap3) _ hg₃
        obtain ⟨gkvs₀, rfl, gs₀, hlk₀, hmem₀⟩ := hgs g hgmem
        rw [nrGroup_obj] at hfg
        injection hfg with hfg
        rw [← hfg]
        exact groupShape_nrFun_anchorFun gkvs₀ (hrisk gs₀ hlk₀ gkvs₀ hmem₀)
      refine ⟨kvs₀, _, rfl, rfl,
        ⟨_, rfl, ⟨.jarr gs₃, lookupKey_setKey_self _ _ _,
          Or.inr (Or.inr ⟨gs₃, rfl, ?_, hgs₃⟩)⟩,
          ⟨mv, by
            rw [lookupKey_setKey_ne _ _ _ _
              (by decide : ("mitigations" : String) ≠ "affected_groups")]
            exact hmv₂, hmsh⟩,
          ⟨sv, by
            rw [lookupKey_setKey_ne _ _ _ _
              (by decide : ("reasoning_summary" : String) ≠ "affected_groups")]
            exact hsv, hsvfix⟩⟩, ?_⟩
      · rw [← (mapM_ok_forall2 _ _ _ hmap3).length_eq]
        exact hlen
      · rcases hsumrel with ⟨h1, h2⟩ | ⟨s₀, h1, h2⟩
        · refine Or.inl ⟨h1, ?_⟩
          rw [lookupKey_setKey_ne _ _ _ _
            (by decide : ("reasoning_summary" : String) ≠ "affected_groups")]
          exact h2
        · refine Or.inr ⟨s₀, h1, ?_⟩
          rw [lookupKey_setKey_ne _ _ _ _
            (by decide : ("reasoning_summary" : String) ≠ "affected_groups")]
          exact h2

/-! ## Forward (totality) direction on schema-well-typed dicts -/

theorem mapM_ok_map {α : Type} (gs : List α) (f : α → Except PyErr α) (t : α → α)
    (h : ∀ g ∈ gs, f g = .ok (t g)) : gs.mapM f = .ok (gs.map t) := by
  induction gs with
  | nil => rfl
  | cons g rest ih =>
      rw [List.mapM_cons, h g (List.mem_cons_self _ _),
        ih (fun x hx => h x (List.mem_cons_of_mem _ hx))]
      rfl

theorem mapM_ok_exists {α : Type} (gs : List α) (f : α → Except PyErr α)
    (h : ∀ g ∈ gs, ∃ g', f g = .ok g') : ∃ gs', gs.mapM f = .ok gs' := by
  induction gs with
  | nil => exact ⟨[], rfl⟩
  | cons g rest ih =>
      obtain ⟨g', hg⟩ := h g (List.mem_cons_self _ _)
      obtain ⟨gs', hgs⟩ := ih (fun x hx => h x (List.mem_cons_of_mem _ hx))
      refine ⟨g' :: gs', ?_⟩
      rw [List.mapM_cons, hg, hgs]
      rfl

theorem adrGroup_obj_none (gkvs : List (String × JVal))
    (h : lookupKey gkvs "risk_level" = none) :
    adrGroup (.jobj gkvs) = .ok (.jobj gkvs) := by
  simp [adrGroup, pyContainsStr_obj, h, bind_ok_left, Pure.pure, Except.pure]

theorem forEachGroup_noag (f : JVal → Except PyErr JVal)
    (kvs : List (String × JVal)) (h : lookupKey kvs "affected_groups" = none) :
    forEachGroup f (.jobj kvs) = .ok (.jobj kvs) := by
  simp [forEachGroup, pyContainsStr_obj, h, bind_ok_left, Pure.pure, Except.pure]

theorem forEachGroup_ag_arr (f : JVal → Except PyErr JVal)
    (kvs : List (String × JVal)) (gs gs' : List JVal)
    (h : lookupKey kvs "affected_groups" = some (.jarr gs))
    (hm : gs.mapM f = .ok gs') :
    forEachGroup f (.jobj kvs)
      = .ok (.jobj (setKey kvs "affected_groups" (.jarr gs'))) := by
  simp only [forEachGroup, pyContainsStr_obj, h, Option.isSome_some, if_true,
    bind_ok_left, pyGetItem, runGroupLoop, pySetItem, Pure.pure, Except.pure]
  rw [hm]
  rfl

/-- The summary phase succeeds when the summary is absent or a string. -/
theorem summaryPhase_ok (kvsB : List (String × JVal))
    (hsum : lookupKey kvsB "reasoning_summary" = none ∨
      ∃ s, lookupKey kvsB "reasoning_summary" = some (.jstr s)) :
    ∃ r₂, summaryPhase (.jobj kvsB) = .ok r₂ := by
  rcases hsum with h | ⟨s, h⟩
  · exact ⟨.jobj (setKey kvsB "reasoning_summary" (.jstr "Analysis completed.")),
      by simp [summaryPhase, pyContainsStr_obj, h, pySetItem, bind_ok_left,
        Pure.pure, Except.pure]⟩
  · exact ⟨.jobj (setKey kvsB "reasoning_summary"
        (.jstr (normalizeSummaryCode s))),
      by simp [summaryPhase, pyContainsStr_obj, h, pyGetItem, pySetItem,
        bind_ok_left, Pure.pure, Except.pure]⟩

/-- The mitigation and summary phases succeed when both fields are absent
or schema-typed. -/
theorem anchorTail_ok (kvs₃ : List (String × JVal))
    (hmit : lookupKey kvs₃ "mitigations" = none ∨
      ∃ ms, lookupKey kvs₃ "mitigations" = some (.jarr ms))
    (hsum : lookupKey kvs₃ "reasoning_summary" = none ∨
      ∃ s, lookupKey kvs₃ "reasoning_summary" = some (.jstr s)) :
    ∃ r₂, anchorTail (.jobj kvs₃) = .ok r₂ := by
  have hne : ("reasoning_summary" : String) ≠ "mitigations" := by decide
  rcases hmit with h | ⟨ms, h⟩
  · obtain ⟨r₂, h₂⟩ := summaryPhase_ok (setKey kvs₃ "mitigations" (.jarr []))
      (by rw [lookupKey_setKey_ne _ _ _ _ hne]; exact hsum)
    refine ⟨r₂, ?_⟩
    simp [anchorTail, pyContainsStr_obj, h, pySetItem, pyGetItem,
      lookupKey_setKey_self, pyLen, MAX_MITIGATIONS, bind_ok_left,
      Pure.pure, Except.pure, h₂]
  · by_cases hm : ms.length > MAX_MITIGATIONS
    · obtain ⟨r₂, h₂⟩ := summaryPhase_ok
        (setKey kvs₃ "mitigations" (.jarr (ms.take MAX_MITIGATIONS)))
        (by rw [lookupKey_setKey_ne _ _ _ _ hne]; exact hsum)
      refine ⟨r₂, ?_⟩
      simp [anchorTail, pyContainsStr_obj, h, pySetItem, pyGetItem,
        pySliceTo, pyLen, hm, bind_ok_left, Pure.pure, Except.pure, h₂]
    · obtain ⟨r₂, h₂⟩ := summaryPhase_ok kvs₃ hsum
      refine ⟨r₂, ?_⟩
      simp [anchorTail, pyContainsStr_obj, h, pyGetItem, pyLen, hm,
        bind_ok_left, Pure.pure, Except.pure, h₂]

theorem anchorHead_noag (kvs₁ : List (String × JVal))
    (h : lookupKey kvs₁ "affected_groups" = none) :
    anchorHead (.jobj kvs₁)
      = .ok (.jobj (setKey (setKey kvs₁ "affected_groups" (.jarr []))
          "affected_groups" (.jarr []))) := by
  have h0 : ¬ ((List.length ([] : List JVal)) > MAX_AFFECTED_GROUPS) := by decide
  simp only [anchorHead, pyContainsStr_obj, h, Option.isSome_none,
    Bool.false_eq_true, if_false, pySetItem, bind_ok_left, pyGetItem,
    lookupKey_setKey_self, pyLen, if_neg h0, runGroupLoop, List.mapM_nil,
    Pure.pure, Except.pure]

theorem anchorHead_ag_arr (kvs₁ : List (String × JVal)) (gs₁ : List JVal)
    (h : lookupKey kvs₁ "affected_groups" = some (.jarr gs₁))
    (hobjs : ∀ g ∈ gs₁, ∃ gk, g = .jobj gk) :
    ∃ kvs₃, anchorHead (.jobj kvs₁) = .ok (.jobj kvs₃) := by
  by_cases hn : gs₁.length > MAX_AFFECTED_GROUPS
  · obtain ⟨gs₂, hm⟩ := mapM_ok_exists (gs₁.take MAX_AFFECTED_GROUPS) anchorGroup
      (fun g hg => by
        obtain ⟨gk, rfl⟩ := hobjs g (List.take_subset _ _ hg)
        exact ⟨_, anchorGroup_obj gk⟩)
    refine ⟨setKey (setKey kvs₁ "affected_groups"
        (.jarr (gs₁.take MAX_AFFECTED_GROUPS))) "affected_groups" (.jarr gs₂), ?_⟩
    simp only [anchorHead, pyContainsStr_obj, h, Option.isSome_some, if_true,
      bind_ok_left, pyGetItem, pyLen, if_pos hn, pySliceTo, pySetItem,
      lookupKey_setKey_self, runGroupLoop, Pure.pure, Except.pure]
    rw [hm]
    rfl
  · obtain ⟨gs₂, hm⟩ := mapM_ok_exists gs₁ anchorGroup
      (fun g hg => by
        obtain ⟨gk, rfl⟩ := hobjs g hg
        exact ⟨_, anchorGroup_obj gk⟩)
    refine ⟨setKey kvs₁ "affected_groups" (.jarr gs₂), ?_⟩
    simp only [anchorHead, pyContainsStr_obj, h, Option.isSome_some, if_true,
      bind_ok_left, pyGetItem, pyLen, if_neg hn, pySetItem, runGroupLoop,
      Pure.pure, Except.pure]
    rw [hm]
    rfl

theorem nr_ok_shaped (kvs₂ : List (String × JVal)) (agv : JVal)
    (hag : lookupKey kvs₂ "affected_groups" = some agv)
    (hsh : agv = .jstr "" ∨ agv = .jobj [] ∨
      ∃ gs₂, agv = .jarr gs₂ ∧ ∀ g ∈ gs₂, ∃ gk, g = .jobj gk) :
    ∃ r₃, normalizeRegions (.jobj kvs₂) = .ok r₃ := by
  rcases hsh with rfl | rfl | ⟨gs₂, rfl, hobjs⟩
  · refine ⟨.jobj kvs₂, ?_⟩
    simp only [normalizeRegions, forEachGroup, pyContainsStr_obj, hag,
      Option.isSome_some, if_true, bind_ok_left, pyGetItem, runGroupLoop,
      show ("" : String).data = [] from rfl, List.map_nil, List.mapM_nil,
      Pure.pure, Except.pure]
  · refine ⟨.jobj kvs₂, ?_⟩
    simp only [normalizeRegions, forEachGroup, pyContainsStr_obj, hag,
      Option.isSome_some, if_true, bind_ok_left, pyGetItem, runGroupLoop,
      List.map_nil, List.mapM_nil, Pure.pure, Except.pure]
  · obtain ⟨gs₃, hm⟩ := mapM_ok_exists gs₂ nrGroup
      (fun g hg => by
        obtain ⟨gk, rfl⟩ := hobjs g hg
        exact ⟨_, nrGroup_obj gk⟩)
    refine ⟨.jobj (setKey kvs₂ "affected_groups" (.jarr gs₃)), ?_⟩
    unfold normalizeRegions
    exact forEachGroup_ag_arr nrGroup kvs₂ gs₂ gs₃ hag hm

theorem ensureKey_ok (kvs : List (String × JVal)) (k : String) (dflt : JVal) :
    ∃ kvs', ensureKey (.jobj kvs) k dflt = .ok (.jobj kvs') := by
  cases hk : lookupKey kvs k with
  | some v => exact ⟨kvs, ensureKey_present _ _ _ _ hk⟩
  | none =>
      refine ⟨setKey kvs k dflt, ?_⟩
      simp [ensureKey, pyContainsStr_obj, hk, pySetItem, bind_ok_left,
        Pure.pure, Except.pure]

/-- The full pipeline succeeds on every schema-well-typed dict. -/
theorem ppn_ok_of_welltyped (kvs : List (String × JVal)) (h : WellTypedResult kvs) :
    ∃ res, postProcessNormalize (.jobj kvs) = .ok res := by
  obtain ⟨hag, hmit, hsum⟩ := h
  have hadr : ∃ kvs₁, applyDeterministicRules (.jobj kvs) = .ok (.jobj kvs₁) ∧
      lookupKey kvs₁ "mitigations" = lookupKey kvs "mitigations" ∧
      lookupKey kvs₁ "reasoning_summary" = lookupKey kvs "reasoning_summary" ∧
      (lookupKey kvs₁ "affected_groups" = none ∨
        ∃ gs₁, lookupKey kvs₁ "affected_groups" = some (.jarr gs₁) ∧
          ∀ g ∈ gs₁, ∃ gk, g = .jobj gk) := by
    rcases hag with h0 | ⟨gs, h0, hwt⟩
    · exact ⟨kvs, forEachGroup_noag _ _ h0, rfl, rfl, Or.inl h0⟩
    · have hok : ∀ g ∈ gs, ∃ g', adrGroup g = .ok g' := by
        intro g hg
        obtain ⟨gk, rfl, hrk⟩ := hwt g hg
        rcases hrk with hn | ⟨lv, hl⟩
        · exact ⟨_, adrGroup_obj_none gk hn⟩
        · exact ⟨_, adrGroup_obj_some gk lv hl⟩
      obtain ⟨gs', hm⟩ := mapM_ok_exists gs adrGroup hok
      refine ⟨setKey kvs "affected_groups" (.jarr gs'),
        by unfold applyDeterministicRules
           exact forEachGroup_ag_arr _ _ _ _ h0 hm,
        lookupKey_setKey_ne _ _ _ _ (by decide),
        lookupKey_setKey_ne _ _ _ _ (by decide),
        Or.inr ⟨gs', lookupKey_setKey_self _ _ _, ?_⟩⟩
      intro g' hg'
      obtain ⟨g, hgmem, hfg⟩ := forall2_mem_right (mapM_ok_forall2 _ _ _ hm) _ hg'
      rcases adrGroup_inv g g' hfg with ⟨heq, _⟩ | ⟨gkvs, lv, hgeq, _, heq⟩
      · obtain ⟨gk, rfl, _⟩ := hwt g hgmem
        exact ⟨gk, heq⟩
      · exact ⟨_, heq⟩
  obtain ⟨kvs₁, h1, hm1, hs1, hag1⟩ := hadr
  have hhead : ∃ kvs₃, anchorHead (.jobj kvs₁) = .ok (.jobj kvs₃) := by
    rcases hag1 with h0 | ⟨gs₁, h0, hobjs⟩
    · exact ⟨_, anchorHead_noag kvs₁ h0⟩
    · exact anchorHead_ag_arr kvs₁ gs₁ h0 hobjs
  obtain ⟨kvs₃, hh⟩ := hhead
  obtain ⟨kvs₁x, kvs₃x, heq1, heq3, hpres, _⟩ := anchorHead_inv _ _ hh
  injection heq1 with heq1
  injection heq3 with heq3
  subst heq1
  subst heq3
  obtain ⟨r₂, ht⟩ := anchorTail_ok kvs₃
    (by rw [hpres _ (by decide), hm1]; exact hmit)
    (by rw [hpres _ (by decide), hs1]; exact hsum)
  have h2 : applyAnchoringLogic (.jobj kvs₁) = .ok r₂ := by
    rw [applyAnchoringLogic_split, hh, bind_ok_left]
    exact ht
  obtain ⟨kvs₁'', kvs₂, heq, rfl, ⟨agv, hag₂, hagsh⟩, _, _⟩ := anch_inv _ _ h2
  have hnr : ∃ r₃, normalizeRegions (.jobj kvs₂) = .ok r₃ := by
    apply nr_ok_shaped kvs₂ agv hag₂
    rcases hagsh with h' | h' | ⟨gs₂, he, _, hgs⟩
    · exact Or.inl h'
    · exact Or.inr (Or.inl h')
    · refine Or.inr (Or.inr ⟨gs₂, he, ?_⟩)
      intro g hg
      obtain ⟨gk, hgk, _⟩ := hgs g hg
      exact ⟨_, hgk⟩
  obtain ⟨r₃, h3⟩ := hnr
  have hr₃ : ∃ kvsr, r₃ = .jobj kvsr := by
    rcases forEachGroup_cases _ _ _ h3 with ⟨rfl, _⟩ | ⟨kvsx, gsx, gsy, _, _, _, rfl⟩
    · exact ⟨kvs₂, rfl⟩
    · exact ⟨_, rfl⟩
  obtain ⟨kvsr, rfl⟩ := hr₃
  obtain ⟨kvsA, hA⟩ := ensureKey_ok kvsr "affected_groups" (.jarr [])
  obtain ⟨kvsB, hB⟩ := ensureKey_ok kvsA "mitigations" (.jarr [])
  obtain ⟨kvsC, hC⟩ :=
    ensureKey_ok kvsB "reasoning_summary" (.jstr "Analysis completed.")
  refine ⟨.jobj kvsC, ?_⟩
  simp only [postProcessNormalize, h1, bind_ok_left, h2, h3, hA, hB, hC,
    Pure.pure, Except.pure]

/-! ## The claims -/

/-- C1 (amended): the normalization pipeline is idempotent on every result
it produces whose region strings are fixed points of region
canonicalization; re-running _post_process_normalize on such a result
returns it unchanged. -/
theorem claim1_idempotent_on_fixed_regions (r res : JVal)
    (h : postProcessNormalize r = .ok res) (hfix : RegionsFixed res) :
    postProcessNormalize res = .ok res := by
  obtain ⟨kvs₀, kvs, _, _, hsh, _⟩ := ppn_ok_inv _ _ h
  exact ppn_fixpoint res hsh hfix

/-- C1 (counterexample): the pipeline is not idempotent as claimed; a group
region mumbai title-cases to Mumbai on the first run and the second run
maps Mumbai through the city table to Maharashtra, so the two runs differ
on affected_groups. -/
theorem claim1_cex : ∃ r res res2,
    postProcessNormalize r = .ok res ∧
    postProcessNormalize res = .ok res2 ∧ res2 ≠ res := by
  refine ⟨.jobj [("affected_groups", .jarr [.jobj [("group", .jstr "G"),
      ("risk_level", .jstr "High"), ("regions", .jarr [.jstr "mumbai"])]])],
    .jobj [("affected_groups", .jarr [.jobj [("group", .jstr "G"),
      ("risk_level", .jstr "High"), ("regions", .jarr [.jstr "Mumbai"])]]),
      ("mitigations", .jarr []),
      ("reasoning_summary", .jstr "Analysis completed.")],
    .jobj [("affected_groups", .jarr [.jobj [("group", .jstr "G"),
      ("risk_level", .jstr "High"), ("regions", .jarr [.jstr "Maharashtra"])]]),
      ("mitigations", .jarr []),
      ("reasoning_summary", .jstr (normalizeSummaryCode "Analysis completed."))],
    rfl, rfl, fun hcontra =>
      absurd (congrArg (fun v => firstGroupRegions (Except.ok v)) hcontra)
        (by decide)⟩

/-- C1 (witness): the empty dict normalizes, its result has fixed regions,
and re-running the pipeline on that result returns it unchanged. -/
theorem claim1_witness :
    postProcessNormalize (.jobj []) = .ok (.jobj
      [("affected_groups", .jarr []), ("mitigations", .jarr []),
       ("reasoning_summary", .jstr "Analysis completed.")]) ∧
    postProcessNormalize (.jobj
      [("affected_groups", .jarr []), ("mitigations", .jarr []),
       ("reasoning_summary", .jstr "Analysis completed.")]) = .ok (.jobj
      [("affected_groups", .jarr []), ("mitigations", .jarr []),
       ("reasoning_summary", .jstr "Analysis completed.")]) := by
  refine ⟨rfl, claim1_idempotent_on_fixed_regions (.jobj []) _ rfl ?_⟩
  intro g hg
  rw [show objGroups (.jobj
      [("affected_groups", .jarr []), ("mitigations", .jarr []),
       ("reasoning_summary", .jstr "Analysis completed.")]) = [] from rfl] at hg
  cases hg

/-- C6: region canonicalization trims, maps exact city-table matches to
the state name, title-cases everything else, and de-duplicates preserving
first occurrence; Mumbai maps to Maharashtra, bihar to Bihar, and the
list Bihar, bihar, Bihar collapses to the single entry Bihar, also through
the full pipeline. -/
theorem claim6_region_canonicalization :
    normalizeRegionVal (.jstr "Mumbai") = "Maharashtra" ∧
    normalizeRegionVal (.jstr "bihar") = "Bihar" ∧
    dedupKeepOrder
      (["Bihar", "bihar", "Bihar"].map (fun s => normalizeRegionVal (.jstr s)))
      = ["Bihar"] ∧
    postProcessNormalize (.jobj [("affected_groups", .jarr [.jobj
      [("group", .jstr "G"), ("risk_level", .jstr "Low"),
       ("regions", .jarr [.jstr "Mumbai", .jstr "bihar", .jstr "Bihar"])]])])
      = .ok (.jobj [("affected_groups", .jarr [.jobj
      [("group", .jstr "G"), ("risk_level", .jstr "Low"),
       ("regions", .jarr [.jstr "Maharashtra", .jstr "Bihar"])]]),
      ("mitigations", .jarr []),
      ("reasoning_summary", .jstr "Analysis completed.")]) :=
  ⟨by decide, by decide, by decide, rfl⟩

/-- C7: the risk mapping strips and case-folds the raw value and maps the
three synonym sets onto the enum, sending anything else (and a missing
value, through the anchoring default) to Medium; the code-side map agrees
with the spec-side map on every string, and l, LOW, Low-with-space map to
Low while critical maps to Medium, also through the full pipeline. -/
theorem claim7_risk_mapping :
    (∀ s, riskNormStr (pyStrip s) = specRiskMap s) ∧
    riskNormStr (pyStrip "l") = "Low" ∧
    riskNormStr (pyStrip "LOW") = "Low" ∧
    riskNormStr (pyStrip "Low ") = "Low" ∧
    riskNormStr (pyStrip "critical") = "Medium" ∧
    postProcessNormalize (.jobj [("affected_groups", .jarr [
      .jobj [("group", .jstr "A"), ("risk_level", .jstr "l"),
             ("regions", .jarr [])],
      .jobj [("group", .jstr "B"), ("regions", .jarr [])]])])
      = .ok (.jobj [("affected_groups", .jarr [
      .jobj [("group", .jstr "A"), ("risk_level", .jstr "Low"),
             ("regions", .jarr [])],
      .jobj [("group", .jstr "B"), ("regions", .jarr []),
             ("risk_level", .jstr "Medium")]]),
      ("mitigations", .jarr []),
      ("reasoning_summary", .jstr "Analysis completed.")]) := by
  refine ⟨?_, by decide, by decide, by decide, by decide, rfl⟩
  intro s
  simp only [riskNormStr, specRiskMap]
  split_ifs <;> simp_all

/-- Helper for the risk enum: groups of a shaped result carry enum risk
strings. -/
theorem objGroups_risk_enum (res : JVal) (h : ResShape res) :
    ∀ g ∈ objGroups res,
      groupRiskStr g = some "Low" ∨ groupRiskStr g = some "Medium" ∨
        groupRiskStr g = some "High" := by
  obtain ⟨kvs, rfl, ⟨agv, hag, hsh⟩, _, _⟩ := h
  intro g hg
  have hgrp : GroupShape g := by
    rcases hsh with rfl | rfl | ⟨gs, rfl, _, hgs⟩
    · rw [show objGroups (.jobj kvs) = [] by
        simp [objGroups, getKey, hag]] at hg
      cases hg
    · rw [show objGroups (.jobj kvs) = [] by
        simp [objGroups, getKey, hag]] at hg
      cases hg
    · rw [show objGroups (.jobj kvs) = gs by
        simp [objGroups, getKey, hag]] at hg
      exact hgs g hg
  obtain ⟨gkvs, rfl, _, ⟨lv, hlv, henum⟩, _⟩ := hgrp
  have : groupRiskStr (.jobj gkvs) = some lv := by
    simp [groupRiskStr, getKey, hlv]
  rw [this]
  rcases henum with rfl | rfl | rfl
  · exact Or.inl rfl
  · exact Or.inr (Or.inl rfl)
  · exact Or.inr (Or.inr rfl)

/-- C2 (amended): every result the normalization pipeline returns carries
only the three enum risk strings, while the degraded results synthesized
for quota, authentication and generic failures carry the non-enum string
Unknown in their single affected group. -/
theorem claim2_risk_enum_amended :
    (∀ r res, postProcessNormalize r = .ok res →
      ∀ g ∈ objGroups res,
        groupRiskStr g = some "Low" ∨ groupRiskStr g = some "Medium" ∨
          groupRiskStr g = some "High") ∧
    (∀ dstr, ∀ g ∈ objGroups (quotaResult dstr),
      groupRiskStr g = some "Unknown") ∧
    (∀ g ∈ objGroups authResult, groupRiskStr g = some "Unknown") ∧
    (∀ estr, ∀ g ∈ objGroups (genericResult estr),
      groupRiskStr g = some "Unknown") := by
  refine ⟨?_, ?_, ?_, ?_⟩
  · intro r res h
    obtain ⟨_, _, _, _, hsh, _⟩ := ppn_ok_inv _ _ h
    exact objGroups_risk_enum res hsh
  · intro dstr g hg
    rw [show objGroups (quotaResult dstr)
        = [JVal.jobj [("group", .jstr "API Quota Exceeded"),
            ("risk_level", .jstr "Unknown"), ("regions", .jarr [])]] from rfl] at hg
    obtain rfl := List.mem_singleton.mp hg
    rfl
  · intro g hg
    rw [show objGroups authResult
        = [JVal.jobj [("group", .jstr "API Authentication Error"),
            ("risk_level", .jstr "Unknown"), ("regions", .jarr [])]] from rfl] at hg
    obtain rfl := List.mem_singleton.mp hg
    rfl
  · intro estr g hg
    rw [show objGroups (genericResult estr)
        = [JVal.jobj [("group", .jstr "Error analyzing data"),
            ("risk_level", .jstr "Unknown"), ("regions", .jarr [])]] from rfl] at hg
    obtain rfl := List.mem_singleton.mp hg
    rfl

/-- C2 (counterexample): analyze passes the non-enum risk string Unknown
to the caller on the quota-degraded path, refuting the claim that every
affected group of every analyze result has an enum risk level. -/
theorem claim2_cex :
    ∃ g, g ∈ objGroups (analyze (fun _ => none) "" "" (.apiError "429" "429")) ∧
      groupRiskStr g = some "Unknown" :=
  ⟨.jobj [("group", .jstr "API Quota Exceeded"),
          ("risk_level", .jstr "Unknown"), ("regions", .jarr [])],
    List.mem_singleton_self _, rfl⟩

/-- C2 (witness): the pipeline part of the amended claim at a concrete
input: the one-group dict normalizes and its group risk is the enum value
Low. -/
theorem claim2_witness :
    postProcessNormalize (.jobj [("affected_groups", .jarr [.jobj
      [("group", .jstr "W"), ("risk_level", .jstr "low"),
       ("regions", .jarr [])]])]) = .ok (.jobj [("affected_groups", .jarr [.jobj
      [("group", .jstr "W"), ("risk_level", .jstr "Low"),
       ("regions", .jarr [])]]),
      ("mitigations", .jarr []),
      ("reasoning_summary", .jstr "Analysis completed.")]) ∧
    ∀ g ∈ objGroups (.jobj [("affected_groups", .jarr [.jobj
      [("group", .jstr "W"), ("risk_level", .jstr "Low"),
       ("regions", .jarr [])]]),
      ("mitigations", .jarr []),
      ("reasoning_summary", .jstr "Analysis completed.")]),
      groupRiskStr g = some "Low" ∨ groupRiskStr g = some "Medium" ∨
        groupRiskStr g = some "High" :=
  ⟨rfl, claim2_risk_enum_amended.1
    (.jobj [("affected_groups", .jarr [.jobj
      [("group", .jstr "W"), ("risk_level", .jstr "low"),
       ("regions", .jarr [])]])])
    (.jobj [("affected_groups", .jarr [.jobj
      [("group", .jstr "W"), ("risk_level", .jstr "Low"),
       ("regions", .jarr [])]]),
      ("mitigations", .jarr []),
      ("reasoning_summary", .jstr "Analysis completed.")]) rfl⟩

/-- Helper: the failure classifier always returns a dict holding the three
required keys. -/
theorem classify_keys (estr erepr : String) :
    ∃ kvs, classifyFailureStr estr erepr = .jobj kvs ∧
      (lookupKey kvs "affected_groups").isSome = true ∧
      (lookupKey kvs "mitigations").isSome = true ∧
      (lookupKey kvs "reasoning_summary").isSome = true := by
  unfold classifyFailureStr
  by_cases hq : isQuotaError estr erepr
  · rw [if_pos hq]
    exact ⟨_, rfl, rfl, rfl, rfl⟩
  · rw [if_neg hq]
    by_cases ha : isAuthError estr erepr
    · rw [if_pos ha]
      exact ⟨_, rfl, rfl, rfl, rfl⟩
    · rw [if_neg ha]
      exact ⟨_, rfl, rfl, rfl, rfl⟩

/-- C3: for every parsing behaviour, every pair of input texts and every
model outcome (text, empty text, or a raised exception), analyze returns a
dict that contains all three top-level keys affected_groups, mitigations
and reasoning_summary. -/
theorem claim3_analyze_total :
    ∀ (parse : String → Option JVal) (p d : String) (outcome : ModelOutcome),
      ∃ kvs, analyze parse p d outcome = .jobj kvs ∧
        (lookupKey kvs "affected_groups").isSome = true ∧
        (lookupKey kvs "mitigations").isSome = true ∧
        (lookupKey kvs "reasoning_summary").isSome = true := by
  intro parse p d outcome
  cases outcome with
  | apiError estr erepr => exact classify_keys estr erepr
  | success t =>
      by_cases ht : t = ""
      · subst ht
        exact ⟨_, rfl, rfl, rfl, rfl⟩
      · have hred : analyze parse p d (.success t)
            = (match parseWithFenceRecovery parse t with
                | .ok r =>
                    (match postProcessNormalize r with
                     | .ok res => res
                     | .error e => classifyFailureStr e.msg e.reprStr)
                | .error e => classifyFailureStr e.msg e.reprStr) := by
          simp only [analyze]
          rw [if_neg ht]
        rw [hred]
        cases hp : parseWithFenceRecovery parse t with
        | error e => exact classify_keys e.msg e.reprStr
        | ok r =>
            show ∃ kvs, (match postProcessNormalize r with
                | .ok res => res
                | .error e => classifyFailureStr e.msg e.reprStr) = .jobj kvs ∧
              (lookupKey kvs "affected_groups").isSome = true ∧
              (lookupKey kvs "mitigations").isSome = true ∧
              (lookupKey kvs "reasoning_summary").isSome = true
            cases hn : postProcessNormalize r with
            | error e => exact classify_keys e.msg e.reprStr
            | ok res =>
                obtain ⟨kvs₀, kvs, _, rfl, hsh, _⟩ := ppn_ok_inv _ _ hn
                obtain ⟨kvsr, heq, ⟨agv, hag, _⟩, ⟨mv, hmv, _⟩, ⟨sv, hsv, _⟩⟩ := hsh
                injection heq with heq
                subst heq
                exact ⟨kvs, rfl, by rw [hag]; rfl, by rw [hmv]; rfl,
                  by rw [hsv]; rfl⟩

/-- C5: the pipeline collapses whitespace runs of the reasoning summary to
single spaces, trims, truncates to the first 35 words appending a period
when the truncation does not end with one, and substitutes the default
text Analysis completed. when the summary is missing; stated against the
spec-side summary normalizer specSummary. -/
theorem claim5_summary_normalization (r res : JVal)
    (kvs₀ : List (String × JVal)) (h : postProcessNormalize r = .ok res)
    (hr : r = .jobj kvs₀) :
    (∀ s₀, lookupKey kvs₀ "reasoning_summary" = some (.jstr s₀) →
      summaryOf res = some (specSummary s₀)) ∧
    (lookupKey kvs₀ "reasoning_summary" = none →
      summaryOf res = some "Analysis completed.") := by
  subst hr
  obtain ⟨kvs₀x, kvs, heq0, rfl, _, hsum⟩ := ppn_ok_inv _ _ h
  injection heq0 with heq0
  subst heq0
  constructor
  · intro s₀ hs₀
    rcases hsum with ⟨h1, _⟩ | ⟨s₁, h1, h2⟩
    · rw [hs₀] at h1
      cases h1
    · rw [hs₀] at h1
      injection h1 with h1
      injection h1 with h1
      subst h1
      rw [← normalizeSummaryCode_eq_spec]
      simp [summaryOf, getKey, h2]
  · intro hnone
    rcases hsum with ⟨h1, h2⟩ | ⟨s₁, h1, h2⟩
    · simp [summaryOf, getKey, h2]
    · rw [hnone] at h1
      cases h1

/-- C5 (witness): the pipeline at a concrete dict whose summary has a
whitespace run: the output summary is the spec-side normalization of the
input summary. -/
theorem claim5_witness :
    postProcessNormalize (.jobj [("reasoning_summary", .jstr "hi   there")])
      = .ok (.jobj [("reasoning_summary",
          .jstr (normalizeSummaryCode "hi   there")),
        ("affected_groups", .jarr []), ("mitigations", .jarr [])]) ∧
    summaryOf (.jobj [("reasoning_summary",
          .jstr (normalizeSummaryCode "hi   there")),
        ("affected_groups", .jarr []), ("mitigations", .jarr [])])
      = some (specSummary "hi   there") :=
  ⟨rfl, (claim5_summary_normalization
    (.jobj [("reasoning_summary", .jstr "hi   there")])
    (.jobj [("reasoning_summary", .jstr (normalizeSummaryCode "hi   there")),
      ("affected_groups", .jarr []), ("mitigations", .jarr [])])
    [("reasoning_summary", .jstr "hi   there")] rfl rfl).1 "hi   there" rfl⟩

/-- C4 (amended): the pipeline succeeds only on dict inputs, and it is
total on schema-well-typed dicts; totality on arbitrary dicts is refuted
by the counterexample. -/
theorem claim4_total_amended :
    (∀ r res, postProcessNormalize r = .ok res → ∃ kvs, r = .jobj kvs) ∧
    (∀ kvs, WellTypedResult kvs →
      ∃ res, postProcessNormalize (.jobj kvs) = .ok res) := by
  constructor
  · intro r res h
    obtain ⟨kvs₀, _, rfl, _⟩ := ppn_ok_inv _ _ h
    exact ⟨kvs₀, rfl⟩
  · exact ppn_ok_of_welltyped

/-- C4 (counterexample): a dict input on which the pipeline raises: a
non-string reasoning_summary reaches .strip() and the AttributeError
escapes _post_process_normalize, refuting totality on dict inputs. -/
theorem claim4_cex :
    postProcessNormalize (.jobj [("reasoning_summary", .jint 5)])
      = .error (.attributeError "object has no attribute strip") := rfl

/-- C4 (witness): both amended parts at concrete inputs: the empty dict is
the dict behind its own successful run, and a well-typed one-key dict
normalizes. -/
theorem claim4_witness :
    (∃ kvs, (JVal.jobj [] : JVal) = .jobj kvs) ∧
    (∃ res, postProcessNormalize (.jobj [("mitigations", .jarr [.jstr "m"])])
      = .ok res) :=
  ⟨claim4_total_amended.1 (.jobj [])
      (.jobj [("affected_groups", .jarr []), ("mitigations", .jarr []),
        ("reasoning_summary", .jstr "Analysis completed.")]) rfl,
    claim4_total_amended.2 [("mitigations", .jarr [.jstr "m"])]
      ⟨Or.inl rfl, Or.inr ⟨[.jstr "m"], rfl⟩, Or.inl rfl⟩⟩

/-- C8: an error whose text matches the quota tokens makes analyze return
the quota-degraded result, whose error_type is quota_exceeded and whose
mitigations include the retry line built from the extracted delay; the
delay extraction floors "retry in 12.5s" to 12 and defaults to 60 when
the pattern is absent. -/
theorem claim8_quota_classification :
    (∀ (parse : String → Option JVal) (p d estr erepr : String),
      isQuotaError estr erepr = true →
        analyze parse p d (.apiError estr erepr)
          = quotaResult (extractRetryDelay
              (pyLower estr ++ " " ++ pyLower erepr))) ∧
    (∀ dstr, getKey (quotaResult dstr) "error_type"
        = some (.jstr "quota_exceeded") ∧
      JVal.jstr ("Retry after " ++ dstr ++ " seconds.")
        ∈ mitigationsOf (quotaResult dstr)) ∧
    extractRetryDelay "error 429: please retry in 12.5s now" = "12" ∧
    extractRetryDelay "error 429" = "60" := by
  refine ⟨?_, ?_, by decide, by decide⟩
  · intro parse p d estr erepr h
    simp only [analyze, classifyFailureStr]
    rw [if_pos h]
  · intro dstr
    exact ⟨rfl, List.mem_cons_of_mem _ (List.mem_cons_self _ _)⟩

/-- C8 (witness): the quota classification at a concrete 429 error whose
text carries "retry in 12.5s": the degraded result is the quota result
with the floored delay 12. -/
theorem claim8_witness :
    isQuotaError "Error 429: retry in 12.5s" "" = true ∧
    analyze (fun _ => none) "" "" (.apiError "Error 429: retry in 12.5s" "")
      = quotaResult "12" := by
  refine ⟨by decide, ?_⟩
  rw [claim8_quota_classification.1 (fun _ => none) "" "" _ _ (by decide)]
  rfl

/-- C9 (amended): used_demographics is None, not a boolean, when no
demographic file is supplied, and on the file path its truthiness is
exactly the conjunction the claim describes: nonempty filename, nonempty
digest, and neither placeholder marker present. -/
theorem claim9_flag_truthiness_amended :
    (∀ text, usedDemographics none text = .pnone) ∧
    (∀ fname text, flagTruthy (usedDemographics (some fname) text)
      = (decide (fname ≠ "") && decide (text ≠ "") &&
         !strIn "Error loading" text && !strIn "No demographic" text)) := by
  refine ⟨fun _ => rfl, ?_⟩
  intro fname text
  by_cases h1 : fname = "" <;> by_cases h2 : text = "" <;>
    cases he : strIn "Error loading" text <;>
      cases hn : strIn "No demographic" text <;>
        simp [usedDemographics, pyAndFlag, flagTruthy, h1, h2, he, hn]

/-- C9 (counterexample): with no demographic file the field is None, which
is not a boolean, refuting the claim that demographics_used is always a
boolean and false in that case. -/
theorem claim9_cex :
    usedDemographics none "" = .pnone ∧ ∀ b, PyFlagVal.pnone ≠ .pbool b :=
  ⟨rfl, by decide⟩

theorem any_false_of_forall {α : Type} (l : List α) (p : α → Bool)
    (h : ∀ x ∈ l, p x = false) : l.any p = false := by
  induction l with
  | nil => rfl
  | cons a as ih => simp_all

theorem find?_none_of_forall {α : Type} (l : List α) (p : α → Bool)
    (h : ∀ x ∈ l, p x = false) : l.find? p = none := by
  induction l with
  | nil => rfl
  | cons a as ih =>
      rw [List.find?_cons, h a (List.mem_cons_self _ _)]
      exact ih (fun x hx => h x (List.mem_cons_of_mem _ hx))

theorem forall_of_any_false {α : Type} (l : List α) (p : α → Bool)
    (h : l.any p = false) : ∀ x ∈ l, p x = false := by
  induction l with
  | nil => intro x hx; cases hx
  | cons a as ih =>
      intro x hx
      rw [List.any_cons] at h
      rcases List.mem_cons.mp hx with rfl | hx'
      · exact (Bool.or_eq_false_iff.mp h).1
      · exact ih (Bool.or_eq_false_iff.mp h).2 x hx'

/-- C10 (amended): when no column name matches any keyword of the
taxonomy, the summary is exactly the record-count line, because the parts
list always starts with it; the fallback line is not produced. -/
theorem claim10_total_line_amended (df : DataFrame)
    (h : noKeywordCols df = true) :
    generateDemographicSummary df = "Total records: " ++ toString df.numRows := by
  have hall : ∀ c ∈ df.cols, ∀ kw ∈
      ["population", "pop", "rural", "urban", "income", "wage", "salary",
       "education", "literacy", "literate", "region", "state", "district",
       "area", "location", "unemployment", "poverty", "vulnerable",
       "disability", "elderly", "children", "internet", "digital",
       "technology", "mobile", "smartphone", "employment", "employed", "job"],
      colMatches kw c = false := by
    intro c hc kw hkw
    have h1 : df.cols.any (colMatchesAny
        ["population", "pop", "rural", "urban", "income", "wage", "salary",
         "education", "literacy", "literate", "region", "state", "district",
         "area", "location", "unemployment", "poverty", "vulnerable",
         "disability", "elderly", "children", "internet", "digital",
         "technology", "mobile", "smartphone", "employment", "employed",
         "job"]) = false := by
      have h2 := h
      unfold noKeywordCols at h2
      cases hv : df.cols.any (colMatchesAny _) <;> simp_all
    have h3 := forall_of_any_false _ _ h1 c hc
    unfold colMatchesAny at h3
    exact forall_of_any_false _ _ h3 kw hkw
  have hanyL : ∀ (L : List String),
      (∀ kw ∈ L, ∀ c ∈ df.cols, colMatches kw c = false) →
      df.cols.any (colMatchesAny L) = false := by
    intro L hL
    apply any_false_of_forall
    intro c hc
    unfold colMatchesAny
    exact any_false_of_forall _ _ (fun kw hkw => hL kw hkw c hc)
  have hfindL : ∀ (L : List String),
      (∀ kw ∈ L, ∀ c ∈ df.cols, colMatches kw c = false) →
      df.cols.find? (colMatchesAny L) = none := by
    intro L hL
    apply find?_none_of_forall
    intro c hc
    unfold colMatchesAny
    exact any_false_of_forall _ _ (fun kw hkw => hL kw hkw c hc)
  have hfindK : ∀ kw : String, (∀ c ∈ df.cols, colMatches kw c = false) →
      df.cols.find? (colMatches kw) = none :=
    fun kw hkw => find?_none_of_forall _ _ hkw
  have hpop : popLines df = [] := by
    rw [popLines, hanyL _ (fun kw hkw c hc => hall c hc kw (by
      fin_cases hkw <;> decide))]
    simp
  have hru : ruralUrbanLines df = [] := by
    rw [ruralUrbanLines, hanyL _ (fun kw hkw c hc => hall c hc kw (by
      fin_cases hkw <;> decide))]
    simp
  have hinc : incomeLines df = [] := by
    rw [incomeLines, hanyL _ (fun kw hkw c hc => hall c hc kw (by
      fin_cases hkw <;> decide))]
    simp
  have hedu : eduLines df = [] := by
    rw [eduLines, hanyL _ (fun kw hkw c hc => hall c hc kw (by
      fin_cases hkw <;> decide))]
    simp
  have hreg : regionLines df = [] := by
    rw [regionLines, hfindL _ (fun kw hkw c hc => hall c hc kw (by
      fin_cases hkw <;> decide))]
  have hemp : empLines df = [] := by
    rw [empLines, hanyL _ (fun kw hkw c hc => hall c hc kw (by
      fin_cases hkw <;> decide))]
    simp
  have hvuln : ∀ kw ∈ ["unemployment", "poverty", "vulnerable", "disability",
      "elderly", "children"], vulnLinesFor df kw = [] := by
    intro kw hkw
    rw [vulnLinesFor, hfindK kw (fun c hc => hall c hc kw (by
      fin_cases hkw <;> decide))]
  have htech : ∀ kw ∈ ["internet", "digital", "technology", "mobile",
      "smartphone"], techLinesFor df kw = [] := by
    intro kw hkw
    rw [techLinesFor, hfindK kw (fun c hc => hall c hc kw (by
      fin_cases hkw <;> decide))]
  rw [generateDemographicSummary]
  simp only [hpop, hru, hinc, hedu, hreg, hemp,
    hvuln "unemployment" (by simp), hvuln "poverty" (by simp),
    hvuln "vulnerable" (by simp), hvuln "disability" (by simp),
    hvuln "elderly" (by simp), hvuln "children" (by simp),
    htech "internet" (by simp), htech "digital" (by simp),
    htech "technology" (by simp), htech "mobile" (by simp),
    htech "smartphone" (by simp), List.map_cons, List.map_nil,
    List.append_nil, List.flatten]
  rfl

/-- C10 (counterexample): a two-row frame with one non-matching column:
the summary is the record-count line, not the fallback, refuting the
claim that the output is the fallback line. -/
theorem claim10_cex :
    generateDemographicSummary ⟨2, [⟨"colx", .object, []⟩]⟩
      = "Total records: 2" ∧
    strIn "no key indicators identified"
      (generateDemographicSummary ⟨2, [⟨"colx", .object, []⟩]⟩) = false := by
  constructor <;> decide

/-- C10 (witness): the amended statement at a concrete frame with a
non-matching numeric column. -/
theorem claim10_witness :
    noKeywordCols ⟨7, [⟨"widgets", .int64, []⟩]⟩ = true ∧
    generateDemographicSummary ⟨7, [⟨"widgets", .int64, []⟩]⟩
      = "Total records: " ++ toString (7 : Nat) :=
  ⟨by decide, claim10_total_line_amended ⟨7, [⟨"widgets", .int64, []⟩]⟩ (by decide)⟩

end PolicyLens
